import Mathlib

/-!
# PBM pick'em editor: the document state engine of `src/App.jsx`

A shallow embedding of the undo/redo history manager, the document mutators
and the analytics helpers of `src/App.jsx`, followed by theorems about them.

Modelling conventions.

* Documents are JSON-representable values.  On such values
  `JSON.parse(JSON.stringify(x))` is a structural copy, and two values have
  the same `JSON.stringify` text exactly when they are structurally equal, so
  the deep copy is the identity and the text comparison is `=`.
* An out-of-range array read gives the JavaScript value `undefined`; a field
  that can hold it is an `Option`, with `none` for `undefined`.
* `Date.now()` is an explicit parameter `now`.
-/

namespace PBM

/-! ## History manager (`App.jsx` 463-544) -/

/-- `const MAX_HISTORY = 50;` -/
def MAX_HISTORY : Nat := 50

/-- The state held by `appStateHistory`.  `current` is `none` when it is the
JavaScript `undefined` (what `history[i]` gives out of range). -/
structure HistoryState (D : Type) where
  current : Option D
  history : List D
  index : Nat
deriving DecidableEq, Repr

/-- The argument of `setAppState`: a new document or an updater function. -/
inductive StateOrFn (D : Type) where
  | value (newState : D)
  | fn (f : D → D)

/-- The initial value of `appStateHistory` (lines 465-469, and 483-487 after a
load): one entry, cursor on it. -/
def initialHistory {D : Type} (d0 : D) : HistoryState D :=
  { current := some d0, history := [d0], index := 0 }

/-- The updater of `setAppState` (lines 514-528).  The result is `none` when an
updater function is applied to an `undefined` current document, which no typed
updater accepts. -/
def setAppState {D : Type} [DecidableEq D] (prevState : HistoryState D)
    (newStateOrFn : StateOrFn D) : Option (HistoryState D) :=
  let applied : Option D :=
    match newStateOrFn with
    | .value newState => some newState
    | .fn f => prevState.current.map f
  match applied with
  | none => none
  | some newState =>
    if some newState = prevState.current then some prevState
    else
      let stateToStore := newState
      let newHistory := prevState.history.take (prevState.index + 1) ++ [stateToStore]
      let newIndex := newHistory.length - 1
      if newHistory.length > MAX_HISTORY then
        some { current := some stateToStore, history := newHistory.drop 1, index := newIndex - 1 }
      else
        some { current := some stateToStore, history := newHistory, index := newIndex }

/-- The updater of `undo` (lines 530-536). -/
def undo {D : Type} (prevState : HistoryState D) : HistoryState D :=
  if prevState.index ≤ 0 then prevState
  else
    let newIndex := prevState.index - 1
    { prevState with current := prevState.history[newIndex]?, index := newIndex }

/-- The updater of `redo` (lines 538-544). -/
def redo {D : Type} (prevState : HistoryState D) : HistoryState D :=
  if prevState.index ≥ prevState.history.length - 1 then prevState
  else
    let newIndex := prevState.index + 1
    { prevState with current := prevState.history[newIndex]?, index := newIndex }

/-- The history states reachable from the initial state on `d0` by commits,
undo and redo. -/
inductive Reachable {D : Type} [DecidableEq D] (d0 : D) : HistoryState D → Prop where
  | init : Reachable d0 (initialHistory d0)
  | commit {s s' : HistoryState D} (a : StateOrFn D) :
      Reachable d0 s → setAppState s a = some s' → Reachable d0 s'
  | undo {s : HistoryState D} : Reachable d0 s → Reachable d0 (undo s)
  | redo {s : HistoryState D} : Reachable d0 s → Reachable d0 (redo s)

/-- Commit the documents of a list one after the other. -/
def commitAll {D : Type} [DecidableEq D] : HistoryState D → List D → Option (HistoryState D)
  | s, [] => some s
  | s, d :: ds => (setAppState s (.value d)).bind (fun s' => commitAll s' ds)

/-! ## Entities (`App.jsx` 69-91, 141-161) -/

/-- A pick slot: `null` (`none`) or an asset reference (the icon's `src`). -/
abbrev Slot := Option String

/-- The three pick areas of a row. -/
inductive Area where
  | three0
  | pass
  | out
deriving DecidableEq, Repr

/-- The slot count of an area, as `createRow` allocates it. -/
def Area.size : Area → Nat
  | .three0 => 2
  | .pass => 6
  | .out => 2

/-- One player row. -/
structure Row where
  id : String
  nick : String
  avatar : String
  avatarScale : Int
  avatarPosX : Int
  avatarPosY : Int
  three0 : List Slot
  pass : List Slot
  out : List Slot
  nickFontSize : Int
deriving DecidableEq, Repr

/-- The read `r[area]`. -/
def Row.area (r : Row) : Area → List Slot
  | .three0 => r.three0
  | .pass => r.pass
  | .out => r.out

/-- The object `{ ...r, [area]: v }`. -/
def Row.setArea (r : Row) (area : Area) (v : List Slot) : Row :=
  match area with
  | .three0 => { r with three0 := v }
  | .pass => { r with pass := v }
  | .out => { r with out := v }

/-- `createRow` (lines 69-80). -/
def createRow (i : Nat) : Row :=
  { id := "r-" ++ toString i
    nick := "Player " ++ toString (i + 1)
    avatar := ""
    avatarScale := 100
    avatarPosX := 50
    avatarPosY := 50
    three0 := List.replicate 2 none
    pass := List.replicate 6 none
    out := List.replicate 2 none
    nickFontSize := 14 }

/-- `getInitialRows` (line 82). -/
def getInitialRows (count : Nat) : List Row :=
  (List.range count).map (fun i => createRow i)

/-- The answer key of a stage. -/
structure CorrectTeams where
  three0 : List Slot
  pass : List Slot
  out : List Slot
deriving DecidableEq, Repr

/-- The read `correctTeams[area]`. -/
def CorrectTeams.area (c : CorrectTeams) : Area → List Slot
  | .three0 => c.three0
  | .pass => c.pass
  | .out => c.out

/-- A statistics entry: a copy of a row with its score. -/
structure StatEntry extends Row where
  score : Int
deriving DecidableEq, Repr

/-- One stage. -/
structure Stage where
  id : String
  name : String
  rows : List Row
  rowCount : Nat
  stats : List StatEntry
  correctTeams : CorrectTeams
deriving DecidableEq, Repr

/-- `createStage` (lines 84-91); `now` is `Date.now()`, a missing or empty
`name` is `none` or `""`. -/
def createStage (now : Nat) (name : Option String) (index : Nat) : Stage :=
  { id := "s-" ++ toString now ++ "-" ++ toString index
    name := match name with
      | some n => if n = "" then "Этап " ++ toString (index + 1) else n
      | none => "Этап " ++ toString (index + 1)
    rows := getInitialRows 10
    rowCount := 10
    stats := []
    correctTeams := { three0 := [], pass := [], out := [] } }

/-- A library icon. -/
structure LibraryAsset where
  id : String
  src : String
  name : String
  categoryId : Option String
deriving DecidableEq, Repr

/-- A library category, the projection of a stage. -/
structure Category where
  id : String
  name : String
deriving DecidableEq, Repr

/-- The document (`appState`). -/
structure Doc where
  schemaVersion : Nat
  stages : List Stage
  activeStageId : String
  library : List LibraryAsset
  libraryCategories : List Category
  bg : String
  bgImg : String
  bgScale : Int
  bgPosX : Int
  bgPosY : Int
  verticalPad : Int
  horizontalPad : Int
  borderRadius : Int
  avatarsEnabled : Bool
  highlightPicksEnabled : Bool
  popularitySortEnabled : Bool
  nickColWidth : Int
  tableOffsetY : Int
  transparentBackgroundEnabled : Bool
deriving DecidableEq, Repr

/-- `const SCHEMA_VERSION = 2;` -/
def SCHEMA_VERSION : Nat := 2

/-- `INITIAL_STAGE` (line 140); `loadTime` is the `Date.now()` of module
evaluation. -/
def INITIAL_STAGE (loadTime : Nat) : Stage := createStage loadTime none 0

/-- `INITIAL_STATE_BASE` (lines 141-161). -/
def INITIAL_STATE_BASE (loadTime : Nat) : Doc :=
  { schemaVersion := SCHEMA_VERSION
    stages := [INITIAL_STAGE loadTime]
    activeStageId := (INITIAL_STAGE loadTime).id
    library := []
    libraryCategories := []
    bg := "#101018"
    bgImg := ""
    bgScale := 115
    bgPosX := 50
    bgPosY := 50
    verticalPad := 100
    horizontalPad := 40
    borderRadius := 0
    avatarsEnabled := true
    highlightPicksEnabled := false
    popularitySortEnabled := false
    nickColWidth := 120
    tableOffsetY := 0
    transparentBackgroundEnabled := false }

/-! ## Imported payloads -/

/-- A row object of an imported file: every key may be missing (`none`). -/
structure RawRow where
  id : Option String
  nick : Option String
  avatar : Option String
  avatarScale : Option Int
  avatarPosX : Option Int
  avatarPosY : Option Int
  three0 : Option (List Slot)
  pass : Option (List Slot)
  out : Option (List Slot)
  nickFontSize : Option Int
deriving DecidableEq, Repr

/-- A typed row seen as a row object with every key present. -/
def Row.toRaw (r : Row) : RawRow :=
  { id := some r.id, nick := some r.nick, avatar := some r.avatar
    avatarScale := some r.avatarScale, avatarPosX := some r.avatarPosX
    avatarPosY := some r.avatarPosY, three0 := some r.three0, pass := some r.pass
    out := some r.out, nickFontSize := some r.nickFontSize }

/-- A stage object of an imported file; `stats` is `none` when it is not an
array. -/
structure RawStage where
  id : String
  name : String
  rows : List Row
  rowCount : Nat
  stats : Option (List StatEntry)
  correctTeams : CorrectTeams
deriving DecidableEq, Repr

/-- A JSON object read from a file or from the store: the keys of the legacy
shape and of the current shape, each of which may be missing (`none`). -/
structure FileObject where
  schemaVersion : Option Nat
  rows : Option (List RawRow)
  stats : Option (List StatEntry)
  correctTeams : Option CorrectTeams
  stages : Option (List RawStage)
  activeStageId : Option String
  library : Option (List LibraryAsset)
  libraryCategories : Option (List Category)
  bg : Option String
  bgImg : Option String
  bgScale : Option Int
  bgPosX : Option Int
  bgPosY : Option Int
  verticalPad : Option Int
  horizontalPad : Option Int
  borderRadius : Option Int
  avatarsEnabled : Option Bool
  highlightPicksEnabled : Option Bool
  popularitySortEnabled : Option Bool
  nickColWidth : Option Int
  tableOffsetY : Option Int
  transparentBackgroundEnabled : Option Bool
deriving DecidableEq, Repr

/-- The object `{}`. -/
def FileObject.empty : FileObject :=
  { schemaVersion := none, rows := none, stats := none, correctTeams := none, stages := none
    activeStageId := none, library := none, libraryCategories := none, bg := none, bgImg := none
    bgScale := none, bgPosX := none, bgPosY := none, verticalPad := none, horizontalPad := none
    borderRadius := none, avatarsEnabled := none, highlightPicksEnabled := none
    popularitySortEnabled := none, nickColWidth := none, tableOffsetY := none
    transparentBackgroundEnabled := none }

/-- The parsed content of an imported file: a bare array of rows or an object. -/
inductive FileContent where
  | bareRows (rows : List RawRow)
  | object (o : FileObject)
deriving DecidableEq, Repr

/-- The expression `x || d` on a number that may be missing: `0` is falsy. -/
def orInt (x : Option Int) (d : Int) : Int :=
  match x with
  | some v => if v = 0 then d else v
  | none => d

/-- The expression `x || d` on a string that may be missing: `""` is falsy. -/
def orString (x : Option String) (d : String) : String :=
  match x with
  | some v => if v = "" then d else v
  | none => d

/-- The expression `x !== undefined ? x : d`. -/
def definedOr {α : Type} (x : Option α) (d : α) : α :=
  match x with
  | some v => v
  | none => d

/-- The object `{ ...createRow(0), ...r }`: a key of `r` wins when present. -/
def spreadRow (r : RawRow) : Row :=
  { id := definedOr r.id (createRow 0).id
    nick := definedOr r.nick (createRow 0).nick
    avatar := definedOr r.avatar (createRow 0).avatar
    avatarScale := definedOr r.avatarScale (createRow 0).avatarScale
    avatarPosX := definedOr r.avatarPosX (createRow 0).avatarPosX
    avatarPosY := definedOr r.avatarPosY (createRow 0).avatarPosY
    three0 := definedOr r.three0 (createRow 0).three0
    pass := definedOr r.pass (createRow 0).pass
    out := definedOr r.out (createRow 0).out
    nickFontSize := definedOr r.nickFontSize (createRow 0).nickFontSize }

/-- `migrateV1StateToV2` (lines 164-198). -/
def migrateV1StateToV2 (loadTime : Nat) (v1State : FileObject) : Doc :=
  let validatedRows : List Row :=
    (match v1State.rows with
      | some rows => rows
      | none => (getInitialRows 10).map Row.toRaw).map
      (fun (r : RawRow) => { spreadRow r with
        avatarScale := orInt r.avatarScale 100
        avatarPosX := orInt r.avatarPosX 50
        avatarPosY := orInt r.avatarPosY 50 })
  let newStage : Stage :=
    { id := (INITIAL_STATE_BASE loadTime).activeStageId
      name := "Этап 1 (Imported)"
      rows := validatedRows
      rowCount := validatedRows.length
      stats := match v1State.stats with
        | some stats => stats
        | none => []
      correctTeams := match v1State.correctTeams with
        | some c => c
        | none => (INITIAL_STAGE loadTime).correctTeams }
  { INITIAL_STATE_BASE loadTime with
    library := (match v1State.library with
      | some l => l
      | none => []).map (fun (icon : LibraryAsset) => { icon with categoryId := none })
    libraryCategories := []
    bg := orString v1State.bg (INITIAL_STATE_BASE loadTime).bg
    bgImg := orString v1State.bgImg ""
    bgScale := orInt v1State.bgScale (INITIAL_STATE_BASE loadTime).bgScale
    bgPosX := orInt v1State.bgPosX (INITIAL_STATE_BASE loadTime).bgPosX
    bgPosY := orInt v1State.bgPosY (INITIAL_STATE_BASE loadTime).bgPosY
    verticalPad := orInt v1State.verticalPad (INITIAL_STATE_BASE loadTime).verticalPad
    horizontalPad := orInt v1State.horizontalPad (INITIAL_STATE_BASE loadTime).horizontalPad
    borderRadius := orInt v1State.borderRadius (INITIAL_STATE_BASE loadTime).borderRadius
    avatarsEnabled := definedOr v1State.avatarsEnabled (INITIAL_STATE_BASE loadTime).avatarsEnabled
    highlightPicksEnabled :=
      definedOr v1State.highlightPicksEnabled (INITIAL_STATE_BASE loadTime).highlightPicksEnabled
    popularitySortEnabled :=
      definedOr v1State.popularitySortEnabled (INITIAL_STATE_BASE loadTime).popularitySortEnabled
    nickColWidth := orInt v1State.nickColWidth (INITIAL_STATE_BASE loadTime).nickColWidth
    tableOffsetY := orInt v1State.tableOffsetY (INITIAL_STATE_BASE loadTime).tableOffsetY
    transparentBackgroundEnabled :=
      definedOr v1State.transparentBackgroundEnabled
        (INITIAL_STATE_BASE loadTime).transparentBackgroundEnabled
    stages := [newStage]
    activeStageId := newStage.id }

/-! ## Import (`importData`, lines 213-297) -/

/-- `validateRows` (lines 222-232); a missing `rows` is `none`. -/
def validateRows (rows : Option (List RawRow)) : List Row :=
  (match rows with
    | some rows => rows
    | none => []).map
    (fun (r : RawRow) => { spreadRow r with
      avatarScale := orInt r.avatarScale 100
      avatarPosX := orInt r.avatarPosX 50
      avatarPosY := orInt r.avatarPosY 50
      three0 := match r.three0 with
        | some a => a.take 2
        | none => List.replicate 2 none
      pass := match r.pass with
        | some a => a.take 6
        | none => List.replicate 6 none
      out := match r.out with
        | some a => a.take 2
        | none => List.replicate 2 none
      nickFontSize := orInt r.nickFontSize 14 })

/-- The test `!fileContent.schemaVersion`: a missing key and `0` are falsy. -/
def schemaVersionMissing (v : Option Nat) : Bool :=
  match v with
  | some n => n == 0
  | none => true

/-- The branch `dataType === 'full'` of `importData` (lines 234-253): the
document handed to `setAppState`, or `none` when the branch throws.  Keys of
the file that are not keys of a document are not kept. -/
def importFull (loadTime : Nat) (fileContent : FileContent) : Option Doc :=
  match fileContent with
  | .bareRows rows =>
    -- `fileContent.rows` is undefined, so `dataToProcess = { rows: fileContent }`
    some (migrateV1StateToV2 loadTime { FileObject.empty with rows := some rows })
  | .object o =>
    if schemaVersionMissing o.schemaVersion then
      match o.rows with
      | some _ => some (migrateV1StateToV2 loadTime o)
      | none => none
    else
      some
        { schemaVersion := definedOr o.schemaVersion (INITIAL_STATE_BASE loadTime).schemaVersion
          stages := (match o.stages with
            | some l => l
            | none => []).map (fun (s : RawStage) =>
              { id := s.id, name := s.name, rows := s.rows, rowCount := s.rowCount
                stats := match s.stats with
                  | some stats => stats
                  | none => []
                correctTeams := s.correctTeams })
          activeStageId := definedOr o.activeStageId (INITIAL_STATE_BASE loadTime).activeStageId
          library := (match o.library with
            | some l => l
            | none => []).map (fun (icon : LibraryAsset) =>
              { icon with categoryId := match icon.categoryId with
                  | some c => if c = "" then none else some c
                  | none => none })
          libraryCategories :=
            definedOr o.libraryCategories (INITIAL_STATE_BASE loadTime).libraryCategories
          bg := definedOr o.bg (INITIAL_STATE_BASE loadTime).bg
          bgImg := definedOr o.bgImg (INITIAL_STATE_BASE loadTime).bgImg
          bgScale := definedOr o.bgScale (INITIAL_STATE_BASE loadTime).bgScale
          bgPosX := definedOr o.bgPosX (INITIAL_STATE_BASE loadTime).bgPosX
          bgPosY := definedOr o.bgPosY (INITIAL_STATE_BASE loadTime).bgPosY
          verticalPad := definedOr o.verticalPad (INITIAL_STATE_BASE loadTime).verticalPad
          horizontalPad := definedOr o.horizontalPad (INITIAL_STATE_BASE loadTime).horizontalPad
          borderRadius := definedOr o.borderRadius (INITIAL_STATE_BASE loadTime).borderRadius
          avatarsEnabled := definedOr o.avatarsEnabled (INITIAL_STATE_BASE loadTime).avatarsEnabled
          highlightPicksEnabled :=
            definedOr o.highlightPicksEnabled (INITIAL_STATE_BASE loadTime).highlightPicksEnabled
          popularitySortEnabled :=
            definedOr o.popularitySortEnabled (INITIAL_STATE_BASE loadTime).popularitySortEnabled
          nickColWidth := definedOr o.nickColWidth (INITIAL_STATE_BASE loadTime).nickColWidth
          tableOffsetY := definedOr o.tableOffsetY (INITIAL_STATE_BASE loadTime).tableOffsetY
          transparentBackgroundEnabled :=
            definedOr o.transparentBackgroundEnabled
              (INITIAL_STATE_BASE loadTime).transparentBackgroundEnabled }

/-- The branch `dataType === 'pickem'` of `importData` (lines 255-269): the
updater handed to `setAppState`, or `none` when the branch throws. -/
def importPickem (fileContent : FileContent) : Option (Doc → Doc) :=
  match fileContent with
  | .bareRows _ => none
  | .object o =>
    match o.rows with
    | none => none
    | some rows =>
      let validatedRows := validateRows (some rows)
      some (fun prevState =>
        { prevState with
          stages := prevState.stages.map (fun stage =>
            if stage.id = prevState.activeStageId
            then { stage with rows := validatedRows, rowCount := validatedRows.length }
            else stage) })

/-! ## Document mutators (lines 636-807, 884-894, 956-975) -/

/-- The updater of `updateActiveStage` (lines 643-654). -/
def updateActiveStage (updaterFn : Stage → Stage) (prevState : Doc) : Doc :=
  let currentActiveId := prevState.activeStageId
  let newStages := prevState.stages.map (fun stage =>
    if stage.id = currentActiveId then updaterFn stage else stage)
  { prevState with stages := newStages }

/-- The stage updater of `updateRowCount` (lines 680-692). -/
def updateRowCountStage (newCount : Nat) (stage : Stage) : Stage :=
  let currentCount := stage.rows.length
  let newRows :=
    if newCount > currentCount then
      let addedRows := (List.range (newCount - currentCount)).map
        (fun i => createRow (currentCount + i))
      stage.rows ++ addedRows
    else if newCount < currentCount then stage.rows.take newCount
    else stage.rows
  { stage with rows := newRows, rowCount := newRows.length }

/-- `updateRowCount` (lines 680-692), as the document updater it commits. -/
def updateRowCount (newCount : Nat) : Doc → Doc :=
  updateActiveStage (updateRowCountStage newCount)

/-- The value `Math.min(Math.max(Number(val) || 1, 1), 30)` of `setRowCount`,
for an integer input. -/
def clampRowCount (val : Int) : Nat :=
  (min (max (if val = 0 then 1 else val) 1) 30).toNat

/-- `setRowCount` (lines 694-698): two commits, one after the other. -/
def setRowCount (val : Int) (h : HistoryState Doc) : Option (HistoryState Doc) :=
  let newCount := clampRowCount val
  (setAppState h (.fn (updateActiveStage (fun stage => { stage with rowCount := newCount })))).bind
    (fun h1 => setAppState h1 (.fn (updateRowCount newCount)))

/-- `setRows` with a function argument (lines 700-705). -/
def setRows (newRowsFn : List Row → List Row) : Doc → Doc :=
  updateActiveStage (fun stage => { stage with rows := newRowsFn stage.rows })

/-- The rows updater of `clearRowPicks` (lines 724-737). -/
def clearRowPicks (rIdx : Nat) (prevRows : List Row) : List Row :=
  prevRows.mapIdx (fun i r =>
    if i ≠ rIdx then r
    else { r with
      nick := "Player " ++ toString (i + 1)
      three0 := List.replicate 2 none
      pass := List.replicate 6 none
      out := List.replicate 2 none })

/-- `setActiveStage` (lines 739-741), through `updateSingleValue`. -/
def setActiveStage (id : String) (p : Doc) : Doc :=
  { p with activeStageId := id }

/-- The updater of `addNewStage` (lines 743-752); `now` is `Date.now()`. -/
def addNewStage (now : Nat) (prevState : Doc) : Doc :=
  let newStage := createStage now none prevState.stages.length
  { prevState with
    stages := prevState.stages ++ [newStage]
    activeStageId := newStage.id }

/-- `deleteStage` (lines 754-775): the resulting document; `confirmed` is the
answer of `window.confirm`, and the rendered `stages` of the guard are those of
the document.  A refused deletion leaves the document as it is.  The result is
`none` when `newStages[0].id` is read on an empty list, which throws. -/
def deleteStage (idToDelete : String) (confirmed : Bool) (prevState : Doc) : Option Doc :=
  if prevState.stages.length ≤ 1 then some prevState
  else if !confirmed then some prevState
  else
    let newStages := prevState.stages.filter (fun s => s.id != idToDelete)
    let newActiveId : Option String :=
      if prevState.activeStageId = idToDelete then newStages[0]?.map (fun s => s.id)
      else some prevState.activeStageId
    newActiveId.map (fun id =>
      { prevState with
        stages := newStages
        activeStageId := id
        library := prevState.library.map (fun icon =>
          if icon.categoryId = some idToDelete then { icon with categoryId := none } else icon) })

/-- The updater of `renameStage` (lines 777-784). -/
def renameStage (id : String) (newName : String) (prevState : Doc) : Doc :=
  { prevState with
    stages := prevState.stages.map (fun s => if s.id = id then { s with name := newName } else s) }

/-- The cell a picker is open on (`picker.target`). -/
structure PickerTarget where
  rIdx : Nat
  area : Area
  cIdx : Nat
deriving DecidableEq, Repr

/-- The rows updater of `selectIconForCell` (lines 884-894); without a target
nothing is written. -/
def selectIconForCell (target : Option PickerTarget) (iconSrc : String) (rows : List Row) :
    List Row :=
  match target with
  | none => rows
  | some t =>
    let newIconSrc : Slot := if iconSrc = "REMOVE_ICON" then none else some iconSrc
    rows.mapIdx (fun i r =>
      if i = t.rIdx
      then r.setArea t.area ((r.area t.area).mapIdx (fun j cell => if j = t.cIdx then newIconSrc else cell))
      else r)

/-- The rows updater of `onDrop` (lines 956-975); an empty `payload` returns
before anything is written. -/
def onDrop (payload : String) (rIdx : Nat) (area : Area) (cIdx : Nat) (rs : List Row) : List Row :=
  if payload = "" then rs
  else
    rs.mapIdx (fun i r =>
      if i ≠ rIdx then r
      else
        let isAlready := (r.area area).contains (some payload)
        if isAlready && (r.area area)[cIdx]? != some (some payload) then r
        else r.setArea area ((r.area area).mapIdx (fun j cell => if j = cIdx then some payload else cell)))

/-! ## Analytics (line 979) -/

/-- `calculateScore` (line 979); on a typed row every area is an array. -/
def calculateScore (playerRow : Row) (currentCorrectTeams : CorrectTeams) : Nat :=
  [Area.three0, Area.pass, Area.out].foldl
    (fun score area =>
      score + ((playerRow.area area).filter
        (fun team => (currentCorrectTeams.area area).contains team)).length)
    0

/-- `activeStage` (lines 615-617): the stage with the active id, else the
first stage; `none` is `undefined`. -/
def activeStage (d : Doc) : Option Stage :=
  match d.stages.find? (fun s => s.id == d.activeStageId) with
  | some s => some s
  | none => d.stages[0]?

/-- The slot `rows[rIdx][area][cIdx]` of the active stage of a current
document, when all of it exists. -/
def currentPick (current : Option Doc) (rIdx : Nat) (area : Area) (cIdx : Nat) : Option Slot :=
  ((current.bind activeStage).bind (fun stage => stage.rows[rIdx]?)).bind
    (fun r => (r.area area)[cIdx]?)

/-! ## Predicates used by the statements -/

/-- Well-formedness of a history state: the cursor is inside the history, the
current document is the entry under the cursor, and the history is bounded. -/
def HistoryInv {D : Type} (s : HistoryState D) : Prop :=
  s.index < s.history.length ∧ s.history[s.index]? = s.current ∧
    s.history.length ≤ MAX_HISTORY

/-- The active-stage invariant: there is a stage, and `activeStageId` is the
id of one of the stages. -/
def ActiveStageInv (d : Doc) : Prop :=
  d.stages ≠ [] ∧ d.activeStageId ∈ d.stages.map (fun s => s.id)

instance (d : Doc) : Decidable (ActiveStageInv d) := by
  unfold ActiveStageInv
  infer_instance

/-- A file takes the legacy path of the full import: a bare array, or an
object whose `schemaVersion` is missing or `0`. -/
def fileIsLegacy : FileContent → Bool
  | .bareRows _ => true
  | .object o => schemaVersionMissing o.schemaVersion

/-- The documents reachable through the document operations: the initial
document, a legacy migration, full imports, `addNewStage`, `deleteStage`,
`setActiveStage` on the id of an existing stage (the stage list passes
`stage.id`), `renameStage`, and the edits of the active stage, each of which
has the shape `{ ...stage, rows, rowCount, stats, correctTeams }`.  The full
file import of a current-schema file is included when the imported document
has an active stage. -/
inductive DocReachable (loadTime : Nat) : Doc → Prop where
  | initial : DocReachable loadTime (INITIAL_STATE_BASE loadTime)
  | migrated (v1State : FileObject) : DocReachable loadTime (migrateV1StateToV2 loadTime v1State)
  | importLegacy (file : FileContent) {d : Doc} :
      fileIsLegacy file = true → importFull loadTime file = some d → DocReachable loadTime d
  | importCurrent (file : FileContent) {d : Doc} :
      fileIsLegacy file = false → importFull loadTime file = some d → ActiveStageInv d →
      DocReachable loadTime d
  | addNewStage (now : Nat) {d : Doc} :
      DocReachable loadTime d → DocReachable loadTime (addNewStage now d)
  | deleteStage (idToDelete : String) (confirmed : Bool) {d d' : Doc} :
      DocReachable loadTime d → deleteStage idToDelete confirmed d = some d' →
      DocReachable loadTime d'
  | setActiveStage (stage : Stage) {d : Doc} :
      DocReachable loadTime d → stage ∈ d.stages → DocReachable loadTime (setActiveStage stage.id d)
  | renameStage (id newName : String) {d : Doc} :
      DocReachable loadTime d → DocReachable loadTime (renameStage id newName d)
  | stageEdit (rows : Stage → List Row) (rowCount : Stage → Nat)
      (stats : Stage → List StatEntry) (correctTeams : Stage → CorrectTeams) {d : Doc} :
      DocReachable loadTime d →
      DocReachable loadTime (updateActiveStage (fun stage =>
        { stage with
          rows := rows stage, rowCount := rowCount stage
          stats := stats stage, correctTeams := correctTeams stage }) d)

/-- The row-count invariant: every stage has `rowCount == rows.length`. -/
def RowCountInv (d : Doc) : Prop :=
  ∀ stage ∈ d.stages, stage.rowCount = stage.rows.length

instance (d : Doc) : Decidable (RowCountInv d) := by
  unfold RowCountInv
  infer_instance

/-- The slot invariant of a row: every area has its fixed length and holds no
non-null value twice. -/
def SlotInv (r : Row) : Prop :=
  ∀ area : Area, (r.area area).length = area.size ∧
    ((r.area area).filter (fun x => x.isSome)).Nodup

instance (r : Row) : Decidable (SlotInv r) := by
  unfold SlotInv
  exact decidable_of_iff
    (∀ area ∈ [Area.three0, Area.pass, Area.out], (r.area area).length = area.size ∧
      ((r.area area).filter (fun x => x.isSome)).Nodup)
    ⟨fun h area => h area (by cases area <;> simp), fun h area _ => h area⟩

/-- The asset a slot value refers to: `null` and the empty string refer to
none. -/
def slotAsset : Slot → Option String
  | some v => if v = "" then none else some v
  | none => none

/-- The score as the specification words it: the sum over the three areas of
the size of the intersection of the set of the row's slot values with the set
`correctTeams[area]`, a null or empty value never matching. -/
def scoreSpec (row : Row) (correctTeams : CorrectTeams) : Nat :=
  ([Area.three0, Area.pass, Area.out].map (fun area =>
    (((row.area area).filterMap slotAsset).toFinset ∩
      ((correctTeams.area area).filterMap slotAsset).toFinset).card)).sum

/-! ## Statistics (`App.jsx` 981-1045) -/

/-- The string operations of the JavaScript engine that the code calls; they
are parameters of the model.  `strLt a b` is `a < b` on two strings,
`numLtStr n s` is `n < s` and `strLtNum s n` is `s < n` for a number and a
string. -/
structure StringOps where
  trim : String → String
  toLowerCase : String → String
  strLt : String → String → Bool
  numLtStr : Int → String → Bool
  strLtNum : String → Int → Bool

/-- Trimming of ASCII blanks at both ends. -/
def asciiTrim (s : String) : String :=
  String.mk ((s.toList.dropWhile Char.isWhitespace).reverse.dropWhile Char.isWhitespace).reverse

/-- Lower-casing of the letters `A`-`Z`. -/
def asciiLower (s : String) : String :=
  String.mk (s.toList.map Char.toLower)

/-- The number a run of decimal digits denotes. -/
def readDigits (cs : List Char) : Option Nat :=
  if cs.isEmpty || !cs.all Char.isDigit then none
  else some (cs.foldl (fun n c => 10 * n + (c.toNat - 48)) 0)

/-- The number an ASCII string converts to, for a string that once trimmed is
empty (`0`) or a run of digits with an optional sign; `none` (NaN) for any
other string. -/
def asciiToNumber (s : String) : Option Int :=
  match (asciiTrim s).toList with
  | [] => some 0
  | '-' :: cs => (readDigits cs).map (fun n => - (n : Int))
  | '+' :: cs => (readDigits cs).map (fun n => (n : Int))
  | cs => (readDigits cs).map (fun n => (n : Int))

/-- The engine's operations on plain ASCII text, used to evaluate the model on
concrete inputs: trimming of blanks, lower-casing of `A`-`Z`, the order by
character code, and the comparison of a number with a string through
`asciiToNumber`, false when the string is not a number. -/
def asciiStringOps : StringOps :=
  { trim := asciiTrim
    toLowerCase := asciiLower
    strLt := fun a b => decide (a.toList < b.toList)
    numLtStr := fun n s =>
      match asciiToNumber s with
      | some m => decide (n < m)
      | none => false
    strLtNum := fun s n =>
      match asciiToNumber s with
      | some m => decide (m < n)
      | none => false }

/-- `s.startsWith(pre)`. -/
def startsWith (s pre : String) : Bool :=
  pre.toList.isPrefixOf s.toList

/-- `isDuplicate` (lines 981-988). -/
def isDuplicate (ops : StringOps) (newRow : Row) (existingStat : StatEntry) : Bool :=
  let nickMatch :=
    ops.toLowerCase (ops.trim newRow.nick) == ops.toLowerCase (ops.trim existingStat.nick)
  if !nickMatch then false
  else
    let three0Match := newRow.three0 == existingStat.three0
    let passMatch := newRow.pass == existingStat.pass
    let outMatch := newRow.out == existingStat.out
    three0Match && passMatch && outMatch

/-- The test `!x` on a slot: `null` and the empty string are falsy. -/
def slotFalsy (x : Slot) : Bool :=
  (slotAsset x).isNone

/-- The skip condition `isDefaultNick && isPicksEmpty` of `addToStats`
(lines 999-1002). -/
def isEmptyDefaultRow (row : Row) : Bool :=
  let isDefaultNick := startsWith row.nick "Player " && row.avatar == ""
  let isPicksEmpty := row.three0.all slotFalsy && row.pass.all slotFalsy && row.out.all slotFalsy
  isDefaultNick && isPicksEmpty

/-- The entry pushed on `rowsToAdd` (lines 1012-1016); `now` is the value of
`Date.now()` at that moment. -/
def newStatEntry (now : Nat) (correctTeams : CorrectTeams) (i : Nat) (row : Row) : StatEntry :=
  { toRow := { row with id := row.id ++ "-" ++ toString now ++ "-" ++ toString i }
    score := calculateScore row correctTeams }

/-- What `addToStats` collects while it walks the rows. -/
structure AddToStatsScan where
  rowsToAdd : List StatEntry
  duplicatesFound : List String
  emptyRowsSkipped : Nat
deriving DecidableEq, Repr

/-- The loop `rows.forEach` of `addToStats` (lines 994-1018); `now i` is the
value of `Date.now()` when row `i` is visited. -/
def addToStatsScan (ops : StringOps) (now : Nat → Nat) (stage : Stage) : AddToStatsScan :=
  stage.rows.enum.foldl
    (fun acc p =>
      if isEmptyDefaultRow p.2 then { acc with emptyRowsSkipped := acc.emptyRowsSkipped + 1 }
      else
        let isAlreadyInStats := stage.stats.any (fun statRow => isDuplicate ops p.2 statRow)
        if isAlreadyInStats then { acc with duplicatesFound := acc.duplicatesFound ++ [p.2.nick] }
        else
          { acc with
            rowsToAdd := acc.rowsToAdd ++ [newStatEntry (now p.1) stage.correctTeams p.1 p.2] })
    { rowsToAdd := [], duplicatesFound := [], emptyRowsSkipped := 0 }

/-- The stage updater of `addToStats` (lines 990-1045). -/
def addToStats (ops : StringOps) (now : Nat → Nat) (stage : Stage) : Stage :=
  let scan := addToStatsScan ops now stage
  if scan.rowsToAdd.length = 0 then stage
  else
    let newStats := stage.stats ++ scan.rowsToAdd
    { stage with stats := newStats }

/-! ## Frequencies and popularity (`App.jsx` 1154-1158, 1191-1199, 1415-1456) -/

/-- A JavaScript object used as a dictionary with string keys: its entries in
insertion order, which is the order of `Object.entries`.  The keys here are
asset references (icon sources, data URLs) and none of them is an array index
or the name of a member of `Object.prototype`. -/
abbrev Dict (V : Type) := List (String × V)

/-- The read `m[key]`; `none` is `undefined`. -/
def Dict.get {V : Type} (m : Dict V) (key : String) : Option V :=
  (m.find? (fun e => e.1 == key)).map (fun e => e.2)

/-- The write `m[key] = v`: an existing key keeps its place, a new key goes
last. -/
def Dict.set {V : Type} (m : Dict V) (key : String) (v : V) : Dict V :=
  if m.any (fun e => e.1 == key) then m.map (fun e => if e.1 == key then (key, v) else e)
  else m ++ [(key, v)]

/-- `teamNameMap` (lines 1154-1158). -/
def teamNameMap (library : List LibraryAsset) : Dict String :=
  library.foldl
    (fun map item => if item.src ≠ "" ∧ item.name ≠ "" then map.set item.src item.name else map)
    []

/-- The object `counts` of `statCounts`: one dictionary per area, `none` while
the property is `undefined`. -/
structure StatCounts where
  three0 : Option (Dict Nat)
  pass : Option (Dict Nat)
  out : Option (Dict Nat)
deriving DecidableEq, Repr

/-- The read `counts[a]`. -/
def StatCounts.area (c : StatCounts) : Area → Option (Dict Nat)
  | .three0 => c.three0
  | .pass => c.pass
  | .out => c.out

/-- The write `counts[a] = m`. -/
def StatCounts.setArea (c : StatCounts) (a : Area) (m : Dict Nat) : StatCounts :=
  match a with
  | .three0 => { c with three0 := some m }
  | .pass => { c with pass := some m }
  | .out => { c with out := some m }

/-- The expression `counts[a] || {}`. -/
def StatCounts.areaOrEmpty (c : StatCounts) (a : Area) : Dict Nat :=
  match c.area a with
  | some m => m
  | none => []

/-- `statCounts` (lines 1191-1199). -/
def statCounts (stats : List StatEntry) : StatCounts :=
  stats.foldl
    (fun counts r =>
      [Area.three0, Area.pass, Area.out].foldl
        (fun counts a =>
          let counts := counts.setArea a (counts.areaOrEmpty a)
          (r.toRow.area a).foldl
            (fun counts t =>
              match slotAsset t with
              | some key =>
                counts.setArea a
                  ((counts.areaOrEmpty a).set key
                    ((match (counts.areaOrEmpty a).get key with
                      | some n => n
                      | none => 0) + 1))
              | none => counts)
            counts)
        counts)
    { three0 := none, pass := none, out := none }

/-- `Array.prototype.sort(compareFn)`.  The sort of the language is stable,
and for a consistent comparator the stable sorted arrangement is unique; it is
computed here by insertion. -/
def jsSort {α : Type} (compareFn : α → α → Int) (l : List α) : List α :=
  l.insertionSort (fun a b => compareFn a b ≤ 0)

/-- An entry of the popularity lists (lines 1431-1437).  `percentage` is the
exact value of `(count / denominator) * 100`. -/
structure PopularPick where
  src : String
  count : Nat
  teamName : String
  percentage : ℚ
  totalPicks : Nat
deriving DecidableEq

/-- `categoryLimits` (line 1424). -/
def categoryLimits : Area → Nat
  | .three0 => 2
  | .pass => 6
  | .out => 2

/-- The loop `while (list.length < limit) list.push(null)`. -/
def padNull (list : List (Option PopularPick)) (limit : Nat) : List (Option PopularPick) :=
  list ++ List.replicate (limit - list.length) none

/-- The entries built from `Object.entries(counts)` before they are sorted
(lines 1427-1437). -/
def pickEntries (statCounts : StatCounts) (totalPlayers : Nat) (teamNameMap : Dict String)
    (area : Area) : List PopularPick :=
  let counts := statCounts.areaOrEmpty area
  let denominator := if totalPlayers > 0 then totalPlayers else 1
  counts.map (fun e =>
    { src := e.1
      count := e.2
      teamName := orString (teamNameMap.get e.1) "Неизвестно"
      percentage := ((e.2 : ℚ) / (denominator : ℚ)) * 100
      totalPicks := denominator })

/-- `sortedPicks` (lines 1430-1438). -/
def sortedPicks (statCounts : StatCounts) (totalPlayers : Nat) (teamNameMap : Dict String)
    (area : Area) : List PopularPick :=
  jsSort (fun a b => (b.count : Int) - (a.count : Int))
    (pickEntries statCounts totalPlayers teamNameMap area)

/-- The value of `categoryPopularity`. -/
structure CategoryPopularity where
  popular : Area → List (Option PopularPick)
  unpopular : Area → List (Option PopularPick)

/-- `categoryPopularity` (lines 1421-1456). -/
def categoryPopularity (statCounts : StatCounts) (totalPlayers : Nat)
    (teamNameMap : Dict String) : CategoryPopularity :=
  { popular := fun area =>
      padNull (((sortedPicks statCounts totalPlayers teamNameMap area).take
        (categoryLimits area)).map some) (categoryLimits area)
    unpopular := fun area =>
      let bottomList := ((sortedPicks statCounts totalPlayers teamNameMap area).reverse.take
        (categoryLimits area))
      padNull (bottomList.map some) (categoryLimits area) }

/-- The counting loop of `statCounts` on the dictionary of one area: every slot
value that is not `null` or empty adds one to its entry. -/
def countSlots (m : Dict Nat) (slots : List Slot) : Dict Nat :=
  slots.foldl
    (fun m t =>
      match slotAsset t with
      | some key =>
        m.set key
          ((match m.get key with
            | some n => n
            | none => 0) + 1)
      | none => m)
    m

/-- The slot values of one area over all stat entries, in order. -/
def areaSlots (stats : List StatEntry) (area : Area) : List Slot :=
  (stats.map (fun r => r.toRow.area area)).flatten

/-! ## Ranking (`App.jsx` 1160-1189) -/

/-- The sort keys the table offers (`requestSort("nick")`, `requestSort("score")`). -/
inductive SortKey where
  | nick
  | score
deriving DecidableEq, Repr

/-- `sortConfig.direction`: `"ascending"` or anything else, which sorts
descending. -/
inductive SortDirection where
  | ascending
  | descending
deriving DecidableEq, Repr

/-- `sortConfig`; a `null` key is `none`. -/
structure SortConfig where
  key : Option SortKey
  direction : SortDirection
deriving DecidableEq, Repr

/-- A value read from an entry by the comparator: a number or a string. -/
inductive JsValue where
  | num (n : Int)
  | str (s : String)
deriving DecidableEq, Repr

/-- The read `a[key]`. -/
def StatEntry.field (e : StatEntry) : SortKey → JsValue
  | .nick => .str e.nick
  | .score => .num e.score

/-- The expression `v || 0`: `0` and the empty string are falsy. -/
def orZero : JsValue → JsValue
  | .num n => if n = 0 then .num 0 else .num n
  | .str s => if s = "" then .num 0 else .str s

/-- The comparison `a < b` of two values. -/
def jsLt (ops : StringOps) : JsValue → JsValue → Bool
  | .num a, .num b => decide (a < b)
  | .str a, .str b => ops.strLt a b
  | .num a, .str b => ops.numLtStr a b
  | .str a, .num b => ops.strLtNum a b

/-- The comparator handed to `sort` (lines 1174-1186). -/
def compareStats (ops : StringOps) (key : SortKey) (direction : SortDirection)
    (a b : StatEntry) : Int :=
  let aValue := orZero (a.field key)
  let bValue := orZero (b.field key)
  if key = SortKey.nick then
    if jsLt ops aValue bValue then (if direction = .ascending then -1 else 1)
    else if jsLt ops bValue aValue then (if direction = .ascending then 1 else -1)
    else 0
  else
    if jsLt ops aValue bValue then (if direction = .ascending then -1 else 1)
    else if jsLt ops bValue aValue then (if direction = .ascending then 1 else -1)
    else 0

/-- `s.includes(term)`. -/
def includes (s term : String) : Bool :=
  s.toList.tails.any (fun t => term.toList.isPrefixOf t)

/-- The entries with their scores computed again (line 1164). -/
def rescored (stats : List StatEntry) (correctTeams : CorrectTeams) : List StatEntry :=
  stats.map (fun r => { r with score := calculateScore r.toRow correctTeams })

/-- `sortedStats` (lines 1160-1189). -/
def sortedStats (ops : StringOps) (stats : List StatEntry) (sortConfig : SortConfig)
    (correctTeams : CorrectTeams) (statsSearch : String) : List StatEntry :=
  if stats.length = 0 then []
  else
    let sortableItems := rescored stats correctTeams
    let sortableItems :=
      if ops.trim statsSearch ≠ "" then
        let term := ops.toLowerCase statsSearch
        sortableItems.filter (fun r => includes (ops.toLowerCase r.nick) term)
      else sortableItems
    match sortConfig.key with
    | some key => jsSort (compareStats ops key sortConfig.direction) sortableItems
    | none => sortableItems

/-- The order of two entries by a key as the specification words it: scores
as numbers, nicks as strings. -/
def keyLt (ops : StringOps) (key : SortKey) (a b : StatEntry) : Bool :=
  match key with
  | .nick => ops.strLt a.nick b.nick
  | .score => decide (a.score < b.score)

/-- The comparator that orders by `keyLt` in the requested direction. -/
def specCompare (ops : StringOps) (key : SortKey) (direction : SortDirection)
    (a b : StatEntry) : Int :=
  if keyLt ops key a b then (if direction = .ascending then -1 else 1)
  else if keyLt ops key b a then (if direction = .ascending then 1 else -1)
  else 0

/-- Two entries have the same value under a key. -/
def sameKey (key : SortKey) (a b : StatEntry) : Bool :=
  match key with
  | .nick => a.nick == b.nick
  | .score => a.score == b.score

/-- The entries are ordered by the key in the requested direction. -/
def OrderedBy (ops : StringOps) (key : SortKey) (direction : SortDirection)
    (l : List StatEntry) : Prop :=
  match direction with
  | .ascending => l.Pairwise (fun a b => keyLt ops key b a = false)
  | .descending => l.Pairwise (fun a b => keyLt ops key a b = false)

/-! ## Migration at load time (`App.jsx` 477-482) -/

/-- A typed stage seen as a stage object of a file. -/
def Stage.toRaw (s : Stage) : RawStage :=
  { id := s.id, name := s.name, rows := s.rows, rowCount := s.rowCount
    stats := some s.stats, correctTeams := s.correctTeams }

/-- The JSON object of a document: every key of the current shape present,
no key of the legacy shape. -/
def Doc.toFile (d : Doc) : FileObject :=
  { schemaVersion := some d.schemaVersion
    rows := none
    stats := none
    correctTeams := none
    stages := some (d.stages.map Stage.toRaw)
    activeStageId := some d.activeStageId
    library := some d.library
    libraryCategories := some d.libraryCategories
    bg := some d.bg
    bgImg := some d.bgImg
    bgScale := some d.bgScale
    bgPosX := some d.bgPosX
    bgPosY := some d.bgPosY
    verticalPad := some d.verticalPad
    horizontalPad := some d.horizontalPad
    borderRadius := some d.borderRadius
    avatarsEnabled := some d.avatarsEnabled
    highlightPicksEnabled := some d.highlightPicksEnabled
    popularitySortEnabled := some d.popularitySortEnabled
    nickColWidth := some d.nickColWidth
    tableOffsetY := some d.tableOffsetY
    transparentBackgroundEnabled := some d.transparentBackgroundEnabled }

/-- The migration test of `loadState` (lines 477-482): the value of
`stateToUse` for a stored object. -/
def loadState (loadTime : Nat) (storedState : FileObject) : FileObject :=
  let stateToUse := storedState
  if schemaVersionMissing stateToUse.schemaVersion ||
      (match stateToUse.schemaVersion with
        | some v => decide (v < SCHEMA_VERSION)
        | none => false) then
    (migrateV1StateToV2 loadTime stateToUse).toFile
  else stateToUse

/-! ## Library, rows and settings mutators (`App.jsx` 47-48, 301-320, 622-632, 656-676, 714-722, 803-807) -/

/-- `setLibrary` (lines 674-676). -/
def setLibrary (newLibraryFn : List LibraryAsset → List LibraryAsset) (p : Doc) : Doc :=
  { p with library := newLibraryFn p.library }

/-- `moveIconToCategory` (lines 803-807); a `null` category is `none`. -/
def moveIconToCategory (iconId : String) (newCategoryId : Option String) : Doc → Doc :=
  setLibrary (fun p => p.map (fun icon =>
    if icon.id = iconId then { icon with categoryId := newCategoryId } else icon))

/-- The read `arr[i]` on an array that may hold `undefined`; `none` is
`undefined`, also out of range. -/
def arrayGet (arr : List (Option Row)) (i : Int) : Option Row :=
  if i < 0 then none
  else
    match arr[i.toNat]? with
    | some v => v
    | none => none

/-- The write `arr[i] = v`: a negative index sets a property that is no
element, an index past the end extends the array with `undefined`. -/
def arraySet (arr : List (Option Row)) (i : Int) (v : Option Row) : List (Option Row) :=
  if i < 0 then arr
  else if i.toNat < arr.length then arr.set i.toNat v
  else arr ++ List.replicate (i.toNat - arr.length) none ++ [v]

/-- The rows updater of `moveRow` (lines 714-722); an entry `none` of the
result is `undefined`. -/
def moveRow (index direction : Int) (prevRows : List Row) : List (Option Row) :=
  let newRows : List (Option Row) := prevRows.map some
  let newIndex := index + direction
  if newIndex < 0 || newIndex ≥ newRows.length then newRows
  else
    let fromNew := arrayGet newRows newIndex
    let fromOld := arrayGet newRows index
    arraySet (arraySet newRows index fromNew) newIndex fromOld

/-- The rows of an array without `undefined` entries. -/
def definedRows : List (Option Row) → Option (List Row)
  | [] => some []
  | none :: _ => none
  | some r :: rest => (definedRows rest).map (fun rs => r :: rs)

/-- The updater of the category synchronisation effect (lines 622-632). -/
def syncCategories (p : Doc) : Doc :=
  let newCategories : List Category := p.stages.map (fun s => { id := s.id, name := s.name })
  let oldCategories := p.libraryCategories
  if newCategories.length = oldCategories.length ∧
      newCategories.enum.all (fun ic =>
        match oldCategories[ic.1]? with
        | some old => ic.2.id == old.id && ic.2.name == old.name
        | none => false) then p
  else { p with libraryCategories := newCategories }

/-- `clamp` (line 47). -/
def clamp (val min max : Int) : Int :=
  Min.min (Max.max val min) max

/-- `parseInt(s, 10)` on an ASCII string: blanks, an optional sign and the
longest run of digits; `none` is NaN. -/
def asciiParseInt (s : String) : Option Int :=
  let cs := s.toList.dropWhile Char.isWhitespace
  match cs with
  | '-' :: ds => (readDigits (ds.takeWhile Char.isDigit)).map (fun n => - (n : Int))
  | '+' :: ds => (readDigits (ds.takeWhile Char.isDigit)).map (fun n => (n : Int))
  | ds => (readDigits (ds.takeWhile Char.isDigit)).map (fun n => (n : Int))

/-- `getNumValue` (line 48); `parseInt` is the engine's `parseInt(·, 10)` on
strings, and an integer number is read back as itself. -/
def getNumValue (parseInt : String → Option Int) (val : JsValue) : Int :=
  match val with
  | .num n => n
  | .str s =>
    match parseInt s with
    | some n => n
    | none => 0

/-- The numeric settings of the document. -/
inductive NumKey where
  | bgScale
  | bgPosX
  | bgPosY
  | verticalPad
  | horizontalPad
  | borderRadius
  | tableOffsetY
  | nickColWidth
deriving DecidableEq, Repr

/-- The read `p[key]`. -/
def Doc.num (p : Doc) : NumKey → Int
  | .bgScale => p.bgScale
  | .bgPosX => p.bgPosX
  | .bgPosY => p.bgPosY
  | .verticalPad => p.verticalPad
  | .horizontalPad => p.horizontalPad
  | .borderRadius => p.borderRadius
  | .tableOffsetY => p.tableOffsetY
  | .nickColWidth => p.nickColWidth

/-- The object `{ ...p, [key]: v }`. -/
def Doc.setNum (p : Doc) (key : NumKey) (v : Int) : Doc :=
  match key with
  | .bgScale => { p with bgScale := v }
  | .bgPosX => { p with bgPosX := v }
  | .bgPosY => { p with bgPosY := v }
  | .verticalPad => { p with verticalPad := v }
  | .horizontalPad => { p with horizontalPad := v }
  | .borderRadius => { p with borderRadius := v }
  | .tableOffsetY => { p with tableOffsetY := v }
  | .nickColWidth => { p with nickColWidth := v }

/-- The argument of a numeric setter: a value or an updater function. -/
inductive NumSetterArg where
  | value (val : JsValue)
  | fn (f : Int → Int)

/-- The updater of `updateSingleValue` (lines 636-641) for a numeric key, with
a number or a function. -/
def updateSingleValue (key : NumKey) (valueOrFn : Int ⊕ (Int → Int)) (p : Doc) : Doc :=
  let newValue :=
    match valueOrFn with
    | .inr f => f (p.num key)
    | .inl v => v
  p.setNum key newValue

/-- `setNumberValue` (lines 656-659). -/
def setNumberValue (parseInt : String → Option Int) (key : NumKey) (val : NumSetterArg) :
    Doc → Doc :=
  let processedVal : Int ⊕ (Int → Int) :=
    match val with
    | .fn f => .inr f
    | .value v => .inl (getNumValue parseInt v)
  updateSingleValue key processedVal

/-- The properties of a `NumControl`. -/
structure NumControlProps where
  min : Int
  max : Int
  step : Int
  largeStep : Int
deriving DecidableEq, Repr

/-- The properties given to the `NumControl` of each setting (lines 1595-1611),
with the defaults of line 301 where none is given. -/
def numControlProps : NumKey → NumControlProps
  | .bgScale => { min := 50, max := 200, step := 5, largeStep := 10 }
  | .bgPosX => { min := 0, max := 100, step := 1, largeStep := 5 }
  | .bgPosY => { min := 0, max := 100, step := 1, largeStep := 5 }
  | .verticalPad => { min := 0, max := 200, step := 1, largeStep := 10 }
  | .horizontalPad => { min := 0, max := 200, step := 1, largeStep := 10 }
  | .borderRadius => { min := 0, max := 50, step := 1, largeStep := 5 }
  | .tableOffsetY => { min := -300, max := 300, step := 1, largeStep := 10 }
  | .nickColWidth => { min := 50, max := 400, step := 1, largeStep := 10 }

/-- What the user does with a `NumControl`: one of the four step buttons, or
a value typed into the input (`e.target.value`). -/
inductive NumControlEvent where
  | minusLarge
  | minus
  | typed (value : String)
  | plus
  | plusLarge
deriving DecidableEq, Repr

/-- The call of `setter` that a `NumControl` makes (lines 308-317). -/
def numControl (parseInt : String → Option Int) (key : NumKey) (ev : NumControlEvent) :
    Doc → Doc :=
  let props := numControlProps key
  setNumberValue parseInt key
    (match ev with
      | .minusLarge =>
        .fn (fun p => clamp (getNumValue parseInt (.num p) - props.largeStep) props.min props.max)
      | .minus =>
        .fn (fun p => clamp (getNumValue parseInt (.num p) - props.step) props.min props.max)
      | .typed value => .value (.str value)
      | .plus =>
        .fn (fun p => clamp (getNumValue parseInt (.num p) + props.step) props.min props.max)
      | .plusLarge =>
        .fn (fun p => clamp (getNumValue parseInt (.num p) + props.largeStep) props.min props.max))

/-! # Theorems -/

/-! ## History manager -/

theorem setAppState_value_same {D : Type} [DecidableEq D] (s : HistoryState D) (d : D)
    (h : s.current = some d) : setAppState s (.value d) = some s := by
  simp [setAppState, h]

theorem setAppState_value_diff {D : Type} [DecidableEq D] (s : HistoryState D) (d : D)
    (h : s.current ≠ some d) :
    setAppState s (.value d) =
      some (if (s.history.take (s.index + 1) ++ [d]).length > MAX_HISTORY then
        { current := some d, history := (s.history.take (s.index + 1) ++ [d]).drop 1,
          index := (s.history.take (s.index + 1) ++ [d]).length - 1 - 1 }
      else
        { current := some d, history := s.history.take (s.index + 1) ++ [d],
          index := (s.history.take (s.index + 1) ++ [d]).length - 1 }) := by
  have h' : ¬ (some d = s.current) := fun e => h e.symm
  simp only [setAppState, h', if_false]
  split <;> rfl

theorem setAppState_fn {D : Type} [DecidableEq D] (s : HistoryState D) (f : D → D) (d : D)
    (h : s.current = some d) : setAppState s (.fn f) = setAppState s (.value (f d)) := by
  simp [setAppState, h]

theorem setAppState_some_cases {D : Type} [DecidableEq D] (s s' : HistoryState D)
    (a : StateOrFn D) (h : setAppState s a = some s') :
    s' = s ∨ ∃ d, s.current ≠ some d ∧ setAppState s (.value d) = some s' := by
  cases a with
  | value d =>
    by_cases hc : s.current = some d
    · left; rw [setAppState_value_same s d hc] at h; exact (Option.some.inj h).symm
    · right; exact ⟨d, hc, h⟩
  | fn f =>
    cases hcur : s.current with
    | none => simp [setAppState, hcur] at h
    | some c =>
      rw [setAppState_fn s f c hcur] at h
      by_cases hc : s.current = some (f c)
      · left; rw [setAppState_value_same s _ hc] at h; exact (Option.some.inj h).symm
      · right; exact ⟨f c, hcur ▸ hc, h⟩

/-- What a commit of a differing document produces on a well-formed state. -/
theorem setAppState_commit_spec {D : Type} [DecidableEq D] (s : HistoryState D) (d : D)
    (hs : HistoryInv s) (hd : s.current ≠ some d) :
    ∃ s', setAppState s (.value d) = some s' ∧
      s'.history = (s.history.take (s.index + 1) ++ [d]).drop
        (if s.index + 2 > MAX_HISTORY then 1 else 0) ∧
      s'.history.length = min (s.index + 2) MAX_HISTORY ∧
      s'.index + 1 = s'.history.length ∧
      s'.current = some d := by
  rw [setAppState_value_diff s d hd]
  obtain ⟨h1, h2, h3⟩ := hs
  have hlen : (s.history.take (s.index + 1) ++ [d]).length = s.index + 2 := by
    simp [List.length_take]; omega
  have hM : MAX_HISTORY = 50 := rfl
  rw [hlen, hM]
  rw [hM] at h3
  by_cases hgt : s.index + 2 > 50
  · rw [if_pos hgt, if_pos hgt]
    refine ⟨_, rfl, rfl, ?_, ?_, rfl⟩
    · simp [List.length_take]; omega
    · simp [List.length_take]; omega
  · rw [if_neg hgt, if_neg hgt]
    refine ⟨_, rfl, by simp, ?_, ?_, rfl⟩
    · show (s.history.take (s.index + 1) ++ [d]).length = _
      rw [hlen]; omega
    · show s.index + 2 - 1 + 1 = (s.history.take (s.index + 1) ++ [d]).length
      rw [hlen]; omega

theorem getElem?_of_last {D : Type} (l : List D) (pre : List D) (d : D) (k : Nat)
    (hl : l = (pre ++ [d]).drop k) (hk : k ≤ pre.length) :
    l[l.length - 1]? = some d := by
  subst hl
  rw [List.getElem?_drop, List.length_drop, List.length_append, List.length_singleton]
  have : k + (pre.length + 1 - k - 1) = pre.length := by omega
  rw [this, List.getElem?_append_right (le_refl _)]
  simp

theorem historyInv_commit {D : Type} [DecidableEq D] (s s' : HistoryState D) (d : D)
    (hs : HistoryInv s) (hd : s.current ≠ some d) (h : setAppState s (.value d) = some s') :
    HistoryInv s' := by
  obtain ⟨t, ht, hh, hl, hi, hc⟩ := setAppState_commit_spec s d hs hd
  rw [ht] at h
  obtain rfl := Option.some.inj h
  have hM : MAX_HISTORY = 50 := rfl
  obtain ⟨h1, h2, h3⟩ := hs
  refine ⟨by omega, ?_, by rw [hl]; exact Nat.min_le_right _ _⟩
  rw [hc]
  have hidx : t.index = t.history.length - 1 := by omega
  rw [hidx]
  refine getElem?_of_last _ _ d _ hh ?_
  rw [List.length_take]
  split <;> omega

theorem historyInv_undo {D : Type} (s : HistoryState D) (hs : HistoryInv s) :
    HistoryInv (undo s) := by
  obtain ⟨h1, h2, h3⟩ := hs
  unfold undo
  split
  · exact ⟨h1, h2, h3⟩
  · exact ⟨by simp; omega, rfl, h3⟩

theorem historyInv_redo {D : Type} (s : HistoryState D) (hs : HistoryInv s) :
    HistoryInv (redo s) := by
  obtain ⟨h1, h2, h3⟩ := hs
  unfold redo
  split
  · exact ⟨h1, h2, h3⟩
  · exact ⟨by simp at *; omega, rfl, h3⟩

theorem historyInv_of_reachable {D : Type} [DecidableEq D] (d0 : D) (s : HistoryState D)
    (h : Reachable d0 s) : HistoryInv s := by
  induction h with
  | init =>
    exact ⟨by simp [initialHistory], by simp [initialHistory],
      by simp [initialHistory, MAX_HISTORY]⟩
  | commit a _ hstep ih =>
    rcases setAppState_some_cases _ _ a hstep with rfl | ⟨d, hd, hc⟩
    · exact ih
    · exact historyInv_commit _ _ d ih hd hc
  | undo _ ih => exact historyInv_undo _ ih
  | redo _ ih => exact historyInv_redo _ ih

/-- C1. History invariant: in every history state reachable from the initial
state by commits, undo and redo, the cursor satisfies
`0 <= index < history.length` and `current` is the entry `history[index]`. -/
theorem C1_history_invariant {D : Type} [DecidableEq D] (d0 : D) (s : HistoryState D)
    (h : Reachable d0 s) :
    0 ≤ s.index ∧ ∃ hlt : s.index < s.history.length,
      s.current = some (s.history.get ⟨s.index, hlt⟩) := by
  obtain ⟨h1, h2, _⟩ := historyInv_of_reachable d0 s h
  refine ⟨Nat.zero_le _, h1, ?_⟩
  rw [← h2, List.getElem?_eq_getElem h1]
  rfl

/-- Witness of C1: the state after one commit and one undo, over numbers. -/
theorem C1_history_invariant_witness :
    Reachable (0 : Nat) (undo ⟨some 1, [0, 1], 1⟩) ∧
      (0 ≤ (undo (⟨some 1, [0, 1], 1⟩ : HistoryState Nat)).index ∧
        ∃ hlt : (undo (⟨some 1, [0, 1], 1⟩ : HistoryState Nat)).index <
            (undo (⟨some 1, [0, 1], 1⟩ : HistoryState Nat)).history.length,
          (undo (⟨some 1, [0, 1], 1⟩ : HistoryState Nat)).current =
            some ((undo (⟨some 1, [0, 1], 1⟩ : HistoryState Nat)).history.get
              ⟨(undo (⟨some 1, [0, 1], 1⟩ : HistoryState Nat)).index, hlt⟩)) :=
  have hr : Reachable (0 : Nat) (undo ⟨some 1, [0, 1], 1⟩) :=
    Reachable.undo (Reachable.commit (.value 1) Reachable.init (by decide))
  ⟨hr, C1_history_invariant 0 _ hr⟩


theorem commitAll_chain {D : Type} [DecidableEq D] (d0 : D) (ds : List D) :
    ∀ (s : HistoryState D) (c : D), Reachable d0 s → s.index + 1 = s.history.length →
      s.current = some c → List.Chain (fun a b => a ≠ b) c ds →
      ∃ s', commitAll s ds = some s' ∧ Reachable d0 s' ∧
        s'.index + 1 = s'.history.length ∧
        s'.history.length = min (s.history.length + ds.length) MAX_HISTORY ∧
        s'.current = (c :: ds).getLast? := by
  induction ds with
  | nil =>
    intro s c hr _ hc _
    have hinv := historyInv_of_reachable d0 s hr
    refine ⟨s, rfl, hr, by assumption, ?_, by simpa using hc⟩
    have := hinv.2.2
    simp only [List.length_nil, Nat.add_zero]
    omega
  | cons d ds ih =>
    intro s c hr htop hc hch
    rw [List.chain_cons] at hch
    have hinv := historyInv_of_reachable d0 s hr
    have hd : s.current ≠ some d := by
      rw [hc]; intro e; exact hch.1 (Option.some.inj e)
    obtain ⟨s1, h1, _, hl1, ht1, hc1⟩ := setAppState_commit_spec s d hinv hd
    have hr1 : Reachable d0 s1 := Reachable.commit (.value d) hr h1
    obtain ⟨s2, h2, hr2, ht2, hl2, hc2⟩ := ih s1 d hr1 ht1 hc1 hch.2
    refine ⟨s2, ?_, hr2, ht2, ?_, ?_⟩
    · simp [commitAll, h1, h2]
    · rw [hl2, hl1, List.length_cons]
      have hM : MAX_HISTORY = 50 := rfl
      rw [hM]; omega
    · rw [hc2, List.getLast?_cons_cons]

/-- C2. History bound: after more than 50 commits from the initial state, each
of a document different from the then-current one, the history holds at most
50 entries (exactly `MAX_HISTORY`) and `current` is the document of the last
commit; and no reachable history is longer than `MAX_HISTORY`. -/
theorem C2_history_bound {D : Type} [DecidableEq D] (d0 : D) (ds : List D)
    (hN : ds.length > 50) (hdistinct : List.Chain (fun a b => a ≠ b) d0 ds) :
    (∃ s, commitAll (initialHistory d0) ds = some s ∧ s.history.length ≤ 50 ∧
        s.history.length = MAX_HISTORY ∧ s.current = ds.getLast?) ∧
      (∀ s, Reachable d0 s → s.history.length ≤ MAX_HISTORY) := by
  refine ⟨?_, fun s hr => (historyInv_of_reachable d0 s hr).2.2⟩
  obtain ⟨s, h1, _, _, hl, hc⟩ :=
    commitAll_chain d0 ds (initialHistory d0) d0 Reachable.init rfl rfl hdistinct
  have hM : MAX_HISTORY = 50 := rfl
  have hlen : s.history.length = 50 := by
    rw [hl, hM]; simp only [initialHistory, List.length_singleton]; omega
  refine ⟨s, h1, by omega, by rw [hlen, hM], ?_⟩
  rw [hc]
  cases ds with
  | nil => simp at hN
  | cons d ds => rw [List.getLast?_cons_cons]

/-- Witness of C2: the 51 commits of the documents 1, 2, ..., 51 after 0. -/
theorem C2_history_bound_witness :
    (∃ s, commitAll (initialHistory (0 : Nat)) (List.range' 1 51) = some s ∧
        s.history.length ≤ 50 ∧ s.history.length = MAX_HISTORY ∧
        s.current = (List.range' 1 51).getLast?) ∧
      (∀ s, Reachable (0 : Nat) s → s.history.length ≤ MAX_HISTORY) :=
  C2_history_bound (0 : Nat) (List.range' 1 51) (by decide)
    ((List.chain_lt_range' 0 51 Nat.one_pos).imp (fun _ _ h => Nat.ne_of_lt h))

theorem redo_at_top {D : Type} (s : HistoryState D) (h : s.index + 1 = s.history.length) :
    redo s = s := by
  unfold redo
  rw [if_pos (by omega)]

/-- C3. Linear history law: on a reachable state with cursor `i`, the commit of
a document that differs from `current` gives the history made of the old
entries `0..i` followed by the new document, without its oldest entry when that
length `i + 2` exceeds 50; the cursor is on the last entry, which is the new
document, and a redo right after the commit changes nothing. -/
theorem C3_linear_history {D : Type} [DecidableEq D] (d0 : D) (s : HistoryState D) (d : D)
    (hr : Reachable d0 s) (hd : s.current ≠ some d) :
    ∃ s', setAppState s (.value d) = some s' ∧
      s'.history = (s.history.take (s.index + 1) ++ [d]).drop
        (if s.index + 2 > MAX_HISTORY then 1 else 0) ∧
      (s.history.take (s.index + 1)).length = s.index + 1 ∧
      s'.index + 1 = s'.history.length ∧
      s'.history.getLast? = some d ∧
      s'.current = some d ∧
      redo s' = s' := by
  have hinv := historyInv_of_reachable d0 s hr
  obtain ⟨s', h1, hh, hl, ht, hc⟩ := setAppState_commit_spec s d hinv hd
  have hinv' := historyInv_commit s s' d hinv hd h1
  have htake : (s.history.take (s.index + 1)).length = s.index + 1 := by
    rw [List.length_take]; have := hinv.1; omega
  refine ⟨s', h1, hh, htake, ht, ?_, hc, redo_at_top s' ht⟩
  rw [List.getLast?_eq_getElem?, ← hc, ← hinv'.2.1]
  congr 1
  omega

/-- Witness of C3: a commit after an undo, over numbers; the entry 1 beyond
the cursor is discarded. -/
theorem C3_linear_history_witness :
    ∃ s', setAppState (undo (⟨some 1, [0, 1], 1⟩ : HistoryState Nat)) (.value 7) = some s' ∧
      s'.history = ((undo (⟨some 1, [0, 1], 1⟩ : HistoryState Nat)).history.take
          ((undo (⟨some 1, [0, 1], 1⟩ : HistoryState Nat)).index + 1) ++ [7]).drop
        (if (undo (⟨some 1, [0, 1], 1⟩ : HistoryState Nat)).index + 2 > MAX_HISTORY
          then 1 else 0) ∧
      ((undo (⟨some 1, [0, 1], 1⟩ : HistoryState Nat)).history.take
          ((undo (⟨some 1, [0, 1], 1⟩ : HistoryState Nat)).index + 1)).length =
        (undo (⟨some 1, [0, 1], 1⟩ : HistoryState Nat)).index + 1 ∧
      s'.index + 1 = s'.history.length ∧
      s'.history.getLast? = some 7 ∧
      s'.current = some 7 ∧
      redo s' = s' :=
  C3_linear_history (0 : Nat) (undo ⟨some 1, [0, 1], 1⟩) 7
    (Reachable.undo (Reachable.commit (.value 1) Reachable.init (by decide))) (by decide)

/-- C4. No-op suppression: on every history state, the commit of a document
equal to `current`, given as a value or produced by an updater function,
returns the state itself: history, index and current are unchanged, and a redo
branch stays. -/
theorem C4_noop_suppression {D : Type} [DecidableEq D] (s : HistoryState D) (d : D)
    (h : s.current = some d) :
    setAppState s (.value d) = some s ∧
      ∀ f : D → D, f d = d → setAppState s (.fn f) = some s := by
  refine ⟨setAppState_value_same s d h, fun f hf => ?_⟩
  rw [setAppState_fn s f d h, hf]
  exact setAppState_value_same s d h

/-- Witness of C4: a state with a redo branch (entry 2 beyond the cursor). -/
theorem C4_noop_suppression_witness :
    setAppState (⟨some 1, [0, 1, 2], 1⟩ : HistoryState Nat) (.value 1) =
        some ⟨some 1, [0, 1, 2], 1⟩ ∧
      ∀ f : Nat → Nat, f 1 = 1 →
        setAppState (⟨some 1, [0, 1, 2], 1⟩ : HistoryState Nat) (.fn f) =
          some ⟨some 1, [0, 1, 2], 1⟩ :=
  C4_noop_suppression (⟨some 1, [0, 1, 2], 1⟩ : HistoryState Nat) 1 rfl


theorem undo_at_zero {D : Type} (t : HistoryState D) (h : t.index = 0) : undo t = t := by
  unfold undo
  rw [if_pos (by omega)]

/-- After a commit of a differing document on a well-formed state, undo shows
the previous current document and redo restores the committed state. -/
theorem undo_redo_after_commit {D : Type} [DecidableEq D] (s : HistoryState D) (d : D)
    (hs : HistoryInv s) (hd : s.current ≠ some d) :
    ∃ s', setAppState s (.value d) = some s' ∧ (undo s').current = s.current ∧
      redo (undo s') = s' := by
  obtain ⟨s', h1, hh, hl, ht, hc⟩ := setAppState_commit_spec s d hs hd
  have hinv' := historyInv_commit s s' d hs hd h1
  obtain ⟨i1, i2, i3⟩ := hs
  have hM : MAX_HISTORY = 50 := rfl
  rw [hM] at hl hh i3
  have hpos : ¬ s'.index ≤ 0 := by omega
  have hundo : undo s' = { s' with current := s'.history[s'.index - 1]?, index := s'.index - 1 } := by
    unfold undo; rw [if_neg hpos]
  refine ⟨s', h1, ?_, ?_⟩
  · rw [hundo]
    show s'.history[s'.index - 1]? = s.current
    rw [← i2, hh, List.getElem?_drop]
    have hidx : s'.index = min (s.index + 2) 50 - 1 := by omega
    have hk : (if s.index + 2 > 50 then 1 else 0) + (s'.index - 1) = s.index := by
      rw [hidx]; split <;> omega
    rw [hk, List.getElem?_append_left (by rw [List.length_take]; omega),
      List.getElem?_take_of_lt (by omega)]
  · rw [hundo]
    unfold redo
    have hlt : ¬ (s'.index - 1 ≥ s'.history.length - 1) := by
      show ¬ (s'.index - 1 ≥ s'.history.length - 1)
      omega
    simp only []
    rw [if_neg hlt]
    have e1 : s'.index - 1 + 1 = s'.index := by omega
    rw [e1, hinv'.2.1]

theorem scenario_commit (loadTime : Nat) :
    setRows (onDrop "A" 0 .three0 0) (INITIAL_STATE_BASE loadTime) =
      { INITIAL_STATE_BASE loadTime with
        stages := [{ INITIAL_STAGE loadTime with
          rows := onDrop "A" 0 .three0 0 (getInitialRows 10) }] } := by
  simp [setRows, updateActiveStage, INITIAL_STATE_BASE, INITIAL_STAGE, createStage]

theorem currentPick_initial (loadTime : Nat) :
    currentPick (some (INITIAL_STATE_BASE loadTime)) 0 .three0 0 = some none := by
  simp [currentPick, activeStage, INITIAL_STATE_BASE, INITIAL_STAGE, createStage]
  decide

theorem currentPick_scenario (loadTime : Nat) :
    currentPick (some (setRows (onDrop "A" 0 .three0 0) (INITIAL_STATE_BASE loadTime)))
      0 .three0 0 = some (some "A") := by
  rw [scenario_commit]
  simp [currentPick, activeStage, INITIAL_STATE_BASE, INITIAL_STAGE, createStage]
  decide

/-- C5. Undo/redo round trip: on a reachable state, after the commit of a
document that differs from `current`, undo shows the previous current document
and redo restores the committed state; undo at index 0 and redo at the last
index return the state unchanged; and from one stage of 10 default rows,
dropping 'A' on row 0, `three0[0]`, gives 'A', undo gives `null` again and
redo gives 'A' again. -/
theorem C5_undo_redo_round_trip {D : Type} [DecidableEq D] (d0 : D) (s : HistoryState D)
    (d : D) (hr : Reachable d0 s) (hd : s.current ≠ some d) :
    (∃ s', setAppState s (.value d) = some s' ∧ (undo s').current = s.current ∧
        redo (undo s') = s') ∧
      (∀ t : HistoryState D, t.index = 0 → undo t = t) ∧
      (∀ t : HistoryState D, t.index = t.history.length - 1 → redo t = t) ∧
      (∀ loadTime : Nat,
        currentPick (initialHistory (INITIAL_STATE_BASE loadTime)).current 0 .three0 0 =
          some none ∧
        ∃ s1, setAppState (initialHistory (INITIAL_STATE_BASE loadTime))
            (.fn (setRows (onDrop "A" 0 .three0 0))) = some s1 ∧
          currentPick s1.current 0 .three0 0 = some (some "A") ∧
          currentPick (undo s1).current 0 .three0 0 = some none ∧
          currentPick (redo (undo s1)).current 0 .three0 0 = some (some "A")) := by
  refine ⟨undo_redo_after_commit s d (historyInv_of_reachable d0 s hr) hd,
    fun t ht => undo_at_zero t ht, fun t ht => ?_, fun loadTime => ?_⟩
  · unfold redo; rw [if_pos (by omega)]
  · refine ⟨currentPick_initial loadTime, ?_⟩
    have hne : (initialHistory (INITIAL_STATE_BASE loadTime)).current ≠
        some (setRows (onDrop "A" 0 .three0 0) (INITIAL_STATE_BASE loadTime)) := by
      intro e
      have h1 := currentPick_initial loadTime
      have h2 := currentPick_scenario loadTime
      rw [← e] at h2
      rw [show (initialHistory (INITIAL_STATE_BASE loadTime)).current =
        some (INITIAL_STATE_BASE loadTime) from rfl] at h2
      rw [h1] at h2
      exact absurd h2 (by decide)
    obtain ⟨s1, hc, hu, hrd⟩ := undo_redo_after_commit _ _
      (historyInv_of_reachable (INITIAL_STATE_BASE loadTime) _ Reachable.init) hne
    obtain ⟨s1', hc', _, _, _, hcur⟩ := setAppState_commit_spec _ _
      (historyInv_of_reachable (INITIAL_STATE_BASE loadTime) _ Reachable.init) hne
    have hs : s1' = s1 := Option.some.inj (hc'.symm.trans hc)
    subst hs
    refine ⟨s1', ?_, ?_, ?_, ?_⟩
    · rw [setAppState_fn _ _ (INITIAL_STATE_BASE loadTime) rfl]; exact hc
    · rw [hcur]; exact currentPick_scenario loadTime
    · rw [hu]; exact currentPick_initial loadTime
    · rw [hrd, hcur]; exact currentPick_scenario loadTime

/-- Witness of C5: a commit of 7 after one commit and one undo, over numbers. -/
theorem C5_undo_redo_round_trip_witness :
    (∃ s', setAppState (undo (⟨some 1, [0, 1], 1⟩ : HistoryState Nat)) (.value 7) = some s' ∧
        (undo s').current = (undo (⟨some 1, [0, 1], 1⟩ : HistoryState Nat)).current ∧
        redo (undo s') = s') ∧
      (∀ t : HistoryState Nat, t.index = 0 → undo t = t) ∧
      (∀ t : HistoryState Nat, t.index = t.history.length - 1 → redo t = t) ∧
      (∀ loadTime : Nat,
        currentPick (initialHistory (INITIAL_STATE_BASE loadTime)).current 0 .three0 0 =
          some none ∧
        ∃ s1, setAppState (initialHistory (INITIAL_STATE_BASE loadTime))
            (.fn (setRows (onDrop "A" 0 .three0 0))) = some s1 ∧
          currentPick s1.current 0 .three0 0 = some (some "A") ∧
          currentPick (undo s1).current 0 .three0 0 = some none ∧
          currentPick (redo (undo s1)).current 0 .three0 0 = some (some "A")) :=
  C5_undo_redo_round_trip (0 : Nat) (undo ⟨some 1, [0, 1], 1⟩) 7
    (Reachable.undo (Reachable.commit (.value 1) Reachable.init (by decide))) (by decide)


/-! ## Document invariants -/

theorem activeStageInv_migrate (loadTime : Nat) (v1State : FileObject) :
    ActiveStageInv (migrateV1StateToV2 loadTime v1State) := by
  simp [ActiveStageInv, migrateV1StateToV2]

theorem activeStageInv_map_id (d : Doc) (f : Stage → Stage) (stages : List Stage)
    (hf : ∀ s, (f s).id = s.id) (h : ActiveStageInv d) (hs : stages = d.stages.map f) :
    ActiveStageInv { d with stages := stages } := by
  obtain ⟨h1, h2⟩ := h
  subst hs
  refine ⟨by simpa using h1, ?_⟩
  simp only [List.map_map]
  have : ((fun s => s.id) ∘ f) = (fun s : Stage => s.id) := by
    funext s; exact hf s
  rw [this]; exact h2

theorem activeStageInv_deleteStage (idToDelete : String) (confirmed : Bool) (d d' : Doc)
    (h : ActiveStageInv d) (hd : deleteStage idToDelete confirmed d = some d') :
    ActiveStageInv d' := by
  unfold deleteStage at hd
  split at hd
  · obtain rfl := Option.some.inj hd; exact h
  split at hd
  · obtain rfl := Option.some.inj hd; exact h
  simp only [Option.map_eq_some'] at hd
  obtain ⟨id, hid, rfl⟩ := hd
  split at hid
  · -- the deleted stage was active: the first remaining stage becomes active
    simp only [Option.map_eq_some'] at hid
    obtain ⟨s0, hs0, rfl⟩ := hid
    have hmem : s0 ∈ d.stages.filter (fun s => s.id != idToDelete) :=
      List.getElem?_mem hs0
    exact ⟨List.ne_nil_of_mem hmem, List.mem_map.mpr ⟨s0, hmem, rfl⟩⟩
  · rename_i hne
    obtain rfl := Option.some.inj hid
    obtain ⟨_, h2⟩ := h
    obtain ⟨s0, hs0, hs0id⟩ := List.mem_map.mp h2
    have hmem : s0 ∈ d.stages.filter (fun s => s.id != idToDelete) := by
      rw [List.mem_filter]
      refine ⟨hs0, ?_⟩
      simp only [bne_iff_ne, ne_eq]
      rw [hs0id]; exact hne
    exact ⟨List.ne_nil_of_mem hmem, List.mem_map.mpr ⟨s0, hmem, hs0id⟩⟩

/-- C6 (amended). Active-stage invariant: every document reachable from the
initial document, a legacy migration or a full import of a legacy file through
`addNewStage`, `deleteStage`, `setActiveStage` on the id of an existing stage,
`renameStage` and the row and stats edits of the active stage has a non-empty
`stages` and an `activeStageId` that is the id of one of them; a full import of
a current-schema file keeps this when the imported document itself has it. -/
theorem C6_active_stage_invariant (loadTime : Nat) (d : Doc) (h : DocReachable loadTime d) :
    d.stages ≠ [] ∧ ∃ s ∈ d.stages, s.id = d.activeStageId := by
  have key : ActiveStageInv d := by
    induction h with
    | initial => simp [ActiveStageInv, INITIAL_STATE_BASE]
    | migrated v1State => exact activeStageInv_migrate loadTime v1State
    | importLegacy file hleg himp =>
      cases file with
      | bareRows rows =>
        obtain rfl := Option.some.inj himp
        exact activeStageInv_migrate _ _
      | object o =>
        simp only [fileIsLegacy] at hleg
        simp only [importFull, hleg, if_true] at himp
        split at himp
        · obtain rfl := Option.some.inj himp
          exact activeStageInv_migrate _ _
        · exact absurd himp (by simp)
    | importCurrent file _ _ hinv => exact hinv
    | addNewStage now _ ih =>
      simp [ActiveStageInv, addNewStage]
    | deleteStage idToDelete confirmed _ hd ih =>
      exact activeStageInv_deleteStage idToDelete confirmed _ _ ih hd
    | setActiveStage stage _ hmem ih =>
      exact ⟨ih.1, List.mem_map.mpr ⟨stage, hmem, rfl⟩⟩
    | renameStage id newName _ ih =>
      exact activeStageInv_map_id _ (fun s => if s.id = id then { s with name := newName } else s)
        _ (fun s => by dsimp only; split <;> rfl) ih rfl
    | stageEdit rows rowCount stats correctTeams hprev ih =>
      rename_i d0
      exact activeStageInv_map_id d0 _ _ (fun s => by dsimp only; split <;> rfl) ih rfl
  exact ⟨key.1, by
    obtain ⟨s, hs, hid⟩ := List.mem_map.mp key.2
    exact ⟨s, hs, hid⟩⟩

/-- Witness of C6: a stage is added to the initial document, then the first
stage is made active again. -/
theorem C6_active_stage_invariant_witness :
    DocReachable 0 (setActiveStage (INITIAL_STAGE 0).id (addNewStage 1 (INITIAL_STATE_BASE 0))) ∧
      ((setActiveStage (INITIAL_STAGE 0).id (addNewStage 1 (INITIAL_STATE_BASE 0))).stages ≠ [] ∧
        ∃ s ∈ (setActiveStage (INITIAL_STAGE 0).id (addNewStage 1 (INITIAL_STATE_BASE 0))).stages,
          s.id =
            (setActiveStage (INITIAL_STAGE 0).id
              (addNewStage 1 (INITIAL_STATE_BASE 0))).activeStageId) :=
  have hr : DocReachable 0
      (setActiveStage (INITIAL_STAGE 0).id (addNewStage 1 (INITIAL_STATE_BASE 0))) :=
    DocReachable.setActiveStage (INITIAL_STAGE 0)
      (DocReachable.addNewStage 1 DocReachable.initial) (by simp [addNewStage, INITIAL_STATE_BASE])
  ⟨hr, C6_active_stage_invariant 0 _ hr⟩

/-- C6, as stated, fails: the full import of the file
`{"schemaVersion": 2, "stages": []}` commits a document without any stage, and
the import of a file whose `activeStageId` names no stage commits a dangling
`activeStageId`. -/
theorem C6_counterexample :
    (∃ d, importFull 0 (.object { FileObject.empty with
        schemaVersion := some 2, stages := some [] }) = some d ∧
      d.stages = [] ∧ ¬ ActiveStageInv d) ∧
    (∃ d, importFull 0 (.object { FileObject.empty with
        schemaVersion := some 2
        stages := some [{ id := "s-1-0", name := "A", rows := [], rowCount := 0, stats := some []
                          correctTeams := { three0 := [], pass := [], out := [] } }]
        activeStageId := some "s-9-9" }) = some d ∧
      d.stages ≠ [] ∧ ¬ ActiveStageInv d) := by
  refine ⟨⟨_, rfl, by decide, by decide⟩, ⟨_, rfl, by decide, by decide⟩⟩


/-- C7, evaluated at the failing input: on the initial document (one stage of
10 rows) `setRowCount(11)` makes two commits, the first of which stores a
document with `rowCount` 11 and 10 rows; the final document is consistent, and
one undo lands on the inconsistent one. -/
theorem C7_setRowCount_intermediate_commit :
    ∃ h, setRowCount 11 (initialHistory (INITIAL_STATE_BASE 0)) = some h ∧
      h.history.length = 3 ∧
      h.current.map (fun d => decide (RowCountInv d)) = some true ∧
      ∃ d, (undo h).current = some d ∧ ¬ RowCountInv d ∧
        d.stages.map (fun stage => (stage.rowCount, stage.rows.length)) = [(11, 10)] := by
  refine ⟨_, rfl, by decide, by decide, _, rfl, by decide, by decide⟩

/-- C8, evaluated at the failing inputs: after 'A' is dropped on slot 0 of
`three0` of row 0, the picker (`selectIconForCell`) writes 'A' into slot 1 as
well, a write that `onDrop` rejects; and `validateRows` keeps an imported
`three0` of length 1 and an imported duplicate, as the migration does. -/
theorem C8_slot_invariant_broken :
    (∀ r ∈ onDrop "A" 0 .three0 0 (getInitialRows 10), SlotInv r) ∧
    onDrop "A" 0 .three0 1 (onDrop "A" 0 .three0 0 (getInitialRows 10)) =
      onDrop "A" 0 .three0 0 (getInitialRows 10) ∧
    ((selectIconForCell (some ⟨0, .three0, 1⟩) "A"
        (onDrop "A" 0 .three0 0 (getInitialRows 10)))[0]?).map (fun r => r.three0) =
      some [some "A", some "A"] ∧
    (¬ ∀ r ∈ selectIconForCell (some ⟨0, .three0, 1⟩) "A"
        (onDrop "A" 0 .three0 0 (getInitialRows 10)), SlotInv r) ∧
    (validateRows (some [{ (createRow 0).toRaw with three0 := some [some "A"] }])).map
        (fun r => r.three0) = [[some "A"]] ∧
    (validateRows (some [{ (createRow 0).toRaw with three0 := some [some "A", some "A"] }])).map
        (fun r => r.three0) = [[some "A", some "A"]] ∧
    ((migrateV1StateToV2 0 { FileObject.empty with
        rows := some [{ (createRow 0).toRaw with three0 := some [some "A", some "A", some "A"] }]
      }).stages.map (fun stage => stage.rows.map (fun r => r.three0))) =
      [[[some "A", some "A", some "A"]]] := by
  refine ⟨by decide, by decide, by decide, by decide, by decide, by decide, by decide⟩


/-! ## Writing a pick -/

theorem Row.setArea_area_self (r : Row) (area : Area) : r.setArea area (r.area area) = r := by
  cases area <;> rfl

theorem Row.area_setArea (r : Row) (area : Area) (v : List Slot) :
    (r.setArea area v).area area = v := by
  cases area <;> rfl

theorem Row.area_setArea_of_ne (r : Row) (area b : Area) (v : List Slot) (h : b ≠ area) :
    (r.setArea area v).area b = r.area b := by
  cases area <;> cases b <;> first | rfl | exact absurd rfl h

/-- The row that `onDrop` computes for the row under the drop. -/
theorem onDrop_getElem? (payload : String) (rIdx : Nat) (area : Area) (cIdx : Nat)
    (rs : List Row) (hp : payload ≠ "") (i : Nat) :
    (onDrop payload rIdx area cIdx rs)[i]? = rs[i]?.map (fun r =>
      if i ≠ rIdx then r
      else if (r.area area).contains (some payload) &&
          (r.area area)[cIdx]? != some (some payload) then r
      else r.setArea area
        ((r.area area).mapIdx (fun j cell => if j = cIdx then some payload else cell))) := by
  simp only [onDrop, if_neg hp, List.getElem?_mapIdx]

theorem mapIdx_write_getElem? (l : List Slot) (c : Nat) (a : Slot) (j : Nat) :
    (l.mapIdx (fun j cell => if j = c then a else cell))[j]? =
      if j = c then l[j]?.map (fun _ => a) else l[j]? := by
  rw [List.getElem?_mapIdx]
  split
  · rfl
  · cases l[j]? <;> rfl

theorem mapIdx_write_same (l : List Slot) (c : Nat) (a : Slot)
    (h : ∀ x, l[c]? = some x → x = a) :
    l.mapIdx (fun j cell => if j = c then a else cell) = l := by
  apply List.ext_getElem?
  intro j
  rw [mapIdx_write_getElem?]
  split
  · rename_i hj
    subst hj
    cases hl : l[j]? with
    | none => rfl
    | some x => rw [h x hl]; rfl
  · rfl


theorem onDrop_other_row (payload : String) (rIdx : Nat) (area : Area) (cIdx : Nat)
    (rs : List Row) (hp : payload ≠ "") (i : Nat) (hi : i ≠ rIdx) :
    (onDrop payload rIdx area cIdx rs)[i]? = rs[i]? := by
  rw [onDrop_getElem? payload rIdx area cIdx rs hp i]
  simp only [ne_eq, hi, not_false_eq_true, if_true]
  cases rs[i]? <;> rfl

theorem onDrop_length (payload : String) (rIdx : Nat) (area : Area) (cIdx : Nat)
    (rs : List Row) : (onDrop payload rIdx area cIdx rs).length = rs.length := by
  unfold onDrop
  split
  · rfl
  · exact List.length_mapIdx

/-- C9. `setPick` (a drop on a cell): for a non-empty asset `a`, when `a`
already occupies a slot of `rows[r][area]` other than `c` the rows are
returned unchanged; otherwise the result has the same rows except row `r`,
which keeps every field and every slot except that slot `c` of `area` now holds
`a`.  Without a row at index `r` nothing changes. -/
theorem C9_setPick (rs : List Row) (r : Nat) (area : Area) (c : Nat) (a : String)
    (ha : a ≠ "") :
    (∀ row, rs[r]? = some row →
      (∃ j, j ≠ c ∧ (row.area area)[j]? = some (some a)) →
      onDrop a r area c rs = rs) ∧
    (∀ row, rs[r]? = some row →
      (¬ ∃ j, j ≠ c ∧ (row.area area)[j]? = some (some a)) →
      (onDrop a r area c rs).length = rs.length ∧
      (∀ i, i ≠ r → (onDrop a r area c rs)[i]? = rs[i]?) ∧
      ∃ row', (onDrop a r area c rs)[r]? = some row' ∧
        (c < (row.area area).length → (row'.area area)[c]? = some (some a)) ∧
        (row'.area area).length = (row.area area).length ∧
        (∀ j, j ≠ c → (row'.area area)[j]? = (row.area area)[j]?) ∧
        (∀ b, b ≠ area → row'.area b = row.area b) ∧
        row'.id = row.id ∧ row'.nick = row.nick ∧ row'.avatar = row.avatar ∧
        row'.avatarScale = row.avatarScale ∧ row'.avatarPosX = row.avatarPosX ∧
        row'.avatarPosY = row.avatarPosY ∧ row'.nickFontSize = row.nickFontSize) ∧
    (rs[r]? = none → onDrop a r area c rs = rs) := by
  refine ⟨fun row hrow hocc => ?_, fun row hrow hfree => ?_, fun hnone => ?_⟩
  · -- rejected write
    apply List.ext_getElem?
    intro i
    by_cases hi : i = r
    · subst hi
      rw [onDrop_getElem? a i area c rs ha i, hrow]
      simp only [ne_eq, not_true_eq_false, if_false, Option.map_some']
      split
      · rfl
      · rename_i hcond
        obtain ⟨j, _, hj⟩ := hocc
        have hmem : (row.area area).contains (some a) = true := by
          exact List.elem_iff.mpr (List.getElem?_mem hj)
        rw [hmem, Bool.true_and] at hcond
        have hc : (row.area area)[c]? = some (some a) := by
          simpa using hcond
        rw [mapIdx_write_same _ c (some a) (fun x hx => by
          rw [hc] at hx; exact (Option.some.inj hx).symm), Row.setArea_area_self]
    · exact onDrop_other_row a r area c rs ha i hi
  · -- accepted write
    refine ⟨onDrop_length a r area c rs, fun i hi => onDrop_other_row a r area c rs ha i hi, ?_⟩
    have hcond : ((row.area area).contains (some a) &&
        (row.area area)[c]? != some (some a)) = false := by
      by_cases hmem : some a ∈ row.area area
      · obtain ⟨j, hj⟩ := List.getElem?_of_mem hmem
        have hjc : j = c := by
          by_contra hne
          exact hfree ⟨j, hne, hj⟩
        subst hjc
        simp [hj]
      · have : (row.area area).contains (some a) = false := by
          rw [← Bool.not_eq_true]; exact fun h => hmem (List.elem_iff.mp h)
        rw [this, Bool.false_and]
    refine ⟨row.setArea area
      ((row.area area).mapIdx (fun j cell => if j = c then some a else cell)), ?_, ?_, ?_, ?_, ?_, ?_⟩
    · rw [onDrop_getElem? a r area c rs ha r, hrow]
      simp only [ne_eq, not_true_eq_false, if_false, Option.map_some', hcond]
      rfl
    · intro hc
      rw [Row.area_setArea, mapIdx_write_getElem?, if_pos rfl, List.getElem?_eq_getElem hc]
      rfl
    · rw [Row.area_setArea, List.length_mapIdx]
    · intro j hj
      rw [Row.area_setArea, mapIdx_write_getElem?, if_neg hj]
    · intro b hb
      exact Row.area_setArea_of_ne row area b _ hb
    · cases area <;> exact ⟨rfl, rfl, rfl, rfl, rfl, rfl, rfl⟩
  · apply List.ext_getElem?
    intro i
    by_cases hi : i = r
    · subst hi
      rw [onDrop_getElem? a i area c rs ha i, hnone]
      rfl
    · exact onDrop_other_row a r area c rs ha i hi

/-- Witness of C9: drops of 'A' and 'B' on row 0 whose `three0` is
`['A', null]`. -/
theorem C9_setPick_witness :
    (∀ row, ([{ createRow 0 with three0 := [some "A", none] }] : List Row)[0]? = some row →
      (∃ j, j ≠ 1 ∧ (row.area .three0)[j]? = some (some "B")) →
      onDrop "B" 0 .three0 1 [{ createRow 0 with three0 := [some "A", none] }] =
        [{ createRow 0 with three0 := [some "A", none] }]) ∧
    (∀ row, ([{ createRow 0 with three0 := [some "A", none] }] : List Row)[0]? = some row →
      (¬ ∃ j, j ≠ 1 ∧ (row.area .three0)[j]? = some (some "B")) →
      (onDrop "B" 0 .three0 1 [{ createRow 0 with three0 := [some "A", none] }]).length =
        ([{ createRow 0 with three0 := [some "A", none] }] : List Row).length ∧
      (∀ i, i ≠ 0 →
        (onDrop "B" 0 .three0 1 [{ createRow 0 with three0 := [some "A", none] }])[i]? =
          ([{ createRow 0 with three0 := [some "A", none] }] : List Row)[i]?) ∧
      ∃ row', (onDrop "B" 0 .three0 1 [{ createRow 0 with three0 := [some "A", none] }])[0]? =
          some row' ∧
        (1 < (row.area .three0).length → (row'.area .three0)[1]? = some (some "B")) ∧
        (row'.area .three0).length = (row.area .three0).length ∧
        (∀ j, j ≠ 1 → (row'.area .three0)[j]? = (row.area .three0)[j]?) ∧
        (∀ b, b ≠ Area.three0 → row'.area b = row.area b) ∧
        row'.id = row.id ∧ row'.nick = row.nick ∧ row'.avatar = row.avatar ∧
        row'.avatarScale = row.avatarScale ∧ row'.avatarPosX = row.avatarPosX ∧
        row'.avatarPosY = row.avatarPosY ∧ row'.nickFontSize = row.nickFontSize) ∧
    (([{ createRow 0 with three0 := [some "A", none] }] : List Row)[0]? = none →
      onDrop "B" 0 .three0 1 [{ createRow 0 with three0 := [some "A", none] }] =
        [{ createRow 0 with three0 := [some "A", none] }]) :=
  C9_setPick [{ createRow 0 with three0 := [some "A", none] }] 0 .three0 1 "B" (by decide)


/-! ## Score -/

theorem slotAsset_eq_some (x : Slot) (s : String) :
    slotAsset x = some s ↔ x = some s ∧ s ≠ "" := by
  cases x with
  | none => simp [slotAsset]
  | some v =>
    simp only [slotAsset]
    split
    · rename_i hv
      subst hv
      constructor
      · intro h; exact absurd h (by simp)
      · rintro ⟨h1, h2⟩; exact absurd (Option.some.inj h1).symm h2
    · rename_i hv
      constructor
      · intro h; obtain rfl := Option.some.inj h; exact ⟨rfl, hv⟩
      · rintro ⟨h1, _⟩; exact h1

theorem mem_filterMap_slotAsset (k : List Slot) (s : String) (hs : s ≠ "") :
    s ∈ k.filterMap slotAsset ↔ some s ∈ k := by
  rw [List.mem_filterMap]
  constructor
  · rintro ⟨x, hx, hxs⟩
    rw [((slotAsset_eq_some x s).mp hxs).1] at hx
    exact hx
  · intro h
    exact ⟨some s, h, (slotAsset_eq_some _ s).mpr ⟨rfl, hs⟩⟩

theorem area_score_eq (l k : List Slot) (hl : (l.filterMap slotAsset).Nodup)
    (hk : ∀ x ∈ k, slotAsset x ≠ none) :
    (l.filter (fun team => k.contains team)).length =
      ((l.filterMap slotAsset).toFinset ∩ (k.filterMap slotAsset).toFinset).card := by
  induction l with
  | nil => simp
  | cons t l ih =>
    cases hta : slotAsset t with
    | none =>
      have hnot : k.contains t = false := by
        rw [← Bool.not_eq_true]
        intro h
        exact hk t (List.elem_iff.mp h) hta
      rw [List.filter_cons_of_neg (by
        show ¬ (k.contains t = true)
        rw [hnot]; exact Bool.false_ne_true), List.filterMap_cons_none hta]
      rw [List.filterMap_cons_none hta] at hl
      exact ih hl
    | some s =>
      obtain ⟨rfl, hs⟩ := (slotAsset_eq_some t s).mp hta
      rw [List.filterMap_cons_some hta] at hl ⊢
      obtain ⟨hnotin, hnd⟩ := List.nodup_cons.mp hl
      rw [List.toFinset_cons]
      by_cases hmem : some s ∈ k
      · have hc : k.contains (some s) = true := List.elem_iff.mpr hmem
        rw [List.filter_cons_of_pos (by
          show k.contains (some s) = true
          exact hc), List.length_cons, ih hnd,
          Finset.insert_inter_of_mem (by
            rw [List.mem_toFinset]; exact (mem_filterMap_slotAsset k s hs).mpr hmem),
          Finset.card_insert_of_not_mem (by
            intro h
            rw [Finset.mem_inter, List.mem_toFinset] at h
            exact hnotin h.1)]
      · have hc : k.contains (some s) = false := by
          rw [← Bool.not_eq_true]; exact fun h => hmem (List.elem_iff.mp h)
        rw [List.filter_cons_of_neg (by
          show ¬ (k.contains (some s) = true)
          rw [hc]; exact Bool.false_ne_true), ih hnd,
          Finset.insert_inter_of_not_mem (by
            rw [List.mem_toFinset]
            exact fun h => hmem ((mem_filterMap_slotAsset k s hs).mp h))]

/-- C10 (amended). Score: `calculateScore(row, correctTeams)` is the number of
slots of the row, over the areas three0, pass and out, whose value occurs in
`correctTeams[area]`; when no area of the row holds a non-empty asset twice
and the answer key holds no null or empty entry, this is the sum over the
areas of the size of the intersection of the row's slot values with
`correctTeams[area]`; and a row with `three0 = ['A','B']` scores 1 against
`correctTeams.three0 = ['A']`. -/
theorem C10_score (row : Row) (correctTeams : CorrectTeams)
    (hrow : ∀ area : Area, ((row.area area).filterMap slotAsset).Nodup)
    (hkey : ∀ area : Area, ∀ x ∈ correctTeams.area area, slotAsset x ≠ none) :
    calculateScore row correctTeams = scoreSpec row correctTeams ∧
    (∀ (r : Row) (c : CorrectTeams), calculateScore r c =
      ([Area.three0, Area.pass, Area.out].map (fun area =>
        (r.area area).countP (fun team => decide (team ∈ c.area area)))).sum) ∧
    calculateScore { createRow 0 with three0 := [some "A", some "B"] }
      { three0 := [some "A"], pass := [], out := [] } = 1 := by
  refine ⟨?_, fun r c => ?_, by decide⟩
  · simp only [calculateScore, scoreSpec, List.foldl, List.map, List.sum_cons, List.sum_nil]
    rw [area_score_eq _ _ (hrow .three0) (hkey .three0),
      area_score_eq _ _ (hrow .pass) (hkey .pass),
      area_score_eq _ _ (hrow .out) (hkey .out)]
    omega
  · simp only [calculateScore, List.foldl, List.map, List.sum_cons, List.sum_nil,
      List.countP_eq_length_filter, List.contains, List.elem_eq_mem]
    omega

/-- Witness of C10: the row `three0 = ['A','B']` against the key
`three0 = ['A']`. -/
theorem C10_score_witness :
    calculateScore { createRow 0 with three0 := [some "A", some "B"] }
        { three0 := [some "A"], pass := [], out := [] } =
      scoreSpec { createRow 0 with three0 := [some "A", some "B"] }
        { three0 := [some "A"], pass := [], out := [] } ∧
    (∀ (r : Row) (c : CorrectTeams), calculateScore r c =
      ([Area.three0, Area.pass, Area.out].map (fun area =>
        (r.area area).countP (fun team => decide (team ∈ c.area area)))).sum) ∧
    calculateScore { createRow 0 with three0 := [some "A", some "B"] }
      { three0 := [some "A"], pass := [], out := [] } = 1 :=
  C10_score { createRow 0 with three0 := [some "A", some "B"] }
    { three0 := [some "A"], pass := [], out := [] }
    (by intro area; cases area <;> decide) (by intro area; cases area <;> decide)

/-- C10, as stated, fails: a row whose `three0` holds 'A' in both slots (what
the picker can write) scores 2 against the key `three0 = ['A']`, while the
intersection of its slot values with the key has one element; and a `null`
slot counts as a match when the key contains `null`. -/
theorem C10_counterexample :
    calculateScore { createRow 0 with three0 := [some "A", some "A"] }
        { three0 := [some "A"], pass := [], out := [] } = 2 ∧
    scoreSpec { createRow 0 with three0 := [some "A", some "A"] }
        { three0 := [some "A"], pass := [], out := [] } = 1 ∧
    calculateScore (createRow 0) { three0 := [none], pass := [], out := [] } = 2 ∧
    scoreSpec (createRow 0) { three0 := [none], pass := [], out := [] } = 0 := by
  refine ⟨by decide, by decide, by decide, by decide⟩


/-! ## Statistics -/

theorem list_eq_iff_elementwise (l k : List Slot) :
    l = k ↔ l.length = k.length ∧ ∀ i : Nat, l[i]? = k[i]? := by
  constructor
  · rintro rfl; exact ⟨rfl, fun _ => rfl⟩
  · rintro ⟨_, h⟩; exact List.ext_getElem? h

/-- C11. `isDuplicate`: the result is true exactly when the nicks are equal
after trimming and lower-casing and the `three0`, `pass` and `out` arrays have
the same length and the same value at every index. -/
theorem C11_isDuplicate (ops : StringOps) (newRow : Row) (existingStat : StatEntry) :
    isDuplicate ops newRow existingStat = true ↔
      ops.toLowerCase (ops.trim newRow.nick) = ops.toLowerCase (ops.trim existingStat.nick) ∧
      ∀ area : Area, (newRow.area area).length = (existingStat.toRow.area area).length ∧
        ∀ i : Nat, (newRow.area area)[i]? = (existingStat.toRow.area area)[i]? := by
  have harea : (newRow.three0 = existingStat.three0 ∧ newRow.pass = existingStat.pass ∧
      newRow.out = existingStat.out) ↔
      ∀ area : Area, (newRow.area area).length = (existingStat.toRow.area area).length ∧
        ∀ i : Nat, (newRow.area area)[i]? = (existingStat.toRow.area area)[i]? := by
    constructor
    · rintro ⟨h1, h2, h3⟩ area
      cases area
      · exact (list_eq_iff_elementwise _ _).mp h1
      · exact (list_eq_iff_elementwise _ _).mp h2
      · exact (list_eq_iff_elementwise _ _).mp h3
    · intro h
      exact ⟨(list_eq_iff_elementwise _ _).mpr (h .three0),
        (list_eq_iff_elementwise _ _).mpr (h .pass), (list_eq_iff_elementwise _ _).mpr (h .out)⟩
  rw [← harea]
  unfold isDuplicate
  by_cases hn : ops.toLowerCase (ops.trim newRow.nick) =
      ops.toLowerCase (ops.trim existingStat.nick)
  · simp [hn, and_assoc]
  · simp [hn]

/-- The three lists that the loop of `addToStats` builds, row by row. -/
theorem addToStatsScan_fold (ops : StringOps) (now : Nat → Nat) (stage : Stage)
    (l : List (Nat × Row)) (acc : AddToStatsScan) :
    l.foldl
      (fun acc p =>
        if isEmptyDefaultRow p.2 then { acc with emptyRowsSkipped := acc.emptyRowsSkipped + 1 }
        else
          let isAlreadyInStats := stage.stats.any (fun statRow => isDuplicate ops p.2 statRow)
          if isAlreadyInStats then
            { acc with duplicatesFound := acc.duplicatesFound ++ [p.2.nick] }
          else
            { acc with
              rowsToAdd := acc.rowsToAdd ++
                [newStatEntry (now p.1) stage.correctTeams p.1 p.2] })
      acc =
    { rowsToAdd := acc.rowsToAdd ++
        (l.filter (fun p => !isEmptyDefaultRow p.2 &&
          !stage.stats.any (fun statRow => isDuplicate ops p.2 statRow))).map
          (fun p => newStatEntry (now p.1) stage.correctTeams p.1 p.2)
      duplicatesFound := acc.duplicatesFound ++
        (l.filter (fun p => !isEmptyDefaultRow p.2 &&
          stage.stats.any (fun statRow => isDuplicate ops p.2 statRow))).map (fun p => p.2.nick)
      emptyRowsSkipped := acc.emptyRowsSkipped +
        (l.filter (fun p => isEmptyDefaultRow p.2)).length } := by
  induction l generalizing acc with
  | nil => simp
  | cons p l ih =>
    rw [List.foldl_cons, ih]
    by_cases hs : isEmptyDefaultRow p.2 = true
    · simp [hs, Nat.add_assoc, Nat.add_comm 1]
    · by_cases hd : stage.stats.any (fun statRow => isDuplicate ops p.2 statRow) = true
      · simp [hs, hd]
      · simp [hs, hd]

theorem addToStatsScan_eq (ops : StringOps) (now : Nat → Nat) (stage : Stage) :
    addToStatsScan ops now stage =
    { rowsToAdd :=
        (stage.rows.enum.filter (fun p => !isEmptyDefaultRow p.2 &&
          !stage.stats.any (fun statRow => isDuplicate ops p.2 statRow))).map
          (fun p => newStatEntry (now p.1) stage.correctTeams p.1 p.2)
      duplicatesFound :=
        (stage.rows.enum.filter (fun p => !isEmptyDefaultRow p.2 &&
          stage.stats.any (fun statRow => isDuplicate ops p.2 statRow))).map (fun p => p.2.nick)
      emptyRowsSkipped := (stage.rows.enum.filter (fun p => isEmptyDefaultRow p.2)).length } := by
  unfold addToStatsScan
  rw [addToStatsScan_fold]
  simp

theorem addToStats_eq (ops : StringOps) (now : Nat → Nat) (stage : Stage) :
    addToStats ops now stage =
      { stage with stats := stage.stats ++ (addToStatsScan ops now stage).rowsToAdd } := by
  unfold addToStats
  simp only []
  split
  · rename_i h
    rw [List.length_eq_zero.mp h, List.append_nil]
  · rfl

theorem isDuplicate_newStatEntry (ops : StringOps) (n : Nat) (c : CorrectTeams) (i : Nat)
    (row : Row) : isDuplicate ops row (newStatEntry n c i row) = true := by
  simp [isDuplicate, newStatEntry]

theorem scan_partition (ops : StringOps) (now : Nat → Nat) (stage : Stage) :
    (addToStatsScan ops now stage).rowsToAdd.length +
      (addToStatsScan ops now stage).duplicatesFound.length +
      (addToStatsScan ops now stage).emptyRowsSkipped = stage.rows.length := by
  rw [addToStatsScan_eq]
  simp only [List.length_map]
  have key : ∀ l : List (Nat × Row),
      (l.filter (fun p => !isEmptyDefaultRow p.2 &&
          !stage.stats.any (fun statRow => isDuplicate ops p.2 statRow))).length +
        (l.filter (fun p => !isEmptyDefaultRow p.2 &&
          stage.stats.any (fun statRow => isDuplicate ops p.2 statRow))).length +
        (l.filter (fun p => isEmptyDefaultRow p.2)).length = l.length := by
    intro l
    induction l with
    | nil => rfl
    | cons p l ih =>
      by_cases hs : isEmptyDefaultRow p.2 = true
      · simp [hs]; omega
      · by_cases hd : stage.stats.any (fun statRow => isDuplicate ops p.2 statRow) = true
        · simp [hs, hd]; omega
        · simp [hs, hd]; omega
  rw [key, List.enum_length]


theorem addToStats_rows (ops : StringOps) (now : Nat → Nat) (stage : Stage) :
    (addToStats ops now stage).rows = stage.rows ∧
      (addToStats ops now stage).correctTeams = stage.correctTeams ∧
      (addToStats ops now stage).id = stage.id ∧
      (addToStats ops now stage).name = stage.name ∧
      (addToStats ops now stage).rowCount = stage.rowCount := by
  rw [addToStats_eq]
  exact ⟨rfl, rfl, rfl, rfl, rfl⟩

/-- After `addToStats`, every row that is not skipped has a duplicate among
the stats. -/
theorem addToStats_covers (ops : StringOps) (now : Nat → Nat) (stage : Stage)
    (p : Nat × Row) (hp : p ∈ stage.rows.enum) (hs : isEmptyDefaultRow p.2 = false) :
    (addToStats ops now stage).stats.any (fun statRow => isDuplicate ops p.2 statRow) = true := by
  rw [addToStats_eq]
  simp only [List.any_append, Bool.or_eq_true]
  by_cases hd : stage.stats.any (fun statRow => isDuplicate ops p.2 statRow) = true
  · exact Or.inl hd
  · right
    rw [List.any_eq_true]
    refine ⟨newStatEntry (now p.1) stage.correctTeams p.1 p.2, ?_,
      isDuplicate_newStatEntry ops _ _ _ _⟩
    rw [addToStatsScan_eq]
    simp only [List.mem_map, List.mem_filter]
    exact ⟨p, ⟨hp, by simp [hs, hd]⟩, rfl⟩

/-- C12. `commitToStats` twice on an unchanged table: the second `addToStats`
on the stage produced by the first adds no entry and returns that stage
unchanged; every row is then reported as a duplicate or skipped. -/
theorem C12_addToStats_idempotent (ops : StringOps) (now now' : Nat → Nat) (stage : Stage) :
    (addToStatsScan ops now' (addToStats ops now stage)).rowsToAdd = [] ∧
    addToStats ops now' (addToStats ops now stage) = addToStats ops now stage ∧
    (addToStatsScan ops now' (addToStats ops now stage)).duplicatesFound.length +
      (addToStatsScan ops now' (addToStats ops now stage)).emptyRowsSkipped =
        stage.rows.length := by
  have hrows := (addToStats_rows ops now stage).1
  have hnone : (addToStatsScan ops now' (addToStats ops now stage)).rowsToAdd = [] := by
    rw [addToStatsScan_eq]
    simp only [List.map_eq_nil_iff, List.filter_eq_nil_iff, hrows]
    intro p hp
    by_cases hs : isEmptyDefaultRow p.2 = true
    · simp [hs]
    · have hs' : isEmptyDefaultRow p.2 = false := by simpa using hs
      simp [hs', addToStats_covers ops now stage p hp hs']
  refine ⟨hnone, ?_, ?_⟩
  · rw [addToStats_eq ops now' (addToStats ops now stage), hnone, List.append_nil]
  · have h := scan_partition ops now' (addToStats ops now stage)
    rw [hnone, hrows] at h
    simpa using h

theorem isEmptyDefaultRow_iff (row : Row) :
    isEmptyDefaultRow row = true ↔
      startsWith row.nick "Player " = true ∧ row.avatar = "" ∧
      ∀ area : Area, ∀ x ∈ row.area area, x = none ∨ x = some "" := by
  have hf : ∀ x : Slot, slotFalsy x = true ↔ (x = none ∨ x = some "") := by
    intro x
    cases x with
    | none => simp [slotFalsy, slotAsset]
    | some v =>
      by_cases hv : v = ""
      · simp [slotFalsy, slotAsset, hv]
      · simp [slotFalsy, slotAsset, hv]
  simp only [isEmptyDefaultRow, Bool.and_eq_true, List.all_eq_true, hf, beq_iff_eq]
  constructor
  · rintro ⟨⟨h1, h2⟩, ⟨h3, h4⟩, h5⟩
    refine ⟨h1, h2, fun area => ?_⟩
    cases area
    · exact h3
    · exact h4
    · exact h5
  · rintro ⟨h1, h2, h⟩
    exact ⟨⟨h1, h2⟩, ⟨h .three0, h .pass⟩, h .out⟩

/-- C13 (amended). Skip rule of `commitToStats`: `addToStats` skips a row
(neither adds it nor reports it as a duplicate) exactly when its nick starts
with `Player `, it has no avatar, and all of its `three0`, `pass` and `out`
slots are empty (`null` or the empty string); the rows that are added or
reported are the other rows. -/
theorem C13_addToStats_skip_rule (ops : StringOps) (now : Nat → Nat) (stage : Stage) :
    (∀ row : Row, isEmptyDefaultRow row = true ↔
      startsWith row.nick "Player " = true ∧ row.avatar = "" ∧
      ∀ area : Area, ∀ x ∈ row.area area, x = none ∨ x = some "") ∧
    (addToStatsScan ops now stage).emptyRowsSkipped =
      (stage.rows.filter (fun row => isEmptyDefaultRow row)).length ∧
    (addToStatsScan ops now stage).rowsToAdd.length +
      (addToStatsScan ops now stage).duplicatesFound.length =
      (stage.rows.filter (fun row => !isEmptyDefaultRow row)).length ∧
    (∀ e ∈ (addToStatsScan ops now stage).rowsToAdd,
      ∃ i row, stage.rows[i]? = some row ∧ isEmptyDefaultRow row = false ∧
        e = newStatEntry (now i) stage.correctTeams i row) ∧
    (∀ nick ∈ (addToStatsScan ops now stage).duplicatesFound,
      ∃ row ∈ stage.rows, isEmptyDefaultRow row = false ∧ nick = row.nick) := by
  have hskip : (addToStatsScan ops now stage).emptyRowsSkipped =
      (stage.rows.filter (fun row => isEmptyDefaultRow row)).length := by
    rw [addToStatsScan_eq]
    show (stage.rows.enum.filter ((fun row => isEmptyDefaultRow row) ∘ Prod.snd)).length = _
    have e : stage.rows.filter (fun row => isEmptyDefaultRow row) =
        (stage.rows.enum.filter ((fun row => isEmptyDefaultRow row) ∘ Prod.snd)).map Prod.snd := by
      rw [← List.filter_map, List.enum_map_snd]
    rw [e, List.length_map]
  refine ⟨isEmptyDefaultRow_iff, hskip, ?_, ?_, ?_⟩
  · have h := scan_partition ops now stage
    rw [hskip] at h
    have h2 : (stage.rows.filter (fun row => isEmptyDefaultRow row)).length +
        (stage.rows.filter (fun row => !isEmptyDefaultRow row)).length = stage.rows.length := by
      induction stage.rows with
      | nil => rfl
      | cons r rs ih =>
        by_cases hr : isEmptyDefaultRow r = true
        · simp [hr]; simp at ih; omega
        · simp [hr]; simp at ih; omega
    omega
  · intro e he
    rw [addToStatsScan_eq] at he
    simp only [List.mem_map, List.mem_filter] at he
    obtain ⟨p, ⟨hp, hcond⟩, rfl⟩ := he
    refine ⟨p.1, p.2, ?_, ?_, rfl⟩
    · obtain ⟨i, row⟩ := p
      exact (List.mk_mem_enum_iff_getElem?.mp hp)
    · simp only [Bool.and_eq_true, Bool.not_eq_true'] at hcond
      exact hcond.1
  · intro nick hn
    rw [addToStatsScan_eq] at hn
    simp only [List.mem_map, List.mem_filter] at hn
    obtain ⟨p, ⟨hp, hcond⟩, rfl⟩ := hn
    refine ⟨p.2, ?_, ?_, rfl⟩
    · obtain ⟨i, row⟩ := p
      exact List.getElem?_mem (List.mk_mem_enum_iff_getElem?.mp hp)
    · simp only [Bool.and_eq_true, Bool.not_eq_true'] at hcond
      exact hcond.1

/-- C13, as stated, fails in both directions: row 0 with the positional
default nick `Player 1`, empty slots and an avatar is added, not skipped; and
row 0 with the nick `Player 5` (not its positional default) and empty slots is
skipped. -/
theorem C13_counterexample :
    (({ createRow 0 with avatar := "data:x" } : Row).nick = "Player " ++ toString (0 + 1) ∧
      addToStatsScan asciiStringOps (fun _ => 7)
        { INITIAL_STAGE 0 with rows := [{ createRow 0 with avatar := "data:x" }] } =
        { rowsToAdd := [newStatEntry 7 (INITIAL_STAGE 0).correctTeams 0
            { createRow 0 with avatar := "data:x" }]
          duplicatesFound := [], emptyRowsSkipped := 0 }) ∧
    ((createRow 4).nick ≠ "Player " ++ toString (0 + 1) ∧
      addToStatsScan asciiStringOps (fun _ => 7) { INITIAL_STAGE 0 with rows := [createRow 4] } =
        { rowsToAdd := [], duplicatesFound := [], emptyRowsSkipped := 1 }) := by
  refine ⟨⟨by decide, by decide⟩, ⟨by decide, by decide⟩⟩


theorem newStatEntry_id_ne (n : Nat) (c : CorrectTeams) (i : Nat) (row : Row) :
    (newStatEntry n c i row).id ≠ row.id := by
  intro h
  have hl := congrArg String.length h
  simp only [newStatEntry, String.length_append] at hl
  have : ("-" : String).length = 1 := by decide
  omega

/-- C14. `commitToStats` appends only: the stats after `addToStats` are the
previous stats, in the same order, followed by one entry per row that is not
skipped and is not an `isDuplicate` of a previous stat entry, in row order;
each new entry copies the row's nick, avatar and picks, has an id different
from the row's id and carries `calculateScore(row, stage.correctTeams)`; the
other fields of the stage are unchanged, and added + duplicate + skipped is the
number of rows. -/
theorem C14_addToStats_appends (ops : StringOps) (now : Nat → Nat) (stage : Stage) :
    (addToStats ops now stage).stats = stage.stats ++
      (stage.rows.enum.filter (fun p => !isEmptyDefaultRow p.2 &&
        !stage.stats.any (fun statRow => isDuplicate ops p.2 statRow))).map
        (fun p => newStatEntry (now p.1) stage.correctTeams p.1 p.2) ∧
    (addToStatsScan ops now stage).rowsToAdd =
      (stage.rows.enum.filter (fun p => !isEmptyDefaultRow p.2 &&
        !stage.stats.any (fun statRow => isDuplicate ops p.2 statRow))).map
        (fun p => newStatEntry (now p.1) stage.correctTeams p.1 p.2) ∧
    (∀ (n i : Nat) (row : Row),
      (newStatEntry n stage.correctTeams i row).nick = row.nick ∧
      (newStatEntry n stage.correctTeams i row).avatar = row.avatar ∧
      (newStatEntry n stage.correctTeams i row).three0 = row.three0 ∧
      (newStatEntry n stage.correctTeams i row).pass = row.pass ∧
      (newStatEntry n stage.correctTeams i row).out = row.out ∧
      (newStatEntry n stage.correctTeams i row).id ≠ row.id ∧
      (newStatEntry n stage.correctTeams i row).score =
        (calculateScore row stage.correctTeams : Int)) ∧
    (addToStats ops now stage).rows = stage.rows ∧
    (addToStats ops now stage).correctTeams = stage.correctTeams ∧
    (addToStats ops now stage).id = stage.id ∧
    (addToStats ops now stage).name = stage.name ∧
    (addToStats ops now stage).rowCount = stage.rowCount ∧
    (addToStatsScan ops now stage).rowsToAdd.length +
      (addToStatsScan ops now stage).duplicatesFound.length +
      (addToStatsScan ops now stage).emptyRowsSkipped = stage.rows.length := by
  obtain ⟨h1, h2, h3, h4, h5⟩ := addToStats_rows ops now stage
  have hscan : (addToStatsScan ops now stage).rowsToAdd =
      (stage.rows.enum.filter (fun p => !isEmptyDefaultRow p.2 &&
        !stage.stats.any (fun statRow => isDuplicate ops p.2 statRow))).map
        (fun p => newStatEntry (now p.1) stage.correctTeams p.1 p.2) := by
    rw [addToStatsScan_eq]
  refine ⟨?_, hscan, fun n i row => ?_, h1, h2, h3, h4, h5, scan_partition ops now stage⟩
  · rw [addToStats_eq, hscan]
  · exact ⟨rfl, rfl, rfl, rfl, rfl, newStatEntry_id_ne n _ i row, rfl⟩


/-! ## Frequencies -/

theorem Dict.get_cons {V : Type} (e : String × V) (m : Dict V) (t : String) :
    Dict.get (e :: m) t = if e.1 = t then some e.2 else Dict.get m t := by
  unfold Dict.get
  by_cases h : e.1 = t
  · simp [List.find?_cons, h]
  · have : (e.1 == t) = false := by simpa using h
    simp [List.find?_cons, h, this]

theorem Dict.set_cons {V : Type} (e : String × V) (m : Dict V) (key : String) (v : V) :
    Dict.set (e :: m) key v =
      if e.1 = key then (key, v) :: m.map (fun e => if e.1 == key then (key, v) else e)
      else e :: Dict.set m key v := by
  unfold Dict.set
  by_cases h : e.1 = key
  · simp [h]
  · have : (e.1 == key) = false := by simpa using h
    simp only [List.any_cons, this, Bool.false_or, h, if_false, List.map_cons]
    split
    · simp
    · rfl

theorem Dict.map_replace_of_not_mem {V : Type} (m : Dict V) (key : String) (v : V)
    (h : key ∉ m.map (fun e => e.1)) :
    m.map (fun e => if e.1 == key then (key, v) else e) = m := by
  induction m with
  | nil => rfl
  | cons e m ih =>
    simp only [List.map_cons, List.mem_cons, not_or] at h
    have : (e.1 == key) = false := by
      simpa using fun e' => h.1 e'.symm
    simp only [List.map_cons, this, ih h.2]
    rfl

theorem Dict.get_map_replace {V : Type} (m : Dict V) (key : String) (v : V) (t : String)
    (ht : t ≠ key) :
    Dict.get (m.map (fun e => if e.1 == key then (key, v) else e)) t = Dict.get m t := by
  induction m with
  | nil => rfl
  | cons e m ih =>
    rw [List.map_cons, Dict.get_cons, Dict.get_cons, ih]
    by_cases hek : e.1 = key
    · have h1 : ¬ key = t := fun e' => ht e'.symm
      have h2 : ¬ e.1 = t := fun e' => ht (e'.symm.trans hek)
      simp [hek, h1]
    · have : (e.1 == key) = false := by simpa using hek
      simp [this]

theorem Dict.get_set {V : Type} (m : Dict V) (key : String) (v : V) (t : String) :
    (m.set key v).get t = if t = key then some v else m.get t := by
  induction m with
  | nil =>
    by_cases ht : t = key
    · subst ht; simp [Dict.set, Dict.get]
    · have : (key == t) = false := by simpa using fun e => ht e.symm
      simp [Dict.set, Dict.get, ht, this]
  | cons e m ih =>
    rw [Dict.set_cons]
    by_cases hek : e.1 = key
    · rw [if_pos hek, Dict.get_cons]
      by_cases ht : t = key
      · subst ht; simp
      · have h1 : ¬ key = t := fun e' => ht e'.symm
        have h2 : ¬ e.1 = t := fun e' => ht (e'.symm.trans hek)
        simp only [h1, ht, if_false]
        rw [Dict.get_map_replace m key v t ht, Dict.get_cons, if_neg h2]
    · rw [if_neg hek, Dict.get_cons, Dict.get_cons, ih]
      by_cases het : e.1 = t
      · have : ¬ t = key := fun e' => hek (het.trans e')
        simp [het, this]
      · simp [het]

theorem Dict.keys_set {V : Type} (m : Dict V) (key : String) (v : V) :
    (m.set key v).map (fun e => e.1) =
      if key ∈ m.map (fun e => e.1) then m.map (fun e => e.1)
      else m.map (fun e => e.1) ++ [key] := by
  induction m with
  | nil => simp [Dict.set]
  | cons e m ih =>
    rw [Dict.set_cons]
    by_cases hek : e.1 = key
    · rw [if_pos hek]
      have hmap : (m.map (fun e => if e.1 == key then (key, v) else e)).map (fun e => e.1) =
          m.map (fun e => e.1) := by
        rw [List.map_map]
        apply List.map_congr_left
        intro a _
        by_cases ha : a.1 = key
        · simp [ha]
        · simp [ha]
      simp only [List.map_cons, hmap, hek, List.mem_cons, true_or, if_true]
    · rw [if_neg hek]
      have hne : ¬ key = e.1 := fun e' => hek e'.symm
      simp only [List.map_cons, ih, List.mem_cons, hne, false_or]
      split <;> simp

theorem Dict.get_eq_none_iff {V : Type} (m : Dict V) (t : String) :
    m.get t = none ↔ t ∉ m.map (fun e => e.1) := by
  induction m with
  | nil => simp [Dict.get]
  | cons e m ih =>
    rw [Dict.get_cons]
    by_cases h : e.1 = t
    · simp [h]
    · have hne : ¬ t = e.1 := fun e' => h e'.symm
      simp [h, hne, ih]

theorem Dict.sum_set (m : Dict Nat) (key : String) (v : Nat)
    (hnd : (m.map (fun e => e.1)).Nodup) :
    ((m.set key v).map (fun e => e.2)).sum +
        (match m.get key with
          | some n => n
          | none => 0) =
      (m.map (fun e => e.2)).sum + v := by
  induction m with
  | nil => simp [Dict.set, Dict.get]
  | cons e m ih =>
    rw [List.map_cons, List.nodup_cons] at hnd
    rw [Dict.set_cons, Dict.get_cons]
    by_cases hek : e.1 = key
    · rw [if_pos hek, if_pos hek]
      rw [Dict.map_replace_of_not_mem m key v (hek ▸ hnd.1)]
      simp only [List.map_cons, List.sum_cons]
      omega
    · rw [if_neg hek, if_neg hek]
      have := ih hnd.2
      simp only [List.map_cons, List.sum_cons]
      omega


theorem countSlots_nil (m : Dict Nat) : countSlots m [] = m := rfl

theorem countSlots_cons (m : Dict Nat) (t : Slot) (slots : List Slot) :
    countSlots m (t :: slots) =
      countSlots
        (match slotAsset t with
          | some key =>
            m.set key
              ((match m.get key with
                | some n => n
                | none => 0) + 1)
          | none => m) slots := rfl

theorem countSlots_append (m : Dict Nat) (l₁ l₂ : List Slot) :
    countSlots m (l₁ ++ l₂) = countSlots (countSlots m l₁) l₂ := by
  unfold countSlots
  rw [List.foldl_append]

/-- What the counting loop leaves in a dictionary whose keys are distinct. -/
theorem countSlots_spec (slots : List Slot) :
    ∀ m : Dict Nat, (m.map (fun e => e.1)).Nodup →
      ((countSlots m slots).map (fun e => e.1)).Nodup ∧
      (∀ t : String,
        (match (countSlots m slots).get t with
          | some n => n
          | none => 0) =
        (match m.get t with
          | some n => n
          | none => 0) + (slots.filter (fun x => slotAsset x == some t)).length) ∧
      (∀ t : String, t ∈ (countSlots m slots).map (fun e => e.1) ↔
        t ∈ m.map (fun e => e.1) ∨ ∃ x ∈ slots, slotAsset x = some t) ∧
      ((countSlots m slots).map (fun e => e.2)).sum =
        (m.map (fun e => e.2)).sum + (slots.filter (fun x => (slotAsset x).isSome)).length := by
  induction slots with
  | nil =>
    intro m hnd
    exact ⟨hnd, fun t => by simp [countSlots_nil], fun t => by simp [countSlots_nil],
      by simp [countSlots_nil]⟩
  | cons x slots ih =>
    intro m hnd
    rw [countSlots_cons]
    cases hx : slotAsset x with
    | none =>
      obtain ⟨h1, h2, h3, h4⟩ := ih m hnd
      refine ⟨h1, fun t => ?_, fun t => ?_, ?_⟩
      · rw [h2 t]; simp [List.filter_cons, hx]
      · rw [h3 t]; simp [hx]
      · rw [h4]; simp [List.filter_cons, hx]
    | some key =>
      simp only []
      have hnd' : ((m.set key ((match m.get key with
          | some n => n
          | none => 0) + 1)).map (fun e => e.1)).Nodup := by
        rw [Dict.keys_set]
        split
        · exact hnd
        · rename_i hk
          exact List.nodup_append.mpr ⟨hnd, List.nodup_singleton _, by
            intro a ha hb
            rw [List.mem_singleton] at hb
            exact hk (hb ▸ ha)⟩
      obtain ⟨h1, h2, h3, h4⟩ := ih _ hnd'
      refine ⟨h1, fun t => ?_, fun t => ?_, ?_⟩
      · rw [h2 t, Dict.get_set]
        by_cases htk : t = key
        · subst htk
          rw [if_pos rfl]
          simp only [List.filter_cons, hx, beq_self_eq_true, if_true, List.length_cons]
          ring
        · have hne : ¬ key = t := fun e => htk e.symm
          simp [List.filter_cons, hx, htk, hne]
      · rw [h3 t, Dict.keys_set]
        by_cases htk : t = key
        · subst htk
          constructor
          · intro _; exact Or.inr ⟨x, List.mem_cons_self _ _, hx⟩
          · intro _
            left
            split
            · assumption
            · simp
        · have hne : ¬ key = t := fun e => htk e.symm
          constructor
          · rintro (h | ⟨y, hy, hys⟩)
            · left
              split at h
              · exact h
              · rcases List.mem_append.mp h with h | h
                · exact h
                · exact absurd (List.mem_singleton.mp h) htk
            · exact Or.inr ⟨y, List.mem_cons_of_mem _ hy, hys⟩
          · rintro (h | ⟨y, hy, hys⟩)
            · left
              split
              · exact h
              · exact List.mem_append_left _ h
            · rcases List.mem_cons.mp hy with rfl | hy
              · rw [hx] at hys; exact absurd (Option.some.inj hys) hne
              · exact Or.inr ⟨y, hy, hys⟩
      · rw [h4]
        have hs := Dict.sum_set m key ((match m.get key with
          | some n => n
          | none => 0) + 1) hnd
        simp only [List.filter_cons, hx, Option.isSome_some, if_true, List.length_cons]
        omega


theorem StatCounts.countsArea_setArea (c : StatCounts) (a : Area) (m : Dict Nat) :
    (c.setArea a m).area a = some m := by
  cases a <;> rfl

theorem StatCounts.countsArea_setArea_of_ne (c : StatCounts) (a b : Area) (m : Dict Nat) (h : b ≠ a) :
    (c.setArea a m).area b = c.area b := by
  cases a <;> cases b <;> first | rfl | exact absurd rfl h

theorem StatCounts.areaOrEmpty_setArea (c : StatCounts) (a : Area) (m : Dict Nat) :
    (c.setArea a m).areaOrEmpty a = m := by
  simp [StatCounts.areaOrEmpty, StatCounts.countsArea_setArea]

theorem StatCounts.areaOrEmpty_of_area (c : StatCounts) (a : Area) (m : Dict Nat)
    (h : c.area a = some m) : c.areaOrEmpty a = m := by
  simp [StatCounts.areaOrEmpty, h]

/-- The loop over the slots of one area of one entry. -/
theorem statCounts_slots (a : Area) (slots : List Slot) :
    ∀ (c : StatCounts) (m : Dict Nat), c.area a = some m →
      (slots.foldl
        (fun counts t =>
          match slotAsset t with
          | some key =>
            counts.setArea a
              ((counts.areaOrEmpty a).set key
                ((match (counts.areaOrEmpty a).get key with
                  | some n => n
                  | none => 0) + 1))
          | none => counts)
        c).area a = some (countSlots m slots) ∧
      ∀ b, b ≠ a →
        (slots.foldl
          (fun counts t =>
            match slotAsset t with
            | some key =>
              counts.setArea a
                ((counts.areaOrEmpty a).set key
                  ((match (counts.areaOrEmpty a).get key with
                    | some n => n
                    | none => 0) + 1))
            | none => counts)
          c).area b = c.area b := by
  induction slots with
  | nil => intro c m hc; exact ⟨hc, fun _ _ => rfl⟩
  | cons t slots ih =>
    intro c m hc
    rw [List.foldl_cons, countSlots_cons]
    have hm : c.areaOrEmpty a = m := by simp [StatCounts.areaOrEmpty, hc]
    cases ht : slotAsset t with
    | none => exact ih c m hc
    | some key =>
      simp only []
      obtain ⟨h1, h2⟩ := ih (c.setArea a ((c.areaOrEmpty a).set key
        ((match (c.areaOrEmpty a).get key with
          | some n => n
          | none => 0) + 1))) _ (StatCounts.countsArea_setArea _ _ _)
      refine ⟨?_, fun b hb => ?_⟩
      · rw [h1, hm]
      · rw [h2 b hb, StatCounts.countsArea_setArea_of_ne _ _ _ _ hb]

/-- The three areas of one entry. -/
theorem statCounts_entry (c : StatCounts) (r : StatEntry) (b : Area) :
    ([Area.three0, Area.pass, Area.out].foldl
      (fun counts a =>
        let counts := counts.setArea a (counts.areaOrEmpty a)
        (r.toRow.area a).foldl
          (fun counts t =>
            match slotAsset t with
            | some key =>
              counts.setArea a
                ((counts.areaOrEmpty a).set key
                  ((match (counts.areaOrEmpty a).get key with
                    | some n => n
                    | none => 0) + 1))
            | none => counts)
          counts)
      c).area b = some (countSlots (c.areaOrEmpty b) (r.toRow.area b)) := by
  simp only [List.foldl_cons, List.foldl_nil]
  -- the state after each of the three areas
  generalize h0 : c.setArea Area.three0 (c.areaOrEmpty Area.three0) = c0
  obtain ⟨a1, b1⟩ := statCounts_slots Area.three0 (r.toRow.area Area.three0) c0
    (c.areaOrEmpty Area.three0) (by rw [← h0]; exact StatCounts.countsArea_setArea _ _ _)
  generalize h1 : (r.toRow.area Area.three0).foldl _ c0 = c1 at a1 b1 ⊢
  generalize h2 : c1.setArea Area.pass (c1.areaOrEmpty Area.pass) = c2
  obtain ⟨a3, b3⟩ := statCounts_slots Area.pass (r.toRow.area Area.pass) c2
    (c1.areaOrEmpty Area.pass) (by rw [← h2]; exact StatCounts.countsArea_setArea _ _ _)
  generalize h3 : (r.toRow.area Area.pass).foldl _ c2 = c3 at a3 b3 ⊢
  generalize h4 : c3.setArea Area.out (c3.areaOrEmpty Area.out) = c4
  obtain ⟨a5, b5⟩ := statCounts_slots Area.out (r.toRow.area Area.out) c4
    (c3.areaOrEmpty Area.out) (by rw [← h4]; exact StatCounts.countsArea_setArea _ _ _)
  generalize h5 : (r.toRow.area Area.out).foldl _ c4 = c5 at a5 b5 ⊢
  have e0 : ∀ x, x ≠ Area.three0 → c0.area x = c.area x := fun x hx => by
    rw [← h0]; exact StatCounts.countsArea_setArea_of_ne _ _ _ _ hx
  have e2 : ∀ x, x ≠ Area.pass → c2.area x = c1.area x := fun x hx => by
    rw [← h2]; exact StatCounts.countsArea_setArea_of_ne _ _ _ _ hx
  have e4 : ∀ x, x ≠ Area.out → c4.area x = c3.area x := fun x hx => by
    rw [← h4]; exact StatCounts.countsArea_setArea_of_ne _ _ _ _ hx
  cases b
  · rw [b5 _ (by decide), e4 _ (by decide), b3 _ (by decide), e2 _ (by decide), a1]
  · have : c1.areaOrEmpty Area.pass = c.areaOrEmpty Area.pass := by
      simp only [StatCounts.areaOrEmpty, b1 _ (show Area.pass ≠ Area.three0 by decide),
        e0 _ (show Area.pass ≠ Area.three0 by decide)]
    rw [b5 _ (by decide), e4 _ (by decide), a3, this]
  · have : c3.areaOrEmpty Area.out = c.areaOrEmpty Area.out := by
      simp only [StatCounts.areaOrEmpty, b3 _ (show Area.out ≠ Area.pass by decide),
        e2 _ (show Area.out ≠ Area.pass by decide),
        b1 _ (show Area.out ≠ Area.three0 by decide),
        e0 _ (show Area.out ≠ Area.three0 by decide)]
    rw [a5, this]

/-- The whole of `statCounts`, area by area. -/
theorem statCounts_fold (b : Area) (stats : List StatEntry) :
    ∀ c : StatCounts,
      (stats.foldl
        (fun counts r =>
          [Area.three0, Area.pass, Area.out].foldl
            (fun counts a =>
              let counts := counts.setArea a (counts.areaOrEmpty a)
              (r.toRow.area a).foldl
                (fun counts t =>
                  match slotAsset t with
                  | some key =>
                    counts.setArea a
                      ((counts.areaOrEmpty a).set key
                        ((match (counts.areaOrEmpty a).get key with
                          | some n => n
                          | none => 0) + 1))
                  | none => counts)
                counts)
            counts)
        c).area b =
      if stats = [] then c.area b
      else some (countSlots (c.areaOrEmpty b) (areaSlots stats b)) := by
  induction stats with
  | nil => intro c; rfl
  | cons r stats ih =>
    intro c
    rw [List.foldl_cons, ih]
    simp only [List.cons_ne_nil, if_false]
    have hr := statCounts_entry c r b
    by_cases hs : stats = []
    · subst hs
      rw [if_pos rfl, hr]
      simp [areaSlots]
    · rw [if_neg hs, StatCounts.areaOrEmpty_of_area _ _ _ hr]
      simp only [areaSlots, List.map_cons, List.flatten_cons, countSlots_append]

theorem statCounts_area (stats : List StatEntry) (b : Area) :
    (statCounts stats).area b =
      if stats = [] then none else some (countSlots [] (areaSlots stats b)) := by
  unfold statCounts
  rw [statCounts_fold]
  cases b <;> rfl


theorem statCounts_areaOrEmpty (stats : List StatEntry) (b : Area) :
    (statCounts stats).areaOrEmpty b = countSlots [] (areaSlots stats b) := by
  unfold StatCounts.areaOrEmpty
  rw [statCounts_area]
  by_cases hs : stats = []
  · subst hs; rfl
  · rw [if_neg hs]

theorem filter_slotAsset_eq_count (slots : List Slot) (t : String) (ht : t ≠ "") :
    (slots.filter (fun x => slotAsset x == some t)).length = slots.count (some t) := by
  rw [List.count, List.countP_eq_length_filter]
  congr 1
  apply List.filter_congr
  intro x _
  by_cases hx : x = some t
  · subst hx
    simp [(slotAsset_eq_some (some t) t).mpr ⟨rfl, ht⟩]
  · have h1 : ¬ slotAsset x = some t := fun h => hx ((slotAsset_eq_some x t).mp h).1
    simp [h1, hx]

theorem count_areaSlots (stats : List StatEntry) (area : Area) (x : Slot) :
    (areaSlots stats area).count x =
      (stats.map (fun r => (r.toRow.area area).count x)).sum := by
  rw [areaSlots, List.count_flatten, List.map_map]
  rfl

/-- C16. Frequency: for every stats list, area and non-empty asset reference
`t`, `statCounts[area][t]` is the number of slots of that area that hold `t`
over all stat entries; an asset has no key exactly when it is empty or
occurs nowhere; `null` and empty slots are not counted, so the counts of the
area add up to the number of its non-empty slots; and the keys are pairwise
distinct. -/
theorem C16_frequency (stats : List StatEntry) (area : Area) :
    (∀ t : String, t ≠ "" →
      (match ((statCounts stats).areaOrEmpty area).get t with
        | some n => n
        | none => 0) =
      (stats.map (fun r => (r.toRow.area area).count (some t))).sum) ∧
    (∀ t : String, ((statCounts stats).areaOrEmpty area).get t = none ↔
      (t = "" ∨ (stats.map (fun r => (r.toRow.area area).count (some t))).sum = 0)) ∧
    (((statCounts stats).areaOrEmpty area).map (fun e => e.2)).sum =
      (stats.map (fun r =>
        ((r.toRow.area area).filter (fun x => (slotAsset x).isSome)).length)).sum ∧
    (((statCounts stats).areaOrEmpty area).map (fun e => e.1)).Nodup ∧
    ((statCounts stats).area area = none ↔ stats = []) := by
  rw [statCounts_areaOrEmpty]
  obtain ⟨h1, h2, h3, h4⟩ := countSlots_spec (areaSlots stats area) [] List.nodup_nil
  refine ⟨fun t ht => ?_, fun t => ?_, ?_, h1, ?_⟩
  · rw [h2 t, filter_slotAsset_eq_count _ t ht, count_areaSlots]
    simp [Dict.get]
  · rw [Dict.get_eq_none_iff, h3 t, ← count_areaSlots]
    simp only [List.map_nil, List.not_mem_nil, false_or, not_exists, not_and]
    constructor
    · intro h
      by_cases ht : t = ""
      · exact Or.inl ht
      · right
        rw [List.count_eq_zero]
        intro hmem
        exact h (some t) hmem ((slotAsset_eq_some _ t).mpr ⟨rfl, ht⟩)
    · rintro (ht | hc) x hx hxs
      · exact ((slotAsset_eq_some x t).mp hxs).2 ht
      · rw [List.count_eq_zero] at hc
        exact hc (((slotAsset_eq_some x t).mp hxs).1 ▸ hx)
  · rw [h4]
    simp only [List.map_nil, List.sum_nil, Nat.zero_add, areaSlots, List.filter_flatten,
      List.length_flatten, List.map_map]
    rfl
  · rw [statCounts_area]
    by_cases hs : stats = []
    · simp [hs]
    · simp [hs]


/-! ## Sorting -/

theorem jsSort_perm {α : Type} (compareFn : α → α → Int) (l : List α) :
    (jsSort compareFn l).Perm l :=
  List.perm_insertionSort _ l

theorem jsSort_sorted {α : Type} (compareFn : α → α → Int)
    (htotal : ∀ a b, compareFn a b ≤ 0 ∨ compareFn b a ≤ 0)
    (htrans : ∀ a b c, compareFn a b ≤ 0 → compareFn b c ≤ 0 → compareFn a c ≤ 0)
    (l : List α) : (jsSort compareFn l).Pairwise (fun a b => compareFn a b ≤ 0) := by
  haveI : IsTotal α (fun a b => compareFn a b ≤ 0) := ⟨htotal⟩
  haveI : IsTrans α (fun a b => compareFn a b ≤ 0) := ⟨htrans⟩
  exact List.sorted_insertionSort (fun a b => compareFn a b ≤ 0) l

/-- Stability: the elements that satisfy `p`, when any two of them compare as
equal or in order, keep their relative order. -/
theorem jsSort_filter {α : Type} (compareFn : α → α → Int) (p : α → Bool)
    (hp : ∀ a b, p a = true → p b = true → compareFn a b ≤ 0) (l : List α) :
    (jsSort compareFn l).filter p = l.filter p := by
  have hsub : List.Sublist (l.filter p) (jsSort compareFn l) := by
    apply List.sublist_insertionSort
    · rw [List.pairwise_iff_forall_sublist]
      intro a b hab
      have ha : a ∈ l.filter p := hab.subset (by simp)
      have hb : b ∈ l.filter p := hab.subset (by simp)
      exact hp a b (List.mem_filter.mp ha).2 (List.mem_filter.mp hb).2
    · exact List.filter_sublist l
  have hsub2 : List.Sublist (l.filter p) ((jsSort compareFn l).filter p) := by
    have := hsub.filter p
    simpa [List.filter_filter] using this
  have hlen : ((jsSort compareFn l).filter p).length = (l.filter p).length :=
    ((jsSort_perm compareFn l).filter p).length_eq
  exact (hsub2.eq_of_length hlen.symm).symm


/-! ## Popularity -/

theorem padNull_length (list : List (Option PopularPick)) (limit : Nat)
    (h : list.length ≤ limit) : (padNull list limit).length = limit := by
  simp only [padNull, List.length_append, List.length_replicate]
  omega

theorem sortedPicks_length (counts : StatCounts) (totalPlayers : Nat) (names : Dict String)
    (area : Area) :
    (sortedPicks counts totalPlayers names area).length = (counts.areaOrEmpty area).length := by
  rw [sortedPicks, (jsSort_perm _ _).length_eq, pickEntries, List.length_map]

/-- C17. Popularity slots: for every frequency mapping and every area, the
popular and the unpopular list both have exactly `k` entries (2 for three0, 6
for pass, 2 for out); when the area has `m < k` distinct assets, the first `m`
entries are the real picks and the remaining `k - m` are `null`. -/
theorem C17_popularity_slots (counts : StatCounts) (totalPlayers : Nat) (names : Dict String)
    (area : Area) :
    ((categoryPopularity counts totalPlayers names).popular area).length = categoryLimits area ∧
    ((categoryPopularity counts totalPlayers names).unpopular area).length =
      categoryLimits area ∧
    categoryLimits Area.three0 = 2 ∧ categoryLimits Area.pass = 6 ∧
    categoryLimits Area.out = 2 ∧
    (∀ m : Nat, (counts.areaOrEmpty area).length = m → m < categoryLimits area →
      (sortedPicks counts totalPlayers names area).length = m ∧
      (categoryPopularity counts totalPlayers names).popular area =
        (sortedPicks counts totalPlayers names area).map some ++
          List.replicate (categoryLimits area - m) none ∧
      (categoryPopularity counts totalPlayers names).unpopular area =
        (sortedPicks counts totalPlayers names area).reverse.map some ++
          List.replicate (categoryLimits area - m) none) := by
  refine ⟨?_, ?_, rfl, rfl, rfl, fun m hm hlt => ?_⟩
  · apply padNull_length
    rw [List.length_map, List.length_take]
    exact Nat.min_le_left _ _
  · apply padNull_length
    rw [List.length_map, List.length_take]
    exact Nat.min_le_left _ _
  · have hlen := sortedPicks_length counts totalPlayers names area
    rw [hm] at hlen
    refine ⟨hlen, ?_, ?_⟩
    · simp only [categoryPopularity, padNull]
      rw [List.take_of_length_le (by omega), List.length_map, hlen]
    · simp only [categoryPopularity, padNull]
      rw [List.take_of_length_le (by rw [List.length_reverse]; omega), List.length_map,
        List.length_reverse, hlen]

theorem sortedPicks_spec (counts : StatCounts) (totalPlayers : Nat) (names : Dict String)
    (area : Area) :
    (sortedPicks counts totalPlayers names area).Perm
      (pickEntries counts totalPlayers names area) ∧
    (sortedPicks counts totalPlayers names area).Pairwise (fun a b => a.count ≥ b.count) ∧
    (∀ c : Nat, (sortedPicks counts totalPlayers names area).filter (fun e => e.count == c) =
      (pickEntries counts totalPlayers names area).filter (fun e => e.count == c)) := by
  refine ⟨jsSort_perm _ _, ?_, fun c => ?_⟩
  · have h := jsSort_sorted (fun a b : PopularPick => (b.count : Int) - (a.count : Int))
      (fun a b => by dsimp only; omega) (fun a b c h1 h2 => by dsimp only at *; omega)
      (pickEntries counts totalPlayers names area)
    exact h.imp (fun {a b} hab => by
      show b.count ≤ a.count
      have : (b.count : Int) - (a.count : Int) ≤ 0 := hab
      omega)
  · apply jsSort_filter
    intro a b ha hb
    have ha' : a.count = c := by simpa using ha
    have hb' : b.count = c := by simpa using hb
    show (b.count : Int) - (a.count : Int) ≤ 0
    omega

/-- C18 (amended). Popularity order: the sorted picks are the entries of the
frequency mapping in non-increasing count order, entries with equal counts in
the order of the mapping; the popular list is its first `k` entries, which have
the highest counts; the unpopular list is the first `k` entries of the reversed
sorted list, which have the lowest counts in non-decreasing order, entries with
equal counts in the reverse of the order of the mapping; each entry's
percentage is `count / max(1, totalPlayers) * 100`. -/
theorem C18_popularity_order (counts : StatCounts) (totalPlayers : Nat) (names : Dict String)
    (area : Area) :
    (sortedPicks counts totalPlayers names area).Perm
      (pickEntries counts totalPlayers names area) ∧
    (sortedPicks counts totalPlayers names area).Pairwise (fun a b => a.count ≥ b.count) ∧
    (∀ c : Nat, (sortedPicks counts totalPlayers names area).filter (fun e => e.count == c) =
      (pickEntries counts totalPlayers names area).filter (fun e => e.count == c)) ∧
    (categoryPopularity counts totalPlayers names).popular area =
      padNull (((sortedPicks counts totalPlayers names area).take (categoryLimits area)).map some)
        (categoryLimits area) ∧
    (∀ a ∈ (sortedPicks counts totalPlayers names area).take (categoryLimits area),
      ∀ b ∈ (sortedPicks counts totalPlayers names area).drop (categoryLimits area),
        a.count ≥ b.count) ∧
    (categoryPopularity counts totalPlayers names).unpopular area =
      padNull (((sortedPicks counts totalPlayers names area).reverse.take
        (categoryLimits area)).map some) (categoryLimits area) ∧
    ((sortedPicks counts totalPlayers names area).reverse.take (categoryLimits area)).Pairwise
      (fun a b => a.count ≤ b.count) ∧
    (∀ a ∈ (sortedPicks counts totalPlayers names area).reverse.take (categoryLimits area),
      ∀ b ∈ (sortedPicks counts totalPlayers names area).reverse.drop (categoryLimits area),
        a.count ≤ b.count) ∧
    (∀ c : Nat,
      (sortedPicks counts totalPlayers names area).reverse.filter (fun e => e.count == c) =
        ((pickEntries counts totalPlayers names area).filter (fun e => e.count == c)).reverse) ∧
    (∀ e ∈ sortedPicks counts totalPlayers names area,
      e.percentage = ((e.count : ℚ) / ((max 1 totalPlayers : Nat) : ℚ)) * 100 ∧
      (e.src, e.count) ∈ counts.areaOrEmpty area) := by
  obtain ⟨hperm, hsorted, hstable⟩ := sortedPicks_spec counts totalPlayers names area
  have hrev : (sortedPicks counts totalPlayers names area).reverse.Pairwise
      (fun a b => a.count ≤ b.count) := List.pairwise_reverse.mpr hsorted
  refine ⟨hperm, hsorted, hstable, rfl, ?_, rfl, ?_, ?_, fun c => ?_, fun e he => ?_⟩
  · intro a ha b hb
    have h := hsorted
    rw [← List.take_append_drop (categoryLimits area)
      (sortedPicks counts totalPlayers names area), List.pairwise_append] at h
    exact h.2.2 a ha b hb
  · exact hrev.sublist (List.take_sublist _ _)
  · intro a ha b hb
    have h := hrev
    rw [← List.take_append_drop (categoryLimits area)
      (sortedPicks counts totalPlayers names area).reverse, List.pairwise_append] at h
    exact h.2.2 a ha b hb
  · rw [List.filter_reverse, hstable c]
  · have hmem : e ∈ pickEntries counts totalPlayers names area := hperm.subset he
    simp only [pickEntries, List.mem_map] at hmem
    obtain ⟨p, hp, rfl⟩ := hmem
    refine ⟨?_, hp⟩
    show ((p.2 : ℚ) / (((if totalPlayers > 0 then totalPlayers else 1 : Nat)) : ℚ)) * 100 = _
    have : (if totalPlayers > 0 then totalPlayers else 1) = max 1 totalPlayers := by
      split <;> omega
    rw [this]

/-- C18, as stated, fails for the unpopular list: with the frequency mapping
`{A: 1, B: 1}` of three0 the popular list shows A before B, the order of the
mapping, and the unpopular list shows B before A. -/
theorem C18_counterexample :
    ((categoryPopularity ⟨some [("A", 1), ("B", 1)], none, none⟩ 2 []).popular .three0).map
        (fun o => o.map (fun p => (p.src, p.count))) = [some ("A", 1), some ("B", 1)] ∧
    ((categoryPopularity ⟨some [("A", 1), ("B", 1)], none, none⟩ 2 []).unpopular .three0).map
        (fun o => o.map (fun p => (p.src, p.count))) = [some ("B", 1), some ("A", 1)] := by
  refine ⟨by decide, by decide⟩


/-! ## Ranking -/

theorem orderedInsert_congr {α : Type} (r r' : α → α → Prop) [DecidableRel r] [DecidableRel r']
    (a : α) (l : List α) (h : ∀ b ∈ l, (r a b ↔ r' a b)) :
    List.orderedInsert r a l = List.orderedInsert r' a l := by
  induction l with
  | nil => rfl
  | cons b l ih =>
    simp only [List.orderedInsert]
    by_cases hab : r a b
    · rw [if_pos hab, if_pos ((h b (List.mem_cons_self _ _)).mp hab)]
    · rw [if_neg hab, if_neg (fun h' => hab ((h b (List.mem_cons_self _ _)).mpr h')),
        ih (fun x hx => h x (List.mem_cons_of_mem _ hx))]

theorem insertionSort_congr {α : Type} (r r' : α → α → Prop) [DecidableRel r] [DecidableRel r']
    (l : List α) (h : ∀ a ∈ l, ∀ b ∈ l, (r a b ↔ r' a b)) :
    List.insertionSort r l = List.insertionSort r' l := by
  induction l with
  | nil => rfl
  | cons a l ih =>
    simp only [List.insertionSort]
    rw [ih (fun x hx y hy => h x (List.mem_cons_of_mem _ hx) y (List.mem_cons_of_mem _ hy))]
    apply orderedInsert_congr
    intro b hb
    exact h a (List.mem_cons_self _ _) b
      (List.mem_cons_of_mem _ ((List.mem_insertionSort r').mp hb))

theorem jsSort_congr {α : Type} (f g : α → α → Int) (l : List α)
    (h : ∀ a ∈ l, ∀ b ∈ l, f a b = g a b) : jsSort f l = jsSort g l := by
  unfold jsSort
  apply insertionSort_congr
  intro a ha b hb
  rw [h a ha b hb]

/-- On entries whose nick is not empty the comparator of the code is the
comparison by key. -/
theorem compareStats_eq_specCompare (ops : StringOps) (key : SortKey)
    (direction : SortDirection) (a b : StatEntry)
    (h : key = SortKey.nick → a.nick ≠ "" ∧ b.nick ≠ "") :
    compareStats ops key direction a b = specCompare ops key direction a b := by
  cases key with
  | nick =>
    obtain ⟨ha, hb⟩ := h rfl
    simp [compareStats, specCompare, StatEntry.field, orZero, ha, hb, jsLt, keyLt]
  | score =>
    have hz : ∀ n : Int, (if n = 0 then JsValue.num 0 else JsValue.num n) = JsValue.num n := by
      intro n; split
      · rename_i h0; rw [h0]
      · rfl
    simp [compareStats, specCompare, StatEntry.field, orZero, hz, jsLt, keyLt]

/-- The order by key is a strict order in which entries are comparable unless
they have the same key. -/
theorem keyLt_order (ops : StringOps) (key : SortKey)
    (hirr : ∀ a, ops.strLt a a = false)
    (htrans : ∀ a b c, ops.strLt a b = true → ops.strLt b c = true → ops.strLt a c = true)
    (htri : ∀ a b, a ≠ b → ops.strLt a b = true ∨ ops.strLt b a = true) :
    (∀ a b, keyLt ops key a b = true → keyLt ops key b a = false) ∧
    (∀ a b c, keyLt ops key b a = false → keyLt ops key c b = false →
      keyLt ops key c a = false) ∧
    (∀ a b, sameKey key a b = true → keyLt ops key a b = false) := by
  cases key with
  | nick =>
    have hasym : ∀ a b : String, ops.strLt a b = true → ops.strLt b a = false := by
      intro a b hab
      cases hba : ops.strLt b a with
      | false => rfl
      | true => have := htrans a b a hab hba; rw [hirr a] at this; exact absurd this (by simp)
    refine ⟨fun a b => hasym _ _, fun a b c h1 h2 => ?_, fun a b h => ?_⟩
    · simp only [keyLt] at *
      cases hca : ops.strLt c.nick a.nick with
      | false => rfl
      | true =>
        by_cases hbc : b.nick = c.nick
        · rw [hbc, hca] at h1; exact absurd h1 (by simp)
        · rcases htri _ _ hbc with hlt | hlt
          · have := htrans _ _ _ hlt hca
            rw [h1] at this; exact absurd this (by simp)
          · rw [h2] at hlt; exact absurd hlt (by simp)
    · simp only [sameKey, beq_iff_eq] at h
      simp only [keyLt, h, hirr]
  | score =>
    refine ⟨fun a b h => ?_, fun a b c h1 h2 => ?_, fun a b h => ?_⟩
    · simp only [keyLt, decide_eq_true_eq, decide_eq_false_iff_not] at *; omega
    · simp only [keyLt, decide_eq_true_eq, decide_eq_false_iff_not] at *; omega
    · simp only [sameKey, beq_iff_eq] at h
      simp only [keyLt, decide_eq_true_eq, decide_eq_false_iff_not] at *; omega

theorem specCompare_ascending_le_iff (ops : StringOps) (key : SortKey)
    (hasym : ∀ a b, keyLt ops key a b = true → keyLt ops key b a = false) (a b : StatEntry) :
    specCompare ops key .ascending a b ≤ 0 ↔ keyLt ops key b a = false := by
  unfold specCompare
  cases hab : keyLt ops key a b with
  | true => simp [hasym a b hab]
  | false =>
    cases hba : keyLt ops key b a with
    | true => simp
    | false => simp

theorem specCompare_descending_le_iff (ops : StringOps) (key : SortKey) (a b : StatEntry) :
    specCompare ops key .descending a b ≤ 0 ↔ keyLt ops key a b = false := by
  unfold specCompare
  cases hab : keyLt ops key a b with
  | true => simp
  | false =>
    cases hba : keyLt ops key b a with
    | true => simp
    | false => simp

/-- The stable sort by key: a permutation, ordered, ties in their old order. -/
theorem jsSort_specCompare (ops : StringOps) (key : SortKey) (direction : SortDirection)
    (hirr : ∀ a, ops.strLt a a = false)
    (htrans : ∀ a b c, ops.strLt a b = true → ops.strLt b c = true → ops.strLt a c = true)
    (htri : ∀ a b, a ≠ b → ops.strLt a b = true ∨ ops.strLt b a = true)
    (l : List StatEntry) :
    (jsSort (specCompare ops key direction) l).Perm l ∧
    OrderedBy ops key direction (jsSort (specCompare ops key direction) l) ∧
    (∀ e : StatEntry, (jsSort (specCompare ops key direction) l).filter (sameKey key e) =
      l.filter (sameKey key e)) := by
  obtain ⟨hasym, hneg, hsame⟩ := keyLt_order ops key hirr htrans htri
  have hsym : ∀ e a b, sameKey key e a = true → sameKey key e b = true →
      sameKey key a b = true ∧ sameKey key b a = true := by
    intro e a b h1 h2
    cases key <;> simp only [sameKey, beq_iff_eq] at * <;> exact ⟨h1 ▸ h2, h2 ▸ h1⟩
  have hdec : ∀ a b, keyLt ops key b a = false ∨ keyLt ops key a b = false := by
    intro a b
    cases hab : keyLt ops key a b with
    | true => exact Or.inl (hasym a b hab)
    | false => exact Or.inr rfl
  cases direction with
  | ascending =>
    have hiff := specCompare_ascending_le_iff ops key hasym
    refine ⟨jsSort_perm _ _, ?_, fun e => ?_⟩
    · have hs := jsSort_sorted (specCompare ops key .ascending)
        (fun a b => by rw [hiff a b, hiff b a]; exact hdec a b)
        (fun a b c => by rw [hiff a b, hiff b c, hiff a c]; exact fun h1 h2 => hneg a b c h1 h2)
        l
      exact hs.imp (fun {a b} h => (hiff a b).mp h)
    · apply jsSort_filter
      intro a b ha hb
      rw [hiff a b]
      exact hsame b a (hsym e a b ha hb).2
  | descending =>
    have hiff := specCompare_descending_le_iff ops key
    refine ⟨jsSort_perm _ _, ?_, fun e => ?_⟩
    · have hs := jsSort_sorted (specCompare ops key .descending)
        (fun a b => by rw [hiff a b, hiff b a]; exact (hdec a b).symm)
        (fun a b c => by rw [hiff a b, hiff b c, hiff a c]; exact fun h1 h2 => hneg c b a h2 h1)
        l
      exact hs.imp (fun {a b} h => (hiff a b).mp h)
    · apply jsSort_filter
      intro a b ha hb
      rw [hiff a b]
      exact hsame a b (hsym e a b ha hb).1


/-- The order by character code is a strict total order on strings. -/
theorem asciiStringOps_strLt_order :
    (∀ a, asciiStringOps.strLt a a = false) ∧
    (∀ a b c, asciiStringOps.strLt a b = true → asciiStringOps.strLt b c = true →
      asciiStringOps.strLt a c = true) ∧
    (∀ a b, a ≠ b → asciiStringOps.strLt a b = true ∨ asciiStringOps.strLt b a = true) := by
  have h : ∀ a b : String, asciiStringOps.strLt a b = true ↔ a < b := by
    intro a b
    simp only [asciiStringOps, decide_eq_true_eq]
    exact String.lt_iff_toList_lt.symm
  refine ⟨fun a => ?_, fun a b c hab hbc => ?_, fun a b hne => ?_⟩
  · cases hh : asciiStringOps.strLt a a with
    | false => rfl
    | true => exact absurd ((h a a).mp hh) (lt_irrefl a)
  · exact (h a c).mpr (lt_trans ((h a b).mp hab) ((h b c).mp hbc))
  · rcases lt_trichotomy a b with hlt | heq | hgt
    · exact Or.inl ((h a b).mpr hlt)
    · exact absurd heq hne
    · exact Or.inr ((h b a).mpr hgt)

theorem rescored_nick (stats : List StatEntry) (correctTeams : CorrectTeams) (e : StatEntry)
    (he : e ∈ rescored stats correctTeams) : ∃ e0 ∈ stats, e.nick = e0.nick := by
  simp only [rescored, List.mem_map] at he
  obtain ⟨e0, h0, rfl⟩ := he
  exact ⟨e0, h0, rfl⟩

/-- C15 (amended). Rank: with an empty search term, `sortedStats` is a
permutation of the stats entries with their scores computed again by
`calculateScore` against the current answer key, ordered by the key (that
score as a number, the nick as a string) in the requested direction, entries
with equal keys in their order in `stats`; for the key nick this is stated for
stats without an empty nick.  When the stored scores are the computed ones,
the entries are those of `stats` themselves. -/
theorem C15_rank (ops : StringOps) (stats : List StatEntry) (key : SortKey)
    (direction : SortDirection) (correctTeams : CorrectTeams) (statsSearch : String)
    (hsearch : ops.trim statsSearch = "")
    (hirr : ∀ a, ops.strLt a a = false)
    (htrans : ∀ a b c, ops.strLt a b = true → ops.strLt b c = true → ops.strLt a c = true)
    (htri : ∀ a b, a ≠ b → ops.strLt a b = true ∨ ops.strLt b a = true)
    (hnick : key = SortKey.nick → ∀ e ∈ stats, e.nick ≠ "") :
    (sortedStats ops stats ⟨some key, direction⟩ correctTeams statsSearch).Perm
      (rescored stats correctTeams) ∧
    OrderedBy ops key direction
      (sortedStats ops stats ⟨some key, direction⟩ correctTeams statsSearch) ∧
    (∀ e : StatEntry,
      (sortedStats ops stats ⟨some key, direction⟩ correctTeams statsSearch).filter
          (sameKey key e) =
        (rescored stats correctTeams).filter (sameKey key e)) ∧
    ((∀ e ∈ stats, e.score = (calculateScore e.toRow correctTeams : Int)) →
      rescored stats correctTeams = stats) := by
  have hres : (∀ e ∈ stats, e.score = (calculateScore e.toRow correctTeams : Int)) →
      rescored stats correctTeams = stats := by
    intro h
    unfold rescored
    conv_rhs => rw [← List.map_id stats]
    apply List.map_congr_left
    intro e he
    have := h e he
    cases e
    simp only [id] at *
    rw [this]
  have hsort : sortedStats ops stats ⟨some key, direction⟩ correctTeams statsSearch =
      jsSort (specCompare ops key direction) (rescored stats correctTeams) := by
    unfold sortedStats
    by_cases hlen : stats.length = 0
    · have : stats = [] := List.length_eq_zero.mp hlen
      subst this
      rfl
    · simp only [hlen, if_false, hsearch, ne_eq, not_true_eq_false]
      apply jsSort_congr
      intro a ha b hb
      apply compareStats_eq_specCompare
      intro hk
      obtain ⟨a0, ha0, hna⟩ := rescored_nick stats correctTeams a ha
      obtain ⟨b0, hb0, hnb⟩ := rescored_nick stats correctTeams b hb
      exact ⟨hna ▸ hnick hk a0 ha0, hnb ▸ hnick hk b0 hb0⟩
  rw [hsort]
  obtain ⟨h1, h2, h3⟩ := jsSort_specCompare ops key direction hirr htrans htri
    (rescored stats correctTeams)
  exact ⟨h1, h2, h3, hres⟩

/-- Witness of C15: two entries named `b` and `a`, sorted by nick, ascending. -/
theorem C15_rank_witness :
    (sortedStats asciiStringOps
        [⟨{ createRow 0 with nick := "b" }, 0⟩, ⟨{ createRow 1 with nick := "a" }, 0⟩]
        ⟨some .nick, .ascending⟩ ⟨[], [], []⟩ "").Perm
      (rescored [⟨{ createRow 0 with nick := "b" }, 0⟩, ⟨{ createRow 1 with nick := "a" }, 0⟩]
        ⟨[], [], []⟩) ∧
    OrderedBy asciiStringOps .nick .ascending
      (sortedStats asciiStringOps
        [⟨{ createRow 0 with nick := "b" }, 0⟩, ⟨{ createRow 1 with nick := "a" }, 0⟩]
        ⟨some .nick, .ascending⟩ ⟨[], [], []⟩ "") ∧
    (∀ e : StatEntry,
      (sortedStats asciiStringOps
          [⟨{ createRow 0 with nick := "b" }, 0⟩, ⟨{ createRow 1 with nick := "a" }, 0⟩]
          ⟨some .nick, .ascending⟩ ⟨[], [], []⟩ "").filter (sameKey .nick e) =
        (rescored [⟨{ createRow 0 with nick := "b" }, 0⟩, ⟨{ createRow 1 with nick := "a" }, 0⟩]
          ⟨[], [], []⟩).filter (sameKey .nick e)) ∧
    ((∀ e ∈ ([⟨{ createRow 0 with nick := "b" }, 0⟩, ⟨{ createRow 1 with nick := "a" }, 0⟩] :
          List StatEntry), e.score = (calculateScore e.toRow ⟨[], [], []⟩ : Int)) →
      rescored [⟨{ createRow 0 with nick := "b" }, 0⟩, ⟨{ createRow 1 with nick := "a" }, 0⟩]
        ⟨[], [], []⟩ =
      [⟨{ createRow 0 with nick := "b" }, 0⟩, ⟨{ createRow 1 with nick := "a" }, 0⟩]) :=
  C15_rank asciiStringOps
    [⟨{ createRow 0 with nick := "b" }, 0⟩, ⟨{ createRow 1 with nick := "a" }, 0⟩]
    .nick .ascending ⟨[], [], []⟩ "" (by decide)
    asciiStringOps_strLt_order.1 asciiStringOps_strLt_order.2.1 asciiStringOps_strLt_order.2.2
    (fun _ => by decide)

/-- C15, as stated, fails.  The entries shown carry scores computed again: with
stored scores 5 and 0 and the answer key `three0 = ['A']`, the descending sort
by score puts the entry stored with 0 (computed 1) before the entry stored with
5 (computed 0), and the result is no permutation of `stats`.  And an empty nick
is compared as the number 0, equal to every other nick: `['b', '']` sorted by
nick, ascending, stays `['b', '']` although `'' < 'b'`. -/
theorem C15_counterexample :
    (sortedStats asciiStringOps
        [⟨{ createRow 0 with nick := "x" }, 5⟩,
         ⟨{ createRow 1 with nick := "y", three0 := [some "A", none] }, 0⟩]
        ⟨some .score, .descending⟩ ⟨[some "A"], [], []⟩ "").map (fun e => (e.nick, e.score)) =
      [("y", 1), ("x", 0)] ∧
    (¬ (sortedStats asciiStringOps
        [⟨{ createRow 0 with nick := "x" }, 5⟩,
         ⟨{ createRow 1 with nick := "y", three0 := [some "A", none] }, 0⟩]
        ⟨some .score, .descending⟩ ⟨[some "A"], [], []⟩ "").Perm
      [⟨{ createRow 0 with nick := "x" }, 5⟩,
       ⟨{ createRow 1 with nick := "y", three0 := [some "A", none] }, 0⟩]) ∧
    (sortedStats asciiStringOps
        [⟨{ createRow 0 with nick := "b" }, 0⟩, ⟨{ createRow 1 with nick := "" }, 0⟩]
        ⟨some .nick, .ascending⟩ ⟨[], [], []⟩ "").map (fun e => e.nick) = ["b", ""] ∧
    asciiStringOps.strLt "" "b" = true := by
  refine ⟨by decide, by decide, by decide, by decide⟩


/-! ## Migration -/

/-- C19. Legacy migration shape: for a legacy payload with an array `rows`,
`migrateV1StateToV2` returns a document with `schemaVersion == 2`, exactly one
stage, with as many rows as the payload and `rowCount` equal to that number,
`activeStageId` equal to that stage's id, `libraryCategories == []`, the
payload's library with every `categoryId` null (`[]` without a library), and
the payload's stats and correctTeams (the defaults where the payload has
none); the full import of such a payload is this migration. -/
theorem C19_migration_shape (loadTime : Nat) (v1State : FileObject) (rows : List RawRow)
    (hrows : v1State.rows = some rows) :
    (migrateV1StateToV2 loadTime v1State).schemaVersion = 2 ∧
    (∃ stage, (migrateV1StateToV2 loadTime v1State).stages = [stage] ∧
      stage.rows.length = rows.length ∧ stage.rowCount = rows.length ∧
      (migrateV1StateToV2 loadTime v1State).activeStageId = stage.id ∧
      (∀ stats, v1State.stats = some stats → stage.stats = stats) ∧
      (v1State.stats = none → stage.stats = []) ∧
      (∀ c, v1State.correctTeams = some c → stage.correctTeams = c) ∧
      (v1State.correctTeams = none →
        stage.correctTeams = { three0 := [], pass := [], out := [] })) ∧
    (migrateV1StateToV2 loadTime v1State).libraryCategories = [] ∧
    (∀ library, v1State.library = some library →
      (migrateV1StateToV2 loadTime v1State).library =
        library.map (fun icon => { icon with categoryId := none })) ∧
    (v1State.library = none → (migrateV1StateToV2 loadTime v1State).library = []) ∧
    (∀ icon ∈ (migrateV1StateToV2 loadTime v1State).library, icon.categoryId = none) ∧
    (schemaVersionMissing v1State.schemaVersion = true →
      importFull loadTime (.object v1State) = some (migrateV1StateToV2 loadTime v1State)) := by
  refine ⟨rfl, ⟨_, rfl, ?_, ?_, rfl, ?_, ?_, ?_, ?_⟩, rfl, ?_, ?_, ?_, ?_⟩
  · simp [hrows]
  · simp [hrows]
  · intro stats h; simp [h]
  · intro h; simp [h]
  · intro c h; simp [h]
  · intro h; simp [h, INITIAL_STAGE, createStage]
  · intro library h; simp [migrateV1StateToV2, h]
  · intro h; simp [migrateV1StateToV2, h]
  · intro icon hicon
    simp only [migrateV1StateToV2, List.mem_map] at hicon
    obtain ⟨i0, _, rfl⟩ := hicon
    rfl
  · intro h
    simp [importFull, h, hrows]

/-- Witness of C19: the payload with 10 default rows, empty stats and an empty
answer key. -/
theorem C19_migration_shape_witness :
    (migrateV1StateToV2 0 { FileObject.empty with
        rows := some ((getInitialRows 10).map Row.toRaw), stats := some []
        correctTeams := some { three0 := [], pass := [], out := [] } }).schemaVersion = 2 ∧
    ((migrateV1StateToV2 0 { FileObject.empty with
        rows := some ((getInitialRows 10).map Row.toRaw), stats := some []
        correctTeams := some { three0 := [], pass := [], out := [] } }).stages.map
        (fun stage => (stage.rows.length, stage.rowCount))) = [(10, 10)] ∧
    (migrateV1StateToV2 0 { FileObject.empty with
        rows := some ((getInitialRows 10).map Row.toRaw), stats := some []
        correctTeams := some { three0 := [], pass := [], out := [] } }).library = [] := by
  have h := C19_migration_shape 0 { FileObject.empty with
        rows := some ((getInitialRows 10).map Row.toRaw), stats := some []
        correctTeams := some { three0 := [], pass := [], out := [] } }
        ((getInitialRows 10).map Row.toRaw) rfl
  obtain ⟨h1, ⟨stage, hs, hl, hc, _⟩, _, _, hlib, _⟩ := h
  refine ⟨h1, ?_, hlib rfl⟩
  rw [hs]
  simp only [List.map_cons, List.map_nil, hl, hc, List.length_map]
  decide


theorem Stage.toRaw_roundtrip (stages : List Stage) :
    (stages.map Stage.toRaw).map (fun (s : RawStage) =>
      ({ id := s.id, name := s.name, rows := s.rows, rowCount := s.rowCount
         stats := match s.stats with
           | some stats => stats
           | none => []
         correctTeams := s.correctTeams } : Stage)) = stages := by
  rw [List.map_map]
  conv_rhs => rw [← List.map_id stages]
  apply List.map_congr_left
  intro s _
  rfl

/-- The full import of the JSON object of a document whose `schemaVersion` is
not `0` returns the document with empty category links turned into `null`. -/
theorem importFull_toFile (loadTime : Nat) (d : Doc) (hv : d.schemaVersion ≠ 0) :
    importFull loadTime (.object d.toFile) =
      some { d with library := d.library.map (fun (icon : LibraryAsset) =>
        { icon with categoryId := match icon.categoryId with
            | some c => if c = "" then none else some c
            | none => none }) } := by
  have hm : schemaVersionMissing (some d.schemaVersion) = false := by
    simp [schemaVersionMissing, hv]
  simp only [importFull, Doc.toFile, hm, Bool.false_eq_true, if_false, definedOr,
    Stage.toRaw_roundtrip]

theorem normalise_library_idem (library : List LibraryAsset)
    (h : ∀ icon ∈ library, icon.categoryId ≠ some "") :
    library.map (fun (icon : LibraryAsset) =>
      { icon with categoryId := match icon.categoryId with
          | some c => if c = "" then none else some c
          | none => none }) = library := by
  conv_rhs => rw [← List.map_id library]
  apply List.map_congr_left
  intro icon hicon
  have := h icon hicon
  cases icon with
  | mk id src name categoryId =>
    cases categoryId with
    | none => rfl
    | some c =>
      have hc : c ≠ "" := fun e => this (by rw [e])
      simp [hc]

theorem importFull_library (loadTime : Nat) (file : FileContent) (d : Doc)
    (h : importFull loadTime file = some d) :
    d.schemaVersion ≠ 0 ∧ ∀ icon ∈ d.library, icon.categoryId ≠ some "" := by
  have hmig : ∀ o : FileObject,
      (migrateV1StateToV2 loadTime o).schemaVersion ≠ 0 ∧
      ∀ icon ∈ (migrateV1StateToV2 loadTime o).library, icon.categoryId ≠ some "" := by
    intro o
    refine ⟨by simp [migrateV1StateToV2, INITIAL_STATE_BASE, SCHEMA_VERSION], fun icon hicon => ?_⟩
    simp only [migrateV1StateToV2, List.mem_map] at hicon
    obtain ⟨i0, _, rfl⟩ := hicon
    simp
  cases file with
  | bareRows rows =>
    obtain rfl := Option.some.inj h
    exact hmig _
  | object o =>
    simp only [importFull] at h
    split at h
    · split at h
      · obtain rfl := Option.some.inj h
        exact hmig _
      · exact absurd h (by simp)
    · rename_i hver
      obtain rfl := Option.some.inj h
      refine ⟨?_, fun icon hicon => ?_⟩
      · cases hsv : o.schemaVersion with
        | none => simp [schemaVersionMissing, hsv] at hver
        | some n =>
          simp only [schemaVersionMissing, hsv, beq_iff_eq] at hver
          simpa [definedOr] using hver
      · simp only [List.mem_map] at hicon
        obtain ⟨i0, _, rfl⟩ := hicon
        cases hc : i0.categoryId with
        | none => simp
        | some c =>
          by_cases hce : c = ""
          · simp [hce]
          · simp [hce]

/-- C20. Migration idempotence: the load-time step (migration when
`schemaVersion` is missing or below 2, nothing otherwise) applied twice is the
same as applied once, and it leaves an already-current document unchanged;
likewise a document produced by the full import is returned unchanged when its
JSON object is imported again. -/
theorem C20_migration_idempotent (loadTime loadTime' : Nat) (storedState : FileObject)
    (file : FileContent) (d : Doc) (himport : importFull loadTime file = some d) :
    loadState loadTime' (loadState loadTime storedState) = loadState loadTime storedState ∧
    (∀ current : Doc, current.schemaVersion ≥ SCHEMA_VERSION →
      loadState loadTime current.toFile = current.toFile) ∧
    importFull loadTime' (.object d.toFile) = some d := by
  have hcur : ∀ (t : Nat) (current : Doc), current.schemaVersion ≥ SCHEMA_VERSION →
      loadState t current.toFile = current.toFile := by
    intro t current hge
    have hge' : 2 ≤ current.schemaVersion := hge
    have h0 : current.schemaVersion ≠ 0 := by omega
    have h2 : ¬ current.schemaVersion < 2 := by omega
    simp [loadState, Doc.toFile, schemaVersionMissing, h0, SCHEMA_VERSION, h2]
  refine ⟨?_, hcur loadTime, ?_⟩
  · by_cases hg : (schemaVersionMissing storedState.schemaVersion ||
        (match storedState.schemaVersion with
          | some v => decide (v < SCHEMA_VERSION)
          | none => false)) = true
    · have e : loadState loadTime storedState =
          (migrateV1StateToV2 loadTime storedState).toFile := by
        simp only [loadState, hg, if_true]
      rw [e]
      exact hcur loadTime' _ (by simp [migrateV1StateToV2, INITIAL_STATE_BASE])
    · have e : loadState loadTime storedState = storedState := by
        simp only [loadState, hg, if_false]
        rfl
      rw [e]
      simp only [loadState, hg, if_false]
      rfl
  · obtain ⟨hv, hlib⟩ := importFull_library loadTime file d himport
    rw [importFull_toFile loadTime' d hv, normalise_library_idem d.library hlib]

/-- Witness of C20: a stored legacy object with one row, and the full import
of a current-schema file that names one stage. -/
theorem C20_migration_idempotent_witness :
    loadState 1 (loadState 0 { FileObject.empty with rows := some [(createRow 0).toRaw] }) =
      loadState 0 { FileObject.empty with rows := some [(createRow 0).toRaw] } ∧
    (∀ current : Doc, current.schemaVersion ≥ SCHEMA_VERSION →
      loadState 0 current.toFile = current.toFile) ∧
    importFull 1 (.object (INITIAL_STATE_BASE 0).toFile) = some (INITIAL_STATE_BASE 0) :=
  C20_migration_idempotent 0 1 { FileObject.empty with rows := some [(createRow 0).toRaw] }
    (.object { FileObject.empty with
      schemaVersion := some 2, stages := some [(INITIAL_STAGE 0).toRaw] })
    (INITIAL_STATE_BASE 0) (by decide)


/-! ## Instances of the frequency and popularity statements -/

/-- Witness of C16: one entry whose three0 holds 'A' and `null`; 'A' is counted
once, and 'B', which occurs nowhere, has no key. -/
theorem C16_frequency_witness :
    (match ((statCounts [⟨{ createRow 0 with three0 := [some "A", none] }, 0⟩]).areaOrEmpty
        .three0).get "A" with
      | some n => n
      | none => 0) =
      (([⟨{ createRow 0 with three0 := [some "A", none] }, 0⟩] : List StatEntry).map
        (fun r => (r.toRow.area .three0).count (some "A"))).sum ∧
    ((statCounts [⟨{ createRow 0 with three0 := [some "A", none] }, 0⟩]).areaOrEmpty
      .three0).get "B" = none :=
  ⟨(C16_frequency [⟨{ createRow 0 with three0 := [some "A", none] }, 0⟩] .three0).1 "A"
      (by decide),
    ((C16_frequency [⟨{ createRow 0 with three0 := [some "A", none] }, 0⟩] .three0).2.1 "B").mpr
      (Or.inr (by decide))⟩

/-- Witness of C17: a frequency mapping of three0 with the single asset 'A';
the lists of three0 are that pick followed by one `null`. -/
theorem C17_popularity_slots_witness :
    (sortedPicks ⟨some [("A", 1)], none, none⟩ 3 [] .three0).length = 1 ∧
    (categoryPopularity ⟨some [("A", 1)], none, none⟩ 3 []).popular .three0 =
      (sortedPicks ⟨some [("A", 1)], none, none⟩ 3 [] .three0).map some ++
        List.replicate (categoryLimits .three0 - 1) none ∧
    (categoryPopularity ⟨some [("A", 1)], none, none⟩ 3 []).unpopular .three0 =
      (sortedPicks ⟨some [("A", 1)], none, none⟩ 3 [] .three0).reverse.map some ++
        List.replicate (categoryLimits .three0 - 1) none :=
  (C17_popularity_slots ⟨some [("A", 1)], none, none⟩ 3 [] .three0).2.2.2.2.2 1 rfl (by decide)


/-! ## Migration of the settings -/

/-- C21, evaluated at the failing input: a legacy payload with
`verticalPad: 0`, `horizontalPad: 0`, `bgPosX: 0`, `bgScale: 0` and `bg: ""`
migrates to the defaults 100, 40, 50, 115 and `#101018`, while the boolean
`avatarsEnabled: false` is kept; in general a numeric or string setting is
kept exactly when it is present and not `0` or empty, and a boolean setting
whenever it is present. -/
theorem C21_migration_settings :
    (migrateV1StateToV2 0 { FileObject.empty with
        rows := some [], verticalPad := some 0, horizontalPad := some 0, bgPosX := some 0
        bgScale := some 0, bg := some "", avatarsEnabled := some false }).verticalPad = 100 ∧
    (migrateV1StateToV2 0 { FileObject.empty with
        rows := some [], verticalPad := some 0, horizontalPad := some 0, bgPosX := some 0
        bgScale := some 0, bg := some "", avatarsEnabled := some false }).horizontalPad = 40 ∧
    (migrateV1StateToV2 0 { FileObject.empty with
        rows := some [], verticalPad := some 0, horizontalPad := some 0, bgPosX := some 0
        bgScale := some 0, bg := some "", avatarsEnabled := some false }).bgPosX = 50 ∧
    (migrateV1StateToV2 0 { FileObject.empty with
        rows := some [], verticalPad := some 0, horizontalPad := some 0, bgPosX := some 0
        bgScale := some 0, bg := some "", avatarsEnabled := some false }).bgScale = 115 ∧
    (migrateV1StateToV2 0 { FileObject.empty with
        rows := some [], verticalPad := some 0, horizontalPad := some 0, bgPosX := some 0
        bgScale := some 0, bg := some "", avatarsEnabled := some false }).bg = "#101018" ∧
    (migrateV1StateToV2 0 { FileObject.empty with
        rows := some [], verticalPad := some 0, horizontalPad := some 0, bgPosX := some 0
        bgScale := some 0, bg := some "", avatarsEnabled := some false }).avatarsEnabled = false ∧
    (∀ (loadTime : Nat) (v1State : FileObject),
      (migrateV1StateToV2 loadTime v1State).verticalPad =
          orInt v1State.verticalPad (INITIAL_STATE_BASE loadTime).verticalPad ∧
      (migrateV1StateToV2 loadTime v1State).bg =
          orString v1State.bg (INITIAL_STATE_BASE loadTime).bg ∧
      (migrateV1StateToV2 loadTime v1State).avatarsEnabled =
          definedOr v1State.avatarsEnabled (INITIAL_STATE_BASE loadTime).avatarsEnabled) ∧
    (∀ (v d : Int), v ≠ 0 → orInt (some v) d = v) ∧
    (∀ d : Int, orInt (some 0) d = d ∧ orInt none d = d) ∧
    (∀ (v d : String), v ≠ "" → orString (some v) d = v) ∧
    (∀ d : String, orString (some "") d = d ∧ orString none d = d) ∧
    (∀ (v d : Bool), definedOr (some v) d = v) := by
  refine ⟨by decide, by decide, by decide, by decide, by decide, by decide,
    fun _ _ => ⟨rfl, rfl, rfl⟩, fun v d hv => by simp [orInt, hv],
    fun d => ⟨by simp [orInt], rfl⟩, fun v d hv => by simp [orString, hv],
    fun d => ⟨by simp [orString], rfl⟩, fun _ _ => rfl⟩

/-! ## Deleting a stage -/

theorem deleteStage_confirmed (idToDelete : String) (d : Doc) (h : 1 < d.stages.length)
    (s0 : Stage) (hs0 : (d.stages.filter (fun s => s.id != idToDelete))[0]? = some s0) :
    deleteStage idToDelete true d =
      some { d with
        stages := d.stages.filter (fun s => s.id != idToDelete)
        activeStageId := if d.activeStageId = idToDelete then s0.id else d.activeStageId
        library := d.library.map (fun icon =>
          if icon.categoryId = some idToDelete then { icon with categoryId := none }
          else icon) } := by
  have h1 : ¬ d.stages.length ≤ 1 := by omega
  simp only [deleteStage, h1, if_false, Bool.not_true, Bool.false_eq_true]
  by_cases ha : d.activeStageId = idToDelete
  · simp [ha, hs0]
  · simp [ha]

theorem filter_ne_length_of_nodup (stages : List Stage) (id : String)
    (hnd : (stages.map (fun s => s.id)).Nodup) :
    (stages.filter (fun s => s.id != id)).length + 1 ≥ stages.length := by
  induction stages with
  | nil => simp
  | cons s stages ih =>
    rw [List.map_cons, List.nodup_cons] at hnd
    by_cases hs : s.id = id
    · have hall : stages.filter (fun s => s.id != id) = stages := by
        rw [List.filter_eq_self]
        intro t ht
        have : t.id ≠ id := by
          intro e
          exact hnd.1 (List.mem_map.mpr ⟨t, ht, e.trans hs.symm⟩)
        simpa using this
      simp [List.filter_cons, hs, hall]
    · have := ih hnd.2
      simp [List.filter_cons, hs]
      omega


/-- C22. `deleteStage`: on a document with pairwise distinct stage ids, a
single stage is never deleted; otherwise the stages are the previous ones
without the stage of that id, in the same order, `activeStageId` becomes the
first remaining stage's id when the deleted stage was active and is unchanged
otherwise, every library asset that pointed at the deleted id gets
`categoryId` null and every other asset and field is unchanged; a refused
confirmation changes nothing.  Moving `icon1` to the category `s-1-1` and then
deleting the stage `s-1-1` leaves `icon1.categoryId` null. -/
theorem C22_deleteStage (d : Doc) (idToDelete : String)
    (hnd : (d.stages.map (fun s => s.id)).Nodup) :
    (d.stages.length ≤ 1 → deleteStage idToDelete true d = some d) ∧
    (1 < d.stages.length →
      ∃ d', deleteStage idToDelete true d = some d' ∧
        d'.stages = d.stages.filter (fun s => s.id != idToDelete) ∧
        (∀ s, s ∈ d'.stages ↔ s ∈ d.stages ∧ s.id ≠ idToDelete) ∧
        d'.stages.length + 1 ≥ d.stages.length ∧
        (d.activeStageId = idToDelete →
          ∃ s0, d'.stages[0]? = some s0 ∧ d'.activeStageId = s0.id) ∧
        (d.activeStageId ≠ idToDelete → d'.activeStageId = d.activeStageId) ∧
        (∀ icon ∈ d'.library, icon.categoryId ≠ some idToDelete) ∧
        d'.library = d.library.map (fun icon =>
          if icon.categoryId = some idToDelete then { icon with categoryId := none }
          else icon) ∧
        d' = { d with
          stages := d'.stages, activeStageId := d'.activeStageId, library := d'.library }) ∧
    deleteStage idToDelete false d = some d ∧
    ((deleteStage "s-1-1" true
        (moveIconToCategory "icon1" (some "s-1-1")
          { addNewStage 1 (INITIAL_STATE_BASE 0) with
            library := [{ id := "icon1", src := "data:x", name := "Icon", categoryId := none }] })
      ).map (fun d' => d'.library.map (fun icon => (icon.id, icon.categoryId)))) =
      some [("icon1", none)] := by
  refine ⟨fun h => ?_, fun h => ?_, ?_, by decide⟩
  · simp [deleteStage, h]
  · have hlen := filter_ne_length_of_nodup d.stages idToDelete hnd
    have hpos : 0 < (d.stages.filter (fun s => s.id != idToDelete)).length := by omega
    obtain ⟨s0, hs0⟩ : ∃ s0, (d.stages.filter (fun s => s.id != idToDelete))[0]? = some s0 :=
      ⟨_, List.getElem?_eq_getElem hpos⟩
    refine ⟨_, deleteStage_confirmed idToDelete d h s0 hs0, rfl, fun s => ?_, hlen,
      fun ha => ⟨s0, hs0, by simp [ha]⟩, fun ha => by simp [ha], fun icon hicon => ?_, rfl, rfl⟩
    · simp [List.mem_filter]
    · simp only [List.mem_map] at hicon
      obtain ⟨i0, _, rfl⟩ := hicon
      by_cases hc : i0.categoryId = some idToDelete
      · simp [hc]
      · simp [hc]
  · unfold deleteStage
    split
    · rfl
    · rfl

/-- Witness of C22: the stage added to the initial document is deleted. -/
theorem C22_deleteStage_witness :
    ∃ d', deleteStage "s-1-1" true (addNewStage 1 (INITIAL_STATE_BASE 0)) = some d' ∧
      d'.stages = (addNewStage 1 (INITIAL_STATE_BASE 0)).stages.filter
        (fun s => s.id != "s-1-1") ∧
      d'.activeStageId = "s-0-0" := by
  obtain ⟨d', h1, h2, _, _, h5, _⟩ :=
    (C22_deleteStage (addNewStage 1 (INITIAL_STATE_BASE 0)) "s-1-1" (by decide)).2.1
      (by decide)
  refine ⟨d', h1, h2, ?_⟩
  obtain ⟨s0, hs0, hid⟩ := h5 (by decide)
  rw [hid]
  rw [h2] at hs0
  have : ((addNewStage 1 (INITIAL_STATE_BASE 0)).stages.filter
      (fun s => s.id != "s-1-1"))[0]? = some (INITIAL_STAGE 0) := by decide
  rw [this] at hs0
  rw [← Option.some.inj hs0]
  decide


/-! ## Row count -/

theorem setAppState_fn_current {D : Type} [DecidableEq D] (s : HistoryState D) (f : D → D)
    (d : D) (h : s.current = some d) :
    ∃ s', setAppState s (.fn f) = some s' ∧ s'.current = some (f d) := by
  rw [setAppState_fn s f d h]
  by_cases hc : s.current = some (f d)
  · exact ⟨s, setAppState_value_same s _ hc, hc⟩
  · rw [setAppState_value_diff s _ hc]
    refine ⟨_, rfl, ?_⟩
    split <;> rfl

theorem clampRowCount_eq (val : Int) : (clampRowCount val : Int) = clamp val 1 30 := by
  unfold clampRowCount clamp
  rw [Int.toNat_of_nonneg (by split <;> omega)]
  split <;> omega

theorem updateRowCountStage_spec (n : Nat) (stage : Stage) :
    (updateRowCountStage n stage).rows.length = n ∧
    (updateRowCountStage n stage).rowCount = n ∧
    (updateRowCountStage n stage).id = stage.id ∧
    (updateRowCountStage n stage).name = stage.name ∧
    (updateRowCountStage n stage).stats = stage.stats ∧
    (updateRowCountStage n stage).correctTeams = stage.correctTeams ∧
    (stage.rows.length ≤ n →
      (updateRowCountStage n stage).rows.take stage.rows.length = stage.rows ∧
      ∀ j, stage.rows.length ≤ j → j < n →
        (updateRowCountStage n stage).rows[j]? = some (createRow j)) ∧
    (n ≤ stage.rows.length → (updateRowCountStage n stage).rows = stage.rows.take n) := by
  have hlen : (updateRowCountStage n stage).rows.length = n := by
    simp only [updateRowCountStage]
    split
    · simp; omega
    · split
      · simp [List.length_take]; omega
      · omega
  refine ⟨hlen, ?_, rfl, rfl, rfl, rfl, fun hle => ?_, fun hge => ?_⟩
  · show (updateRowCountStage n stage).rows.length = n
    exact hlen
  · by_cases hgt : n > stage.rows.length
    · have e : (updateRowCountStage n stage).rows =
          stage.rows ++ (List.range (n - stage.rows.length)).map
            (fun i => createRow (stage.rows.length + i)) := by
        simp only [updateRowCountStage, hgt, if_true]
      rw [e]
      refine ⟨by simp, fun j hj1 hj2 => ?_⟩
      rw [List.getElem?_append_right hj1, List.getElem?_map,
        List.getElem?_range (by omega)]
      simp only [Option.map_some']
      congr 2
      omega
    · have hn : n = stage.rows.length := by omega
      have e : (updateRowCountStage n stage).rows = stage.rows := by
        simp only [updateRowCountStage, hn, gt_iff_lt, lt_irrefl, if_false]
      rw [e]
      exact ⟨by simp, fun j hj1 hj2 => by omega⟩
  · by_cases hlt : n < stage.rows.length
    · have h1 : ¬ n > stage.rows.length := by omega
      simp only [updateRowCountStage, h1, hlt, if_true, if_false]
    · have hn : n = stage.rows.length := by omega
      simp only [updateRowCountStage, hn, gt_iff_lt, lt_irrefl, if_false, List.take_length]


/-- The document that the two commits of `setRowCount` leave as current. -/
theorem setRowCount_current (val : Int) (h : HistoryState Doc) (d : Doc)
    (hc : h.current = some d) :
    ∃ h', setRowCount val h = some h' ∧
      h'.current = some (updateRowCount (clampRowCount val)
        (updateActiveStage (fun stage => { stage with rowCount := clampRowCount val }) d)) := by
  obtain ⟨h1, e1, c1⟩ := setAppState_fn_current h
    (updateActiveStage (fun stage => { stage with rowCount := clampRowCount val })) d hc
  obtain ⟨h2, e2, c2⟩ := setAppState_fn_current h1 (updateRowCount (clampRowCount val)) _ c1
  refine ⟨h2, ?_, c2⟩
  simp only [setRowCount, e1]
  exact e2

/-- C23. `setRowCount`: after `setRowCount(n)` for an integer `n`, the active
stage has exactly `clamp(n, 1, 30)` rows and `rowCount` equal to that number;
when growing, the previous rows are an unchanged prefix and the row appended
at position `j` is `createRow(j)`; when shrinking, the rows are the prefix of
the previous rows of that length; the other stages and the other fields of the
active stage are unchanged. -/
theorem C23_setRowCount (h : HistoryState Doc) (d : Doc) (val : Int)
    (hc : h.current = some d) :
    (clampRowCount val : Int) = clamp val 1 30 ∧
    ∃ h' d', setRowCount val h = some h' ∧ h'.current = some d' ∧
      d'.activeStageId = d.activeStageId ∧
      d'.stages.length = d.stages.length ∧
      ∀ (i : Nat) (stage : Stage), d.stages[i]? = some stage →
        (stage.id ≠ d.activeStageId → d'.stages[i]? = some stage) ∧
        (stage.id = d.activeStageId →
          ∃ stage', d'.stages[i]? = some stage' ∧
            stage'.rows.length = clampRowCount val ∧
            stage'.rowCount = clampRowCount val ∧
            stage'.id = stage.id ∧ stage'.name = stage.name ∧
            stage'.stats = stage.stats ∧ stage'.correctTeams = stage.correctTeams ∧
            (stage.rows.length ≤ clampRowCount val →
              stage'.rows.take stage.rows.length = stage.rows ∧
              ∀ j, stage.rows.length ≤ j → j < clampRowCount val →
                stage'.rows[j]? = some (createRow j)) ∧
            (clampRowCount val ≤ stage.rows.length →
              stage'.rows = stage.rows.take (clampRowCount val))) := by
  refine ⟨clampRowCount_eq val, ?_⟩
  obtain ⟨h', e, c⟩ := setRowCount_current val h d hc
  refine ⟨h', _, e, c, rfl, ?_, fun i stage hst => ⟨fun hne => ?_, fun heq => ?_⟩⟩
  · simp [updateRowCount, updateActiveStage]
  · simp [updateRowCount, updateActiveStage, hst, hne]
  · obtain ⟨s1, s2, s3, s4, s5, s6, s7, s8⟩ := updateRowCountStage_spec (clampRowCount val)
      { stage with rowCount := clampRowCount val }
    refine ⟨updateRowCountStage (clampRowCount val) { stage with rowCount := clampRowCount val },
      ?_, s1, s2, s3, s4, s5, s6, s7, s8⟩
    simp [updateRowCount, updateActiveStage, hst, heq]

/-- Witness of C23: `setRowCount(40)` on the initial history. -/
theorem C23_setRowCount_witness :
    (clampRowCount 40 : Int) = clamp 40 1 30 ∧
    ∃ h' d', setRowCount 40 (initialHistory (INITIAL_STATE_BASE 0)) = some h' ∧
      h'.current = some d' ∧
      d'.activeStageId = (INITIAL_STATE_BASE 0).activeStageId ∧
      d'.stages.length = (INITIAL_STATE_BASE 0).stages.length ∧
      ∀ (i : Nat) (stage : Stage), (INITIAL_STATE_BASE 0).stages[i]? = some stage →
        (stage.id ≠ (INITIAL_STATE_BASE 0).activeStageId → d'.stages[i]? = some stage) ∧
        (stage.id = (INITIAL_STATE_BASE 0).activeStageId →
          ∃ stage', d'.stages[i]? = some stage' ∧
            stage'.rows.length = clampRowCount 40 ∧
            stage'.rowCount = clampRowCount 40 ∧
            stage'.id = stage.id ∧ stage'.name = stage.name ∧
            stage'.stats = stage.stats ∧ stage'.correctTeams = stage.correctTeams ∧
            (stage.rows.length ≤ clampRowCount 40 →
              stage'.rows.take stage.rows.length = stage.rows ∧
              ∀ j, stage.rows.length ≤ j → j < clampRowCount 40 →
                stage'.rows[j]? = some (createRow j)) ∧
            (clampRowCount 40 ≤ stage.rows.length →
              stage'.rows = stage.rows.take (clampRowCount 40))) :=
  C23_setRowCount (initialHistory (INITIAL_STATE_BASE 0)) (INITIAL_STATE_BASE 0) 40 rfl


/-! ## Moving rows -/

theorem arrayGet_map_some (rows : List Row) (k : Nat) (hk : k < rows.length) :
    arrayGet (rows.map some) (k : Int) = some rows[k] := by
  simp [arrayGet, hk]

theorem arraySet_of_lt (arr : List (Option Row)) (k : Nat) (hk : k < arr.length)
    (v : Option Row) : arraySet arr (k : Int) v = arr.set k v := by
  simp [arraySet, hk]

theorem moveRow_noop (index direction : Int) (rows : List Row)
    (h : index + direction < 0 ∨ (rows.length : Int) ≤ index + direction) :
    moveRow index direction rows = rows.map some := by
  unfold moveRow
  simp only [List.length_map, ge_iff_le, Bool.or_eq_true, decide_eq_true_eq]
  rw [if_pos h]

theorem moveRow_swap (rows : List Row) (i j : Nat) (hi : i < rows.length)
    (hj : j < rows.length) :
    moveRow (i : Int) ((j : Int) - (i : Int)) rows =
      ((rows.set i rows[j]).set j rows[i]).map some := by
  unfold moveRow
  have e : (i : Int) + ((j : Int) - (i : Int)) = (j : Int) := by ring
  simp only [e, List.length_map, ge_iff_le, Bool.or_eq_true, decide_eq_true_eq]
  have hg : ¬ ((j : Int) < 0 ∨ (rows.length : Int) ≤ (j : Int)) := by omega
  rw [if_neg hg, arrayGet_map_some rows j hj, arrayGet_map_some rows i hi,
    arraySet_of_lt _ i (by simpa using hi), arraySet_of_lt _ j (by simpa using hj)]
  simp [List.map_set]

/-- C24 (amended to a valid row index): for every rows list, every valid index
`i` and every direction `d`, `moveRow` returns an array without holes; when
`i + d` is a valid index `j` it is the list with the rows at `i` and `j`
swapped, of the same length and with every other row in place, and when
`i + d` is out of range it is the input list. -/
theorem C24_moveRow (rows : List Row) (i : Nat) (d : Int) (hi : i < rows.length) :
    (∀ j : Nat, (j : Int) = (i : Int) + d → ∀ hj : j < rows.length,
      moveRow (i : Int) d rows = ((rows.set i rows[j]).set j rows[i]).map some ∧
      definedRows (moveRow (i : Int) d rows) = some ((rows.set i rows[j]).set j rows[i]) ∧
      ((rows.set i rows[j]).set j rows[i]).length = rows.length ∧
      ((rows.set i rows[j]).set j rows[i])[j]? = some rows[i] ∧
      (i ≠ j → ((rows.set i rows[j]).set j rows[i])[i]? = some rows[j]) ∧
      ∀ k : Nat, k ≠ i → k ≠ j → ((rows.set i rows[j]).set j rows[i])[k]? = rows[k]?) ∧
    (((i : Int) + d < 0 ∨ (rows.length : Int) ≤ (i : Int) + d) →
      moveRow (i : Int) d rows = rows.map some ∧
      definedRows (moveRow (i : Int) d rows) = some rows) := by
  have hdef : ∀ l : List Row, definedRows (l.map some) = some l := by
    intro l
    induction l with
    | nil => rfl
    | cons a t ih => simp [definedRows, ih]
  refine ⟨?_, ?_⟩
  · intro j hjd hj
    have hd : d = (j : Int) - (i : Int) := by omega
    have hm := moveRow_swap rows i j hi hj
    rw [← hd] at hm
    refine ⟨hm, ?_, by simp, ?_, ?_, ?_⟩
    · rw [hm, hdef]
    · simp [List.getElem?_set, hj]
    · intro hne
      simp [List.getElem?_set, hne, hi, Ne.symm hne]
    · intro k hki hkj
      simp [List.getElem?_set, Ne.symm hki, Ne.symm hkj]
  · intro h
    have hm := moveRow_noop (i : Int) d rows h
    exact ⟨hm, by rw [hm, hdef]⟩

theorem C24_moveRow_witness :
    moveRow ((1 : Nat) : Int) (-1) [createRow 0, createRow 1, createRow 2] =
      [some (createRow 1), some (createRow 0), some (createRow 2)] ∧
    moveRow ((2 : Nat) : Int) 1 [createRow 0, createRow 1, createRow 2] =
      [some (createRow 0), some (createRow 1), some (createRow 2)] :=
  ⟨((C24_moveRow [createRow 0, createRow 1, createRow 2] 1 (-1) (by decide)).1 0 (by decide)
      (by decide)).1,
   ((C24_moveRow [createRow 0, createRow 1, createRow 2] 2 1 (by decide)).2
      (Or.inr (by decide))).1⟩

/-- C24 (the claim as worded fails): with `index` equal to the number of rows
and direction `-1`, `index` is out of range but `index + direction` is not, so
the guard lets the swap run: the last row moves past the end and its place
holds `undefined`; the result is longer than, and differs from, the input. -/
theorem C24_moveRow_counterexample :
    moveRow 2 (-1) [createRow 0, createRow 1] =
      [some (createRow 0), none, some (createRow 1)] ∧
    moveRow 2 (-1) [createRow 0, createRow 1] ≠ [createRow 0, createRow 1].map some ∧
    (moveRow 2 (-1) [createRow 0, createRow 1]).length = 3 ∧
    definedRows (moveRow 2 (-1) [createRow 0, createRow 1]) = none ∧
    moveRow (-1) 1 [createRow 0, createRow 1] = [none, some (createRow 1)] := by
  refine ⟨by decide, by decide, by decide, by decide, by decide⟩


/-! ## Category synchronisation -/

theorem categories_all_iff (new old : List Category) :
    (new.length = old.length ∧
      new.enum.all (fun ic =>
        match old[ic.1]? with
        | some o => ic.2.id == o.id && ic.2.name == o.name
        | none => false) = true) ↔ new = old := by
  constructor
  · rintro ⟨hlen, hall⟩
    apply List.ext_getElem hlen
    intro n h1 h2
    rw [List.all_eq_true] at hall
    have hmem : (n, new[n]) ∈ new.enum := by
      rw [List.mem_iff_getElem?]
      exact ⟨n, by simp [List.enum, List.getElem?_enumFrom, h1]⟩
    have := hall _ hmem
    simp only [List.getElem?_eq_getElem h2, Bool.and_eq_true, beq_iff_eq] at this
    cases hn : new[n] with
    | mk nid nname =>
      cases ho : old[n] with
      | mk oid oname =>
        rw [hn, ho] at this
        simp only at this
        rw [this.1, this.2]
  · rintro rfl
    refine ⟨rfl, ?_⟩
    rw [List.all_eq_true]
    rintro ⟨n, c⟩ hmem
    rw [List.mem_iff_getElem?] at hmem
    obtain ⟨k, hk⟩ := hmem
    simp only [List.enum, List.getElem?_enumFrom, Option.map_eq_some'] at hk
    obtain ⟨a, ha, he⟩ := hk
    simp only [Prod.mk.injEq, zero_add] at he
    obtain ⟨rfl, rfl⟩ := he
    simp [ha]

theorem syncCategories_eq (d : Doc) :
    syncCategories d =
      { d with libraryCategories :=
          d.stages.map (fun s => ({ id := s.id, name := s.name } : Category)) } := by
  unfold syncCategories
  simp only []
  split
  · rename_i h
    have := (categories_all_iff _ _).mp h
    rw [this]
  · rfl

/-- C25: for every document `d`, the category synchronisation step returns the
document whose `libraryCategories` is the list of `{id, name}` of the stages of
`d`, in order, every other field being that of `d`; when `libraryCategories`
already is that list the step returns `d`; the step is idempotent; and on a
history whose current document is already synchronised the commit of the step
returns the history state unchanged. -/
theorem C25_syncCategories (d : Doc) :
    syncCategories d =
      { d with libraryCategories :=
          d.stages.map (fun s => ({ id := s.id, name := s.name } : Category)) } ∧
    (d.libraryCategories =
        d.stages.map (fun s => ({ id := s.id, name := s.name } : Category)) →
      syncCategories d = d) ∧
    syncCategories (syncCategories d) = syncCategories d ∧
    (∀ h : HistoryState Doc, h.current = some d →
      (setAppState h (.fn syncCategories)).bind
          (fun h1 => setAppState h1 (.fn syncCategories)) =
        setAppState h (.fn syncCategories)) ∧
    (∀ h : HistoryState Doc, h.current = some d →
      d.libraryCategories =
        d.stages.map (fun s => ({ id := s.id, name := s.name } : Category)) →
      setAppState h (.fn syncCategories) = some h) := by
  have hsame : d.libraryCategories =
        d.stages.map (fun s => ({ id := s.id, name := s.name } : Category)) →
      syncCategories d = d := by
    intro he
    rw [syncCategories_eq, ← he]
  have hidem : ∀ x : Doc, syncCategories (syncCategories x) = syncCategories x := by
    intro x
    rw [syncCategories_eq (syncCategories x), syncCategories_eq x]
  refine ⟨syncCategories_eq d, hsame, hidem d, ?_, ?_⟩
  · intro h hc
    obtain ⟨h1, e1, c1⟩ := setAppState_fn_current h syncCategories d hc
    rw [e1]
    show setAppState h1 (.fn syncCategories) = some h1
    simp [setAppState, c1, hidem]
  · intro h hc he
    simp [setAppState, hc, hsame he]

theorem C25_syncCategories_witness :
    syncCategories (INITIAL_STATE_BASE 0) =
      { INITIAL_STATE_BASE 0 with
        libraryCategories := [{ id := "s-0-0", name := "Этап 1" }] } ∧
    syncCategories (syncCategories (INITIAL_STATE_BASE 0)) =
      syncCategories (INITIAL_STATE_BASE 0) :=
  ⟨(C25_syncCategories (INITIAL_STATE_BASE 0)).1.trans (by decide),
   (C25_syncCategories (INITIAL_STATE_BASE 0)).2.2.1⟩


/-! ## Numeric settings -/

theorem clamp_bounds (val min max : Int) (h : min ≤ max) :
    min ≤ clamp val min max ∧ clamp val min max ≤ max := by
  unfold clamp
  omega

theorem clamp_of_mem (val min max : Int) (h1 : min ≤ val) (h2 : val ≤ max) :
    clamp val min max = val := by
  unfold clamp
  omega

theorem Doc.num_setNum (p : Doc) (key : NumKey) (v : Int) : (p.setNum key v).num key = v := by
  cases key <;> rfl

theorem numControlProps_min_le_max (key : NumKey) :
    (numControlProps key).min ≤ (numControlProps key).max := by
  cases key <;> decide

/-- C26: the step buttons of a `NumControl` store a value within the range of the
setting, for every setting and every document; a value typed into the input is
stored as parsed, without clamping: typing `500` into the control of `bgScale`
(range 50..200) stores 500, typing `-5` into that of `bgPosX` (range 0..100)
stores -5, and the setter called with a number stores that number. -/
theorem C26_settings_clamp :
    (∀ (parseInt : String → Option Int) (key : NumKey) (ev : NumControlEvent) (d : Doc),
      (∀ value, ev ≠ .typed value) →
      (numControlProps key).min ≤ (numControl parseInt key ev d).num key ∧
      (numControl parseInt key ev d).num key ≤ (numControlProps key).max) ∧
    (∀ (parseInt : String → Option Int) (key : NumKey) (value : String) (d : Doc),
      (numControl parseInt key (.typed value) d).num key = getNumValue parseInt (.str value)) ∧
    (∀ (parseInt : String → Option Int) (key : NumKey) (v : Int) (d : Doc),
      (setNumberValue parseInt key (.value (.num v)) d).num key = v) ∧
    (numControlProps .bgScale).max = 200 ∧
    (numControl asciiParseInt .bgScale (.typed "500") (INITIAL_STATE_BASE 0)).bgScale = 500 ∧
    (numControlProps .bgPosX).min = 0 ∧
    (numControl asciiParseInt .bgPosX (.typed "-5") (INITIAL_STATE_BASE 0)).bgPosX = -5 := by
  refine ⟨?_, ?_, ?_, by decide, by decide, by decide, by decide⟩
  · intro parseInt key ev d hev
    have hb := numControlProps_min_le_max key
    cases ev with
    | typed value => exact absurd rfl (hev value)
    | minusLarge =>
      simp only [numControl, setNumberValue, updateSingleValue, Doc.num_setNum]
      exact clamp_bounds _ _ _ hb
    | minus =>
      simp only [numControl, setNumberValue, updateSingleValue, Doc.num_setNum]
      exact clamp_bounds _ _ _ hb
    | plus =>
      simp only [numControl, setNumberValue, updateSingleValue, Doc.num_setNum]
      exact clamp_bounds _ _ _ hb
    | plusLarge =>
      simp only [numControl, setNumberValue, updateSingleValue, Doc.num_setNum]
      exact clamp_bounds _ _ _ hb
  · intro parseInt key value d
    simp only [numControl, setNumberValue, updateSingleValue, Doc.num_setNum]
  · intro parseInt key v d
    simp only [setNumberValue, updateSingleValue, Doc.num_setNum, getNumValue]


/-! ## Rows import -/

/-- C27: for every document `d` and every payload object whose `rows` is an
array, the rows import hands over an updater whose result is `d` with only
`stages` replaced; the stage list keeps its length, every stage whose id is not
`activeStageId` is unchanged, and a stage whose id is `activeStageId` keeps its
id, name, stats and correctTeams and gets the payload rows defaulted by
`validateRows` and their number as `rowCount`.  A payload object without
`rows`, and a bare array, make the branch throw before any commit. -/
theorem C27_importPickem (d : Doc) (o : FileObject) :
    (∀ rows : List RawRow, o.rows = some rows →
      ∃ f : Doc → Doc, importPickem (.object o) = some f ∧
        f d = { d with stages := d.stages.map (fun stage =>
          if stage.id = d.activeStageId
          then { stage with rows := validateRows (some rows), rowCount := rows.length }
          else stage) } ∧
        (f d).stages.length = d.stages.length ∧
        (∀ (i : Nat) (stage : Stage), d.stages[i]? = some stage →
          (stage.id ≠ d.activeStageId → (f d).stages[i]? = some stage) ∧
          (stage.id = d.activeStageId →
            (f d).stages[i]? = some { stage with
              rows := validateRows (some rows), rowCount := rows.length })) ∧
        (validateRows (some rows)).length = rows.length) ∧
    (o.rows = none → importPickem (.object o) = none) ∧
    (∀ rs : List RawRow, importPickem (.bareRows rs) = none) := by
  refine ⟨?_, ?_, fun _ => rfl⟩
  · intro rows hrows
    have hlen : (validateRows (some rows)).length = rows.length := by
      simp [validateRows]
    have himp : importPickem (.object o) = some (fun prevState =>
        { prevState with
          stages := prevState.stages.map (fun stage =>
            if stage.id = prevState.activeStageId
            then { stage with rows := validateRows (some rows),
                              rowCount := (validateRows (some rows)).length }
            else stage) }) := by
      simp only [importPickem, hrows]
    refine ⟨_, himp, ?_, ?_, ?_, hlen⟩
    · simp only [hlen]
    · simp
    · intro i stage hi
      simp only [List.getElem?_map, hi, Option.map_some', hlen]
      constructor
      · intro hne
        rw [if_neg hne]
      · intro he
        rw [if_pos he]
  · intro hnone
    simp only [importPickem, hnone]

theorem C27_importPickem_witness :
    ∃ f : Doc → Doc,
      importPickem (.object { FileObject.empty with rows := some [(createRow 0).toRaw] }) =
        some f ∧
      (f (INITIAL_STATE_BASE 0)).stages =
        [{ INITIAL_STAGE 0 with rows := [createRow 0], rowCount := 1 }] := by
  obtain ⟨f, hf, hd, -⟩ := (C27_importPickem (INITIAL_STATE_BASE 0)
    { FileObject.empty with rows := some [(createRow 0).toRaw] }).1 [(createRow 0).toRaw] rfl
  refine ⟨f, hf, ?_⟩
  rw [hd]
  decide


/-! ## Undo and the category synchronisation -/

/-- C29 (refuted): take a history whose last two entries are a document `d`
with stale categories and its synchronised copy, the cursor on the copy, as any
stage change followed by the synchronisation commit leaves it.  Undo moves the
cursor back onto `d`; the synchronisation step that follows finds `d` stale and
commits again, which puts back the very history state from before the undo.
So undo followed by the synchronisation is not undo alone, and the document
before the stage change is never reached. -/
theorem C29_undo_sync (pre : List Doc) (d : Doc) (hd : syncCategories d ≠ d)
    (hlen : pre.length + 2 ≤ MAX_HISTORY) :
    undo ({ current := some (syncCategories d), history := pre ++ [d, syncCategories d],
            index := pre.length + 1 } : HistoryState Doc) =
      { current := some d, history := pre ++ [d, syncCategories d], index := pre.length } ∧
    setAppState (undo ({ current := some (syncCategories d),
                         history := pre ++ [d, syncCategories d],
                         index := pre.length + 1 } : HistoryState Doc)) (.fn syncCategories) =
      some { current := some (syncCategories d), history := pre ++ [d, syncCategories d],
             index := pre.length + 1 } ∧
    setAppState (undo ({ current := some (syncCategories d),
                         history := pre ++ [d, syncCategories d],
                         index := pre.length + 1 } : HistoryState Doc)) (.fn syncCategories) ≠
      some (undo ({ current := some (syncCategories d),
                    history := pre ++ [d, syncCategories d],
                    index := pre.length + 1 } : HistoryState Doc)) := by
  have hundo : undo ({ current := some (syncCategories d),
                       history := pre ++ [d, syncCategories d],
                       index := pre.length + 1 } : HistoryState Doc) =
      { current := some d, history := pre ++ [d, syncCategories d], index := pre.length } := by
    simp [undo, List.getElem_append_right]
  have hM : MAX_HISTORY = 50 := rfl
  rw [hM] at hlen
  have hcommit : setAppState ({ current := some d, history := pre ++ [d, syncCategories d],
                                index := pre.length } : HistoryState Doc) (.fn syncCategories) =
      some { current := some (syncCategories d), history := pre ++ [d, syncCategories d],
             index := pre.length + 1 } := by
    rw [setAppState_fn _ syncCategories d rfl, setAppState_value_diff _ _ (by simpa using hd.symm)]
    have htake : List.take (pre.length + 1) (pre ++ [d, syncCategories d]) = pre ++ [d] := by
      rw [List.take_append_eq_append_take]
      simp
    dsimp only
    rw [htake]
    simp only [List.length_append, List.length_singleton, hM]
    rw [if_neg (by omega)]
    simp
  refine ⟨hundo, ?_, ?_⟩
  · rw [hundo, hcommit]
  · rw [hundo, hcommit]
    intro he
    have := congrArg (fun o => o.map (fun s => s.index)) he
    simp at this

theorem C29_undo_sync_witness :
    ((setAppState (initialHistory (INITIAL_STATE_BASE 0)) (.fn syncCategories)).bind
      (fun h1 => (setAppState h1 (.fn (addNewStage 1))).bind
        (fun h2 => setAppState h2 (.fn syncCategories)))) =
      some { current := some (syncCategories (addNewStage 1 (syncCategories (INITIAL_STATE_BASE 0)))),
             history := [INITIAL_STATE_BASE 0, syncCategories (INITIAL_STATE_BASE 0)] ++
               [addNewStage 1 (syncCategories (INITIAL_STATE_BASE 0)),
                syncCategories (addNewStage 1 (syncCategories (INITIAL_STATE_BASE 0)))],
             index := 3 } ∧
    setAppState (undo ({
        current := some (syncCategories (addNewStage 1 (syncCategories (INITIAL_STATE_BASE 0))))
        history := [INITIAL_STATE_BASE 0, syncCategories (INITIAL_STATE_BASE 0)] ++
          [addNewStage 1 (syncCategories (INITIAL_STATE_BASE 0)),
           syncCategories (addNewStage 1 (syncCategories (INITIAL_STATE_BASE 0)))]
        index := 3 } : HistoryState Doc)) (.fn syncCategories) =
      some { current := some (syncCategories (addNewStage 1 (syncCategories (INITIAL_STATE_BASE 0)))),
             history := [INITIAL_STATE_BASE 0, syncCategories (INITIAL_STATE_BASE 0)] ++
               [addNewStage 1 (syncCategories (INITIAL_STATE_BASE 0)),
                syncCategories (addNewStage 1 (syncCategories (INITIAL_STATE_BASE 0)))],
             index := 3 } :=
  ⟨by decide,
   (C29_undo_sync [INITIAL_STATE_BASE 0, syncCategories (INITIAL_STATE_BASE 0)]
      (addNewStage 1 (syncCategories (INITIAL_STATE_BASE 0))) (by decide) (by decide)).2.1⟩


/-! ## Row ids -/

/-- C30 (refuted): the ten initial rows have pairwise distinct ids; moving row 8
down gives a hole-free list that ends with the rows `r-9`, `r-8`; `setRowCount`
9 then drops the row `r-8`, and `setRowCount` 10 appends `createRow 9`, whose
id `r-9` is the id of the row before it: the rows of the active stage then hold
the id `r-9` twice. -/
theorem C30_row_ids :
    ((getInitialRows 10).map (fun r => r.id)).Nodup ∧
    definedRows (moveRow 8 1 (getInitialRows 10)) =
      some [createRow 0, createRow 1, createRow 2, createRow 3, createRow 4, createRow 5,
            createRow 6, createRow 7, createRow 9, createRow 8] ∧
    (((setAppState (initialHistory (INITIAL_STATE_BASE 0))
          (.fn (setRows (fun prevRows =>
            match definedRows (moveRow 8 1 prevRows) with
            | some newRows => newRows
            | none => prevRows)))).bind
        (fun h1 => (setRowCount 9 h1).bind (fun h2 => setRowCount 10 h2))).bind
      (fun h3 => (h3.current.bind activeStage).map
        (fun stage => stage.rows.map (fun r => r.id)))) =
      some ["r-0", "r-1", "r-2", "r-3", "r-4", "r-5", "r-6", "r-7", "r-9", "r-9"] ∧
    ¬ (["r-0", "r-1", "r-2", "r-3", "r-4", "r-5", "r-6", "r-7", "r-9", "r-9"] :
        List String).Nodup ∧
    (updateRowCountStage 10 (updateRowCountStage 9
        { INITIAL_STAGE 0 with rows :=
            [createRow 0, createRow 1, createRow 2, createRow 3, createRow 4, createRow 5,
             createRow 6, createRow 7, createRow 9, createRow 8] })).rows =
      [createRow 0, createRow 1, createRow 2, createRow 3, createRow 4, createRow 5,
       createRow 6, createRow 7, createRow 9, createRow 9] := by
  refine ⟨by decide, by decide, by decide, by decide, by decide⟩

end PBM
